import Mathlib

/-! The automation engine of `src/js/automation-engine.js`.

A shallow embedding of `createAutomationEngine` and of the JavaScript event loop it runs on.

* The four closure variables of the engine (`scheduledTasks`, `executionTimers`,
  `completionCallbacks`, `executionStatus`) are fields of `World`; a JavaScript `Map` is an
  association list in insertion order.
* The public methods are `async` functions without an `await` in their bodies, so each one runs to
  completion once called: each is one function `World → TaskId → Except EngineError CmdResult × World`.
* `attemptExecution` suspends at `await simulateClickExecution(config)` and at the retry wait.
  Each of its activations is a `Proc` in `World.procs`; the event `attemptBegin` runs lines 174-181
  (up to the first `await`), the event `attemptSettle` runs lines 182-216 with the outcome of
  `simulateClickExecution` (the `Math.random` draw is the Boolean carried by the event).
* `setTimeout` handles armed by `schedule` and `resumeExecution` are the `Timer`s of `World.timers`.
  The model does not tie the firing of a timer to the clock: a pending callback may run at any
  moment, which includes every order of callbacks the real event loop can produce.
* `Date.now()` is the field `now`, advanced by the event `tick`. A `Date` is its time value
  or the Invalid Date (`JSDate`), which `schedule` accepts.
* A completion callback is an observer that returns or throws; its invocations are logged in
  `World.delivered`, the `console.error` calls of the engine in `World.consoleErrors`.
* The exported helpers `validateExecutionConfig` and `createDOMSelector` are pure functions; a
  thrown `Error` is the `.error` of `Except`.
* Records are kept by value in `World.executionStatus`. Where the identity of an object matters
  (the copy returned by `getExecutionStatus`), `Heap` adds the objects handed out to callers and
  `ObjRef` tells them apart from the records.
-/

namespace AutomationEngine

/-! ## JavaScript values -/

/-- A JavaScript number: a finite value, `NaN`, `Infinity` or `-Infinity`. -/
inductive JSNum
  | fin (q : ℚ)
  | nan
  | posInf
  | negInf
  deriving DecidableEq

/-- Truthiness of a number: `0` and `NaN` are falsy. -/
def JSNum.truthy : JSNum → Bool
  | .fin q => decide (q ≠ 0)
  | .nan => false
  | .posInf => true
  | .negInf => true

/-- The comparison `x < 0`. -/
def JSNum.ltZero : JSNum → Bool
  | .fin q => decide (q < 0)
  | .nan => false
  | .posInf => false
  | .negInf => true

/-- The comparison `k < x` for an attempt counter `k`. -/
def JSNum.natLt (k : Nat) : JSNum → Bool
  | .fin q => decide ((k : ℚ) < q)
  | .nan => false
  | .posInf => true
  | .negInf => false

/-- A JavaScript value as far as `validateExecutionConfig` tells values apart. -/
inductive JSVal
  | undefined
  | null
  | bool (b : Bool)
  | num (x : JSNum)
  | str (s : String)
  | object
  deriving DecidableEq

/-- The operator `typeof`. -/
def JSVal.typeof : JSVal → String
  | .undefined => "undefined"
  | .null => "object"
  | .bool _ => "boolean"
  | .num _ => "number"
  | .str _ => "string"
  | .object => "object"

/-- Truthiness of a value (what `!v` and `v || d` test). -/
def JSVal.truthy : JSVal → Bool
  | .undefined => false
  | .null => false
  | .bool b => b
  | .num x => x.truthy
  | .str s => decide (s ≠ "")
  | .object => true

/-- The comparison `v < 0`, evaluated by the validator only where `typeof v` is `number`. -/
def JSVal.ltZero : JSVal → Bool
  | .num x => x.ltZero
  | _ => false

/-- The string held by a value whose `typeof` is `string`. -/
def JSVal.asStr : JSVal → String
  | .str s => s
  | _ => ""

/-- The number held by a value that is `undefined` or of type `number`. -/
def JSVal.asNum : JSVal → Option JSNum
  | .num x => some x
  | _ => none

/-- A JavaScript `Date`: a time value in milliseconds, or the Invalid Date, whose time value is
`NaN` (for instance `new Date(NaN)`). -/
inductive JSDate
  | valid (ms : Int)
  | invalid
  deriving DecidableEq

/-- The comparison `date <= new Date()` of line 255 at the clock value `now`; a comparison with
the time value `NaN` is false. -/
def JSDate.notAfter (d : JSDate) (now : Int) : Bool :=
  match d with
  | .valid ms => decide (ms ≤ now)
  | .invalid => false

/-- The expression `date.getTime() - Date.now()` of lines 268 and 364 at the clock value `now`;
`none` is `NaN`. -/
def JSDate.msFrom (d : JSDate) (now : Int) : Option Int :=
  match d with
  | .valid ms => some (ms - now)
  | .invalid => none

/-- The call `Math.max(0, x)` of line 364; `none` is `NaN`. -/
def maxZero (x : Option Int) : Option Int :=
  x.map (fun v => max 0 v)

/-- The comparator of line 442, `a.executionTime - b.executionTime`, as `Array.prototype.sort`
reads it: the difference of the two time values, where the result `NaN` counts as `+0`. -/
def compareTime (a b : JSDate) : Int :=
  match a, b with
  | .valid x, .valid y => x - y
  | _, _ => 0

/-! ## Data model -/

abbrev TaskId := String

/-- Errors thrown by the engine, one constructor per `throw new Error(...)` of the source. -/
inductive EngineError
  /-- Message 執行配置不能為空 (line 70). -/
  | configEmpty
  /-- Message 執行配置缺少有效的 targetUrl 字符串 (line 75). -/
  | invalidTargetUrl
  /-- Message 執行配置缺少有效的 clickSelector 字符串 (line 79). -/
  | invalidClickSelector
  /-- Message clickDelay 必須為非負整數 (line 85). -/
  | invalidClickDelay
  /-- Message retryCount 必須為非負整數 (line 91). -/
  | invalidRetryCount
  /-- Message retryDelay 必須為非負整數 (line 97). -/
  | invalidRetryDelay
  /-- Message 任務配置缺少 taskId (line 241). -/
  | missingTaskId
  /-- Message 任務 ... 已排程 (line 245). -/
  | alreadyScheduled (taskId : TaskId)
  /-- Message executionTime 必須是 Date 對象 (line 252). -/
  | executionTimeNotDate
  /-- Message executionTime 不能早於當前時間 (line 256). -/
  | executionTimePast
  /-- Message 未找到任務 (lines 291, 325, 354, 385, 409). -/
  | taskNotFound (taskId : TaskId)
  /-- Message 無效的任務狀態 (line 296). -/
  | invalidTaskState (taskId : TaskId)
  /-- Message 無法暫停已完成的任務 (line 329). -/
  | cannotPauseFinished (taskId : TaskId)
  /-- Message 任務不在暫停狀態 (line 358). -/
  | notPaused (taskId : TaskId)
  /-- Message 回調必須是函數 (line 457). -/
  | callbackNotFunction
  /-- The `TypeError` of reading `status.status` of a missing record (line 435). -/
  | typeError
  deriving DecidableEq

/-- The `config` object as the caller passes it. -/
structure RawConfig where
  targetUrl : JSVal
  clickSelector : JSVal
  clickDelay : JSVal
  retryCount : JSVal
  retryDelay : JSVal
  deriving DecidableEq

/-- A `config` object that passed `validateExecutionConfig`: both strings are present, each
optional field is absent (`none`, the value `undefined`) or a number. -/
structure ExecutionConfig where
  targetUrl : String
  clickSelector : String
  clickDelay : Option JSNum
  retryCount : Option JSNum
  retryDelay : Option JSNum
  deriving DecidableEq

/-- Source lines 68-100. The checks are those of the source, in its order; where the source
returns without throwing, the model returns the typed view of the accepted object. -/
def validateExecutionConfig (config : Option RawConfig) : Except EngineError ExecutionConfig :=
  match config with
  | none => .error .configEmpty
  | some c =>
    if !c.targetUrl.truthy || c.targetUrl.typeof ≠ "string" then
      .error .invalidTargetUrl
    else if !c.clickSelector.truthy || c.clickSelector.typeof ≠ "string" then
      .error .invalidClickSelector
    else if c.clickDelay ≠ .undefined ∧ (c.clickDelay.typeof ≠ "number" || c.clickDelay.ltZero) then
      .error .invalidClickDelay
    else if c.retryCount ≠ .undefined ∧ (c.retryCount.typeof ≠ "number" || c.retryCount.ltZero) then
      .error .invalidRetryCount
    else if c.retryDelay ≠ .undefined ∧ (c.retryDelay.typeof ≠ "number" || c.retryDelay.ltZero) then
      .error .invalidRetryDelay
    else
      .ok { targetUrl := c.targetUrl.asStr
            clickSelector := c.clickSelector.asStr
            clickDelay := c.clickDelay.asNum
            retryCount := c.retryCount.asNum
            retryDelay := c.retryDelay.asNum }

/-- The expression `v || d` for an optional numeric field `v` and a numeric default `d`. -/
def orDefault (v : Option JSNum) (d : ℚ) : JSNum :=
  match v with
  | some x => if x.truthy then x else .fin d
  | none => .fin d

/-- The six values of `status.status` (line 134). -/
inductive Status
  | scheduled
  | executing
  | completed
  | failed
  | paused
  | cancelled
  deriving DecidableEq

/-- The string of a status. -/
def Status.name : Status → String
  | .scheduled => "scheduled"
  | .executing => "executing"
  | .completed => "completed"
  | .failed => "failed"
  | .paused => "paused"
  | .cancelled => "cancelled"

/-- The object `simulateClickExecution` resolves with (lines 158-162); `success` is always true. -/
structure ClickResult where
  message : String
  timestamp : Int
  deriving DecidableEq

/-- The record of `executionStatus` (lines 131-144). -/
structure StatusInfo where
  taskId : TaskId
  status : Status
  config : ExecutionConfig
  executionTime : JSDate
  attemptCount : Nat
  lastAttemptTime : Option Int
  cancelledAt : Option Int
  completedAt : Option Int
  error : Option String
  result : Option ClickResult
  deriving DecidableEq

/-- The argument of `schedule`; `executionTime` is `none` when it is not a `Date`, and
`some .invalid` when it is an Invalid Date, which is a `Date` as well. -/
structure TaskRequest where
  taskId : TaskId
  config : Option RawConfig
  executionTime : Option JSDate
  deriving DecidableEq

/-- An accepted `taskConfig` as kept in `scheduledTasks`. -/
structure TaskInfo where
  taskId : TaskId
  config : ExecutionConfig
  executionTime : JSDate
  deriving DecidableEq

/-- The payload passed to the completion callbacks (lines 187-192 and 208-213). -/
structure CompletionEvent where
  taskId : TaskId
  success : Bool
  result : Option ClickResult
  error : Option String
  attemptCount : Nat
  deriving DecidableEq

/-- A completion callback: an observer that returns or throws. -/
structure Callback where
  ident : Nat
  throws : Bool
  deriving DecidableEq

/-- A `setTimeout` handle armed by `schedule` (line 270) or `resumeExecution` (line 365); its
callback runs `executeTask(taskId)`. The field `delayMs` is the delay handed to `setTimeout`,
`none` when it is `NaN`. -/
structure Timer where
  timerId : Nat
  taskId : TaskId
  delayMs : Option Int
  armedAt : Int
  deriving DecidableEq

/-- Where an activation of the retry controller is suspended. -/
inductive Phase
  /-- The `setImmediate` callback of `executeTask` (line 309) has not run yet. -/
  | immediate
  /-- Awaiting `simulateClickExecution(config)` (line 181), whose timer was set for `delay`. -/
  | inFlight (delay : JSNum)
  /-- Awaiting the retry wait `setTimeout(resolve, retryDelay)` (line 201). -/
  | retryWait (delay : JSNum)
  deriving DecidableEq

/-- One run of the retry controller: the arguments of `attemptExecution` and its suspension
point. In phase `immediate` no activation exists yet and `currentAttempt` is 0. -/
structure Proc where
  pid : Nat
  taskId : TaskId
  config : ExecutionConfig
  currentAttempt : Nat
  maxRetries : JSNum
  phase : Phase
  deriving DecidableEq

/-- One entry of the array returned by `listScheduledTasks` (lines 432-438). -/
structure TaskSummary where
  taskId : TaskId
  executionTime : JSDate
  status : Status
  attemptCount : Nat
  config : ExecutionConfig
  deriving DecidableEq

/-- The value a public method resolves with. -/
inductive CmdResult
  | scheduled (taskId : TaskId) (status : Status) (executionTime : JSDate)
  | taskStatus (taskId : TaskId) (status : Status)
  | statusInfo (info : StatusInfo)
  | taskList (tasks : List TaskSummary)
  | unit
  deriving DecidableEq

/-- The engine state and the pending work of the event loop. -/
structure World where
  now : Int
  scheduledTasks : List (TaskId × TaskInfo)
  executionTimers : List (TaskId × Nat)
  completionCallbacks : List Callback
  executionStatus : List (TaskId × StatusInfo)
  timers : List Timer
  nextTimerId : Nat
  procs : List Proc
  nextPid : Nat
  delivered : List (Nat × CompletionEvent)
  consoleErrors : List String
  deriving DecidableEq

/-- A fresh engine (lines 121-124) at clock value `t0`. -/
def World.init (t0 : Int) : World :=
  { now := t0, scheduledTasks := [], executionTimers := [], completionCallbacks := [],
    executionStatus := [], timers := [], nextTimerId := 0, procs := [], nextPid := 0,
    delivered := [], consoleErrors := [] }

/-! ## JavaScript `Map` as an association list in insertion order -/

/-- The call `map.get(k)`. -/
def mapGet {α : Type} : List (TaskId × α) → TaskId → Option α
  | [], _ => none
  | (k', v) :: m, k => if k' = k then some v else mapGet m k

/-- The call `map.has(k)`. -/
def mapHas {α : Type} (m : List (TaskId × α)) (k : TaskId) : Bool :=
  (mapGet m k).isSome

/-- The call `map.set(k, v)`: replaces in place, or appends a new key. -/
def mapSet {α : Type} : List (TaskId × α) → TaskId → α → List (TaskId × α)
  | [], k, v => [(k, v)]
  | (k', v') :: m, k, v => if k' = k then (k, v) :: m else (k', v') :: mapSet m k v

/-- The call `map.delete(k)`. -/
def mapDelete {α : Type} : List (TaskId × α) → TaskId → List (TaskId × α)
  | [], _ => []
  | (k', v') :: m, k => if k' = k then mapDelete m k else (k', v') :: mapDelete m k

/-- The call `clearTimeout(timerId)`. -/
def clearTimeout (timers : List Timer) (timerId : Nat) : List Timer :=
  timers.filter (fun t => decide (t.timerId ≠ timerId))

/-- The activation with the given `pid`. -/
def findProc : List Proc → Nat → Option Proc
  | [], _ => none
  | p :: ps, pid => if p.pid = pid then some p else findProc ps pid

/-- The runs without the one with the given `pid`. -/
def removeProc (procs : List Proc) (pid : Nat) : List Proc :=
  procs.filter (fun p => decide (p.pid ≠ pid))

/-- Replaces the run with the `pid` of `p` by `p`. -/
def setProc (procs : List Proc) (p : Proc) : List Proc :=
  procs.map (fun q => if q.pid = p.pid then p else q)

/-- The armed timer with the given handle. -/
def findTimer : List Timer → Nat → Option Timer
  | [], _ => none
  | t :: ts, timerId => if t.timerId = timerId then some t else findTimer ts timerId

/-! ## Private functions of the engine -/

/-- Source lines 131-144. -/
def createStatusInfo (taskId : TaskId) (config : ExecutionConfig) (executionTime : JSDate) :
    StatusInfo :=
  { taskId := taskId, status := .scheduled, config := config, executionTime := executionTime,
    attemptCount := 0, lastAttemptTime := none, cancelledAt := none, completedAt := none,
    error := none, result := none }

/-- The delay of `simulateClickExecution`, `config.clickDelay || 500` (line 153). -/
def simulateClickDelay (config : ExecutionConfig) : JSNum :=
  orDefault config.clickDelay 500

/-- The value `simulateClickExecution` resolves with (lines 158-162). -/
def simulateClickResult (config : ExecutionConfig) (now : Int) : ClickResult :=
  { message := "成功點擊選擇器: " ++ config.clickSelector, timestamp := now }

/-- The message of the error `simulateClickExecution` rejects with (line 164). -/
def simulateClickError (config : ExecutionConfig) : String :=
  "無法找到選擇器: " ++ config.clickSelector

/-- One callback invocation inside the `try` of lines 225-229. -/
def invokeCallback (result : CompletionEvent) (w : World) (callback : Callback) : World :=
  if callback.throws then
    { w with delivered := w.delivered ++ [(callback.ident, result)]
             consoleErrors := w.consoleErrors ++ ["完成回調執行失敗:"] }
  else
    { w with delivered := w.delivered ++ [(callback.ident, result)] }

/-- Source lines 223-231. -/
def triggerCompletionCallbacks (w : World) (result : CompletionEvent) : World :=
  w.completionCallbacks.foldl (invokeCallback result) w

/-- The guarded `clearTimeout` and `executionTimers.delete` of lines 300-303, 333-336, 389-392. -/
def clearTaskTimer (w : World) (taskId : TaskId) : World :=
  match mapGet w.executionTimers taskId with
  | some timerId =>
    { w with timers := clearTimeout w.timers timerId
             executionTimers := mapDelete w.executionTimers taskId }
  | none => w

/-- Source lines 174-181: `attemptExecution` up to its first `await`, run for the activation
`pid` with the arguments `taskId, config, currentAttempt, maxRetries`. -/
def attemptExecution (w : World) (pid : Nat) (taskId : TaskId) (config : ExecutionConfig)
    (currentAttempt : Nat) (maxRetries : JSNum) : World :=
  match mapGet w.executionStatus taskId with
  | none => { w with procs := removeProc w.procs pid }
  | some status =>
    let status1 := { status with attemptCount := currentAttempt, lastAttemptTime := some w.now }
    { w with executionStatus := mapSet w.executionStatus taskId status1
             procs := setProc w.procs
               { pid := pid, taskId := taskId, config := config, currentAttempt := currentAttempt,
                 maxRetries := maxRetries, phase := .inFlight (simulateClickDelay config) } }

/-- Source lines 182-216: the continuation of `attemptExecution` once
`simulateClickExecution` has settled; `success` is the draw of line 156. The record is the
object read at line 174, which is the one `executionStatus` still holds for `taskId`. -/
def attemptSettled (w : World) (p : Proc) (success : Bool) : World :=
  match mapGet w.executionStatus p.taskId with
  | none => { w with procs := removeProc w.procs p.pid }
  | some status =>
    if success then
      let result := simulateClickResult p.config w.now
      let status1 := { status with status := .completed, completedAt := some w.now,
                                   result := some result }
      let w1 := { w with executionStatus := mapSet w.executionStatus p.taskId status1
                         procs := removeProc w.procs p.pid }
      triggerCompletionCallbacks w1
        { taskId := p.taskId, success := true, result := some result, error := none,
          attemptCount := p.currentAttempt }
    else
      let message := simulateClickError p.config
      let status1 := { status with error := some message }
      if p.maxRetries.natLt p.currentAttempt then
        { w with executionStatus := mapSet w.executionStatus p.taskId status1
                 procs := setProc w.procs
                   { p with phase := .retryWait (orDefault p.config.retryDelay 1000) } }
      else
        let status2 := { status1 with status := .failed, completedAt := some w.now }
        let w1 := { w with executionStatus := mapSet w.executionStatus p.taskId status2
                           procs := removeProc w.procs p.pid }
        triggerCompletionCallbacks w1
          { taskId := p.taskId, success := false, result := none, error := some message,
            attemptCount := p.currentAttempt }

/-! ## Public methods -/

/-- Source lines 239-283. -/
def schedule (w : World) (taskConfig : Option TaskRequest) :
    Except EngineError CmdResult × World :=
  match taskConfig with
  | none => (.error .missingTaskId, w)
  | some tc =>
    if tc.taskId = "" then
      (.error .missingTaskId, w)
    else if mapHas w.scheduledTasks tc.taskId then
      (.error (.alreadyScheduled tc.taskId), w)
    else
      match validateExecutionConfig tc.config with
      | .error e => (.error e, w)
      | .ok config =>
        match tc.executionTime with
        | none => (.error .executionTimeNotDate, w)
        | some executionTime =>
          if executionTime.notAfter w.now then
            (.error .executionTimePast, w)
          else
            let statusInfo := createStatusInfo tc.taskId config executionTime
            let delayMs := executionTime.msFrom w.now
            let timerId := w.nextTimerId
            (.ok (.scheduled tc.taskId .scheduled executionTime),
             { w with
               executionStatus := mapSet w.executionStatus tc.taskId statusInfo
               scheduledTasks := mapSet w.scheduledTasks tc.taskId
                 { taskId := tc.taskId, config := config, executionTime := executionTime }
               timers := w.timers ++
                 [{ timerId := timerId, taskId := tc.taskId, delayMs := delayMs, armedAt := w.now }]
               nextTimerId := timerId + 1
               executionTimers := mapSet w.executionTimers tc.taskId timerId })

/-- Source lines 288-317. The `setImmediate` callback of line 309 becomes a new run in phase
`immediate`, holding `taskConfig.config` and `maxRetries`. -/
def executeTask (w : World) (taskId : TaskId) : Except EngineError CmdResult × World :=
  match mapGet w.scheduledTasks taskId with
  | none => (.error (.taskNotFound taskId), w)
  | some taskConfig =>
    match mapGet w.executionStatus taskId with
    | none => (.error (.invalidTaskState taskId), w)
    | some status =>
      let w1 := clearTaskTimer w taskId
      let status1 := { status with status := .executing }
      let maxRetries := orDefault taskConfig.config.retryCount 3
      (.ok (.taskStatus taskId .executing),
       { w1 with
         executionStatus := mapSet w1.executionStatus taskId status1
         procs := w1.procs ++
           [{ pid := w1.nextPid, taskId := taskId, config := taskConfig.config,
              currentAttempt := 0, maxRetries := maxRetries, phase := .immediate }]
         nextPid := w1.nextPid + 1 })

/-- Source lines 322-344. -/
def pauseExecution (w : World) (taskId : TaskId) : Except EngineError CmdResult × World :=
  match mapGet w.executionStatus taskId with
  | none => (.error (.taskNotFound taskId), w)
  | some status =>
    if status.status = .completed ∨ status.status = .failed then
      (.error (.cannotPauseFinished taskId), w)
    else
      let w1 := clearTaskTimer w taskId
      let status1 := { status with status := .paused }
      (.ok (.taskStatus taskId .paused),
       { w1 with executionStatus := mapSet w1.executionStatus taskId status1 })

/-- Source lines 349-377. -/
def resumeExecution (w : World) (taskId : TaskId) : Except EngineError CmdResult × World :=
  match mapGet w.executionStatus taskId with
  | none => (.error (.taskNotFound taskId), w)
  | some status =>
    if status.status ≠ .paused then
      (.error (.notPaused taskId), w)
    else
      let status1 := { status with status := .scheduled }
      let delayMs := maxZero (status.executionTime.msFrom w.now)
      let timerId := w.nextTimerId
      (.ok (.taskStatus taskId .scheduled),
       { w with
         executionStatus := mapSet w.executionStatus taskId status1
         timers := w.timers ++
           [{ timerId := timerId, taskId := taskId, delayMs := delayMs, armedAt := w.now }]
         nextTimerId := timerId + 1
         executionTimers := mapSet w.executionTimers taskId timerId })

/-- Source lines 382-401. -/
def cancelExecution (w : World) (taskId : TaskId) : Except EngineError CmdResult × World :=
  match mapGet w.executionStatus taskId with
  | none => (.error (.taskNotFound taskId), w)
  | some status =>
    let w1 := clearTaskTimer w taskId
    let status1 := { status with status := .cancelled, cancelledAt := some w.now }
    (.ok (.taskStatus taskId .cancelled),
     { w1 with executionStatus := mapSet w1.executionStatus taskId status1 })

/-- Source lines 406-424: the fields of the object the method returns. The object itself, as
opposed to the record it is copied from, is told apart in `getExecutionStatusRef`. -/
def getExecutionStatus (w : World) (taskId : TaskId) : Except EngineError CmdResult × World :=
  match mapGet w.executionStatus taskId with
  | none => (.error (.taskNotFound taskId), w)
  | some status =>
    (.ok (.statusInfo
      { taskId := status.taskId, status := status.status, config := status.config,
        executionTime := status.executionTime, attemptCount := status.attemptCount,
        lastAttemptTime := status.lastAttemptTime, cancelledAt := status.cancelledAt,
        completedAt := status.completedAt, error := status.error, result := status.result }), w)

/-- The mapping function of lines 430-439; reading `status.status` of a missing record throws. -/
def summarize (w : World) (taskConfig : TaskInfo) : Except EngineError TaskSummary :=
  match mapGet w.executionStatus taskConfig.taskId with
  | none => .error .typeError
  | some status =>
    .ok { taskId := taskConfig.taskId, executionTime := taskConfig.executionTime,
          status := status.status, attemptCount := status.attemptCount,
          config := taskConfig.config }

/-- Source lines 429-450. `filter` is `filter.status`, absent as `none`. `Array.prototype.sort`
is stable, and while no stored `executionTime` is an Invalid Date the comparator is consistent
and the result is the one of the insertion sort used here. With an Invalid Date the comparator
is not consistent and ECMAScript leaves the order to the implementation; the model then gives
the order of the insertion sort, which moves no element over one it compares as `+0`. -/
def listScheduledTasks (w : World) (filter : Option String) :
    Except EngineError CmdResult × World :=
  match (w.scheduledTasks.map (fun e => e.2)).mapM (summarize w) with
  | .error e => (.error e, w)
  | .ok tasks =>
    let sorted := tasks.insertionSort
      (fun a b => compareTime a.executionTime b.executionTime ≤ 0)
    match filter with
    | some s =>
      if s ≠ "" then
        (.ok (.taskList (sorted.filter (fun t => decide (t.status.name = s)))), w)
      else
        (.ok (.taskList sorted), w)
    | none => (.ok (.taskList sorted), w)

/-- Source lines 455-460; `callback` is `none` when the argument is not a function. -/
def onExecutionComplete (w : World) (callback : Option Callback) :
    Except EngineError CmdResult × World :=
  match callback with
  | none => (.error .callbackNotFunction, w)
  | some cb => (.ok .unit, { w with completionCallbacks := w.completionCallbacks ++ [cb] })

/-! ## The event loop -/

/-- The callback of an armed timer (lines 270-274 and 365-369): the handle is spent, then
`executeTask(taskId)` runs and a rejection is logged by `console.error`. -/
def fireTimer (w : World) (t : Timer) : World :=
  let w1 := { w with timers := clearTimeout w.timers t.timerId }
  match executeTask w1 t.taskId with
  | (.ok _, w2) => w2
  | (.error _, w2) => { w2 with consoleErrors := w2.consoleErrors ++ ["任務自動執行失敗:"] }

/-- What can happen next: a call of a public method, the passage of time, or a pending
callback of the event loop. -/
inductive Event
  | schedule (taskConfig : Option TaskRequest)
  | executeTask (taskId : TaskId)
  | pauseExecution (taskId : TaskId)
  | resumeExecution (taskId : TaskId)
  | cancelExecution (taskId : TaskId)
  | getExecutionStatus (taskId : TaskId)
  | listScheduledTasks (filter : Option String)
  | onExecutionComplete (callback : Option Callback)
  | tick (dt : Nat)
  | timerFire (timerId : Nat)
  | attemptBegin (pid : Nat)
  | attemptSettle (pid : Nat) (success : Bool)
  deriving DecidableEq

/-- One event. A call of a public method always runs (a thrown error leaves the world as the
method left it); a callback runs only if it is pending, otherwise the result is `none`. -/
def step (w : World) : Event → Option World
  | .schedule taskConfig => some (schedule w taskConfig).2
  | .executeTask taskId => some (executeTask w taskId).2
  | .pauseExecution taskId => some (pauseExecution w taskId).2
  | .resumeExecution taskId => some (resumeExecution w taskId).2
  | .cancelExecution taskId => some (cancelExecution w taskId).2
  | .getExecutionStatus taskId => some (getExecutionStatus w taskId).2
  | .listScheduledTasks filter => some (listScheduledTasks w filter).2
  | .onExecutionComplete callback => some (onExecutionComplete w callback).2
  | .tick dt => some { w with now := w.now + dt }
  | .timerFire timerId =>
    match findTimer w.timers timerId with
    | none => none
    | some t => some (fireTimer w t)
  | .attemptBegin pid =>
    match findProc w.procs pid with
    | none => none
    | some p =>
      match p.phase with
      | .immediate => some (attemptExecution w pid p.taskId p.config 1 p.maxRetries)
      | .retryWait _ =>
        some (attemptExecution w pid p.taskId p.config (p.currentAttempt + 1) p.maxRetries)
      | .inFlight _ => none
  | .attemptSettle pid success =>
    match findProc w.procs pid with
    | none => none
    | some p =>
      match p.phase with
      | .inFlight _ => some (attemptSettled w p success)
      | _ => none

/-- A sequence of events, `none` as soon as one of them cannot happen. -/
def runEvents : World → List Event → Option World
  | w, [] => some w
  | w, e :: es =>
    match step w e with
    | none => none
    | some w1 => runEvents w1 es

/-- The worlds the engine can be in: a fresh engine followed by any events. -/
inductive Reachable : World → Prop
  | init (t0 : Int) : Reachable (World.init t0)
  | step {w w1 : World} (e : Event) : Reachable w → step w e = some w1 → Reachable w1

/-- Whether the event is a pending callback of the event loop or the passage of time, as
opposed to a call of a public method. -/
def Event.isCallback : Event → Bool
  | .tick _ => true
  | .timerFire _ => true
  | .attemptBegin _ => true
  | .attemptSettle _ _ => true
  | _ => false

/-- Drives the run `pid` to its end with an attempt executor whose call number `k` (counted
from 1) succeeds iff `exec k`; other pending work is left alone. One unit of fuel is one
callback of the run. -/
def driveProc (exec : Nat → Bool) (pid : Nat) : Nat → World → World
  | 0, w => w
  | fuel + 1, w =>
    match findProc w.procs pid with
    | none => w
    | some p =>
      match p.phase with
      | .inFlight _ =>
        match step w (.attemptSettle pid (exec p.currentAttempt)) with
        | some w1 => driveProc exec pid fuel w1
        | none => w
      | _ =>
        match step w (.attemptBegin pid) with
        | some w1 => driveProc exec pid fuel w1
        | none => w

/-- The field `attemptCount` of the record of `taskId`, if there is one. -/
def attemptCountOf (w : World) (taskId : TaskId) : Option Nat :=
  (mapGet w.executionStatus taskId).map (fun r => r.attemptCount)

/-- The field `status` of the record of `taskId`, if there is one. -/
def statusOf (w : World) (taskId : TaskId) : Option Status :=
  (mapGet w.executionStatus taskId).map (fun r => r.status)

/-! ## Predicates on worlds -/

/-- Facts about the maps and the armed timers that hold in every reachable world: every armed
timer is the one `executionTimers` records for its task, `executionTimers` only has entries for
scheduled tasks, a paused task has no entry, and `executionStatus` and `scheduledTasks` have
the same keys. -/
structure Inv (w : World) : Prop where
  recorded : ∀ t ∈ w.timers, mapGet w.executionTimers t.taskId = some t.timerId
  timerKnown : ∀ k tid, mapGet w.executionTimers k = some tid → mapHas w.scheduledTasks k = true
  pausedNoTimer : ∀ k r, mapGet w.executionStatus k = some r → r.status = .paused →
    mapGet w.executionTimers k = none
  sameKeys : ∀ k, mapHas w.executionStatus k = mapHas w.scheduledTasks k

/-- Nothing is pending for the task (no armed timer, no run of the retry controller, no entry
in `executionTimers`), the task is known and its record is cancelled. -/
structure Quiet (w : World) (id : TaskId) : Prop where
  noTimer : ∀ t ∈ w.timers, t.taskId ≠ id
  noProc : ∀ p ∈ w.procs, p.taskId ≠ id
  noEntry : mapGet w.executionTimers id = none
  known : mapHas w.scheduledTasks id = true
  cancelled : statusOf w id = some .cancelled

/-- How one event rewrites the record of `id`: the cases are the assignments to
`status.*` in the source. -/
inductive RecordStep (w : World) (id : TaskId) (r : StatusInfo) : Event → StatusInfo → Prop
  | same (e : Event) : RecordStep w id r e r
  | execute : RecordStep w id r (.executeTask id) { r with status := .executing }
  | fire (tid : Nat) (t : Timer) : findTimer w.timers tid = some t → t.taskId = id →
      RecordStep w id r (.timerFire tid) { r with status := .executing }
  | pause : r.status ≠ .completed → r.status ≠ .failed →
      RecordStep w id r (.pauseExecution id) { r with status := .paused }
  | resume : r.status = .paused →
      RecordStep w id r (.resumeExecution id) { r with status := .scheduled }
  | cancel : RecordStep w id r (.cancelExecution id)
      { r with status := .cancelled, cancelledAt := some w.now }
  | first (pid : Nat) (p : Proc) : findProc w.procs pid = some p → p.taskId = id →
      p.phase = .immediate →
      RecordStep w id r (.attemptBegin pid)
        { r with attemptCount := 1, lastAttemptTime := some w.now }
  | next (pid : Nat) (p : Proc) (d : JSNum) : findProc w.procs pid = some p → p.taskId = id →
      p.phase = .retryWait d →
      RecordStep w id r (.attemptBegin pid)
        { r with attemptCount := p.currentAttempt + 1, lastAttemptTime := some w.now }
  | succeed (pid : Nat) (p : Proc) (d : JSNum) : findProc w.procs pid = some p →
      p.taskId = id → p.phase = .inFlight d →
      RecordStep w id r (.attemptSettle pid true)
        { r with status := .completed, completedAt := some w.now,
                 result := some (simulateClickResult p.config w.now) }
  | failRetry (pid : Nat) (p : Proc) (d : JSNum) : findProc w.procs pid = some p →
      p.taskId = id → p.phase = .inFlight d → p.maxRetries.natLt p.currentAttempt = true →
      RecordStep w id r (.attemptSettle pid false)
        { r with error := some (simulateClickError p.config) }
  | failFinal (pid : Nat) (p : Proc) (d : JSNum) : findProc w.procs pid = some p →
      p.taskId = id → p.phase = .inFlight d → p.maxRetries.natLt p.currentAttempt = false →
      RecordStep w id r (.attemptSettle pid false)
        { r with error := some (simulateClickError p.config), status := .failed,
                 completedAt := some w.now }

/-- The nine edges of the status state machine of the specification (its section 4.2). -/
def specEdge : Status → Status → Bool
  | .scheduled, .executing => true
  | .executing, .completed => true
  | .executing, .failed => true
  | .scheduled, .paused => true
  | .executing, .paused => true
  | .paused, .scheduled => true
  | .scheduled, .cancelled => true
  | .executing, .cancelled => true
  | .paused, .cancelled => true
  | _, _ => false

/-! ## Sample worlds

Concrete tasks and event sequences at which the statements below are evaluated. -/

/-- The config of the sample task: the two required strings, `retryDelay: 100` and the given
`retryCount`. -/
def sampleConfig (retryCount : JSVal) : RawConfig :=
  { targetUrl := .str "https://example.com", clickSelector := .str ".btn",
    clickDelay := .undefined, retryCount := retryCount, retryDelay := .num (.fin 100) }

/-- The request scheduling the sample task `t1` for the instant 5000. -/
def sampleRequest (retryCount : JSVal) : Option TaskRequest :=
  some { taskId := "t1", config := some (sampleConfig retryCount), executionTime := some (.valid 5000) }

/-- The world a fresh engine started at the instant 0 is in after the given events. -/
def worldAfter (es : List Event) : World :=
  (runEvents (World.init 0) es).getD (World.init 0)

/-- The sample task with the given `retryCount`, scheduled and then started by `executeTask`:
its run has `pid` 0 and waits in phase `immediate`. -/
def started (retryCount : JSVal) : World :=
  worldAfter [.schedule (sampleRequest retryCount), .executeTask "t1"]

/-- An attempt executor that fails on every call. -/
def alwaysFails : Nat → Bool := fun _ => false

/-- An attempt executor that fails on its first `k - 1` calls and succeeds on call `k`. -/
def succeedsAt (k : Nat) : Nat → Bool := fun i => decide (i = k)

/-- The sample task with `retryCount: 0` is scheduled and executed, and its attempts fail
until the run gives up. -/
def zeroRetryEvents : List Event :=
  [.schedule (sampleRequest (.num (.fin 0))), .executeTask "t1",
   .attemptBegin 0, .attemptSettle 0 false, .attemptBegin 0, .attemptSettle 0 false,
   .attemptBegin 0, .attemptSettle 0 false]

/-- The sample task with `retryCount: 2` after a full failing run (two attempts), started
again by a second `executeTask`; the new run has `pid` 1. -/
def reexecutedEvents : List Event :=
  [.schedule (sampleRequest (.num (.fin 2))), .executeTask "t1",
   .attemptBegin 0, .attemptSettle 0 false, .attemptBegin 0, .attemptSettle 0 false,
   .executeTask "t1"]

/-- The sample task paused while its first attempt is in flight. -/
def pausedInFlightEvents : List Event :=
  [.schedule (sampleRequest (.num (.fin 2))), .executeTask "t1", .attemptBegin 0,
   .pauseExecution "t1"]

/-- The sample task with its first attempt in flight. -/
def inFlightEvents : List Event :=
  [.schedule (sampleRequest (.num (.fin 2))), .executeTask "t1", .attemptBegin 0]

/-- The sample task after a successful first attempt. -/
def completedEvents : List Event :=
  [.schedule (sampleRequest (.num (.fin 2))), .executeTask "t1", .attemptBegin 0,
   .tick 100, .attemptSettle 0 true, .tick 50]

/-- The sample task, only scheduled. -/
def scheduledEvents : List Event :=
  [.schedule (sampleRequest (.num (.fin 2)))]

/-- The sample task in the retry wait after a failed first attempt. -/
def retryWaitEvents : List Event :=
  [.schedule (sampleRequest (.num (.fin 2))), .executeTask "t1", .attemptBegin 0,
   .attemptSettle 0 false]

/-- The accepted config of the sample task with `retryCount: 2`. -/
def sampleAccepted : ExecutionConfig :=
  { targetUrl := "https://example.com", clickSelector := ".btn", clickDelay := none,
    retryCount := some (.fin 2), retryDelay := some (.fin 100) }

/-- The record of the sample task during the retry wait after its failed first attempt. -/
def retryWaitRecord : StatusInfo :=
  { createStatusInfo "t1" sampleAccepted (.valid 5000) with
    status := .executing, attemptCount := 1, lastAttemptTime := some 0,
    error := some (simulateClickError sampleAccepted) }

/-- The run of the sample task during the retry wait after its failed first attempt. -/
def retryWaitProc : Proc :=
  { pid := 0, taskId := "t1", config := sampleAccepted, currentAttempt := 1,
    maxRetries := .fin 2, phase := .retryWait (.fin 100) }

/-- The run of the sample task while its first attempt is in flight. -/
def inFlightProc : Proc :=
  { pid := 0, taskId := "t1", config := sampleAccepted, currentAttempt := 1,
    maxRetries := .fin 2, phase := .inFlight (.fin 500) }

/-- Events after the cancellation of the scheduled sample task: time passes beyond the fire
time, the task is resumed, scheduled again and queried, another task is scheduled and run. -/
def afterCancelEvents : List Event :=
  [.tick 6000, .resumeExecution "t1", .schedule (sampleRequest (.num (.fin 2))),
   .getExecutionStatus "t1", .listScheduledTasks none,
   .schedule (some { taskId := "t2", config := some (sampleConfig .undefined),
                     executionTime := some (.valid 9000) }),
   .executeTask "t2", .attemptBegin 0, .attemptSettle 0 true]

/-- The record of the sample task cancelled at the instant 0 while scheduled. -/
def cancelledRecord : StatusInfo :=
  { createStatusInfo "t1" sampleAccepted (.valid 5000) with status := .cancelled, cancelledAt := some 0 }

/-- Two listeners are registered, the second of which throws; then the sample task is
scheduled and executed, and its first attempt is in flight. -/
def listeningEvents : List Event :=
  [.onExecutionComplete (some { ident := 1, throws := false }),
   .onExecutionComplete (some { ident := 2, throws := true }),
   .schedule (sampleRequest (.num (.fin 2))), .executeTask "t1", .attemptBegin 0]

/-- The record of the sample task while its first attempt is in flight. -/
def inFlightRecord : StatusInfo :=
  { createStatusInfo "t1" sampleAccepted (.valid 5000) with
    status := .executing, attemptCount := 1, lastAttemptTime := some 0 }

/-- The armed timers whose callback runs `executeTask(taskId)`. -/
def timersOf (w : World) (taskId : TaskId) : List Timer :=
  w.timers.filter (fun t => decide (t.taskId = taskId))

/-- The record of the sample task after its successful first attempt at the instant 100. -/
def completedRecord : StatusInfo :=
  { createStatusInfo "t1" sampleAccepted (.valid 5000) with
    status := .completed, attemptCount := 1, lastAttemptTime := some 0,
    completedAt := some 100, result := some (simulateClickResult sampleAccepted 100) }

/-- The sample task is scheduled and cancelled. -/
def cancelledEvents : List Event :=
  [.schedule (sampleRequest (.num (.fin 2))), .cancelExecution "t1"]

/-- The sample task is scheduled and paused, and time passes beyond its fire time. -/
def pausedLateEvents : List Event :=
  [.schedule (sampleRequest (.num (.fin 2))), .pauseExecution "t1", .tick 6000]

/-- The record of the sample task, paused before any attempt. -/
def pausedRecord : StatusInfo :=
  { createStatusInfo "t1" sampleAccepted (.valid 5000) with status := .paused }

/-- Whether the result of a public method is a value rather than a thrown error. -/
def succeeded : Except EngineError CmdResult → Bool
  | .ok _ => true
  | .error _ => false

/-- Whether the event is a `schedule` call for `id` that succeeds in the world `w`. -/
def scheduledOk (id : TaskId) (w : World) : Event → Bool
  | .schedule (some tc) => decide (tc.taskId = id) && succeeded (schedule w (some tc)).1
  | _ => false

/-- Whether some event of the run `es` from `w` is a successful `schedule` call for `id`. -/
def everScheduled (id : TaskId) : World → List Event → Bool
  | _, [] => false
  | w, e :: es =>
    scheduledOk id w e ||
      match step w e with
      | some w1 => everScheduled id w1 es
      | none => false

/-- Every run of the retry controller has a `pid` below the next one to be handed out. -/
def PidsFresh (w : World) : Prop :=
  ∀ p ∈ w.procs, p.pid < w.nextPid

/-- A run of events in which the sample task is never scheduled: another task is scheduled and
executed, and a `schedule` call for `t1` is rejected for its past fire time. -/
def ghostEvents : List Event :=
  [.schedule (some { taskId := "t2", config := some (sampleConfig .undefined),
                     executionTime := some (.valid 9000) }),
   .tick 6000, .schedule (sampleRequest (.num (.fin 2))), .executeTask "t2", .attemptBegin 0]

/-- The sample task with `retryCount: 2` after a full failing run of two attempts. -/
def failedEvents : List Event :=
  [.schedule (sampleRequest (.num (.fin 2))), .executeTask "t1",
   .attemptBegin 0, .attemptSettle 0 false, .attemptBegin 0, .attemptSettle 0 false]

/-- The record of the sample task after its failing run. -/
def failedRecord : StatusInfo :=
  { createStatusInfo "t1" sampleAccepted (.valid 5000) with
    status := .failed, attemptCount := 2, lastAttemptTime := some 0, completedAt := some 0,
    error := some (simulateClickError sampleAccepted) }

/-- The request of the sample task as a `TaskRequest`. -/
def sampleTask : TaskRequest :=
  { taskId := "t1", config := some (sampleConfig (.num (.fin 2))), executionTime := some (.valid 5000) }

/-- A request for the id of the sample task with nothing else in it. -/
def bareRequest : TaskRequest :=
  { taskId := "t1", config := none, executionTime := none }

/-- A request whose fire time is exactly the current time of a fresh engine. -/
def nowRequest : TaskRequest :=
  { taskId := "t1", config := some (sampleConfig (.num (.fin 2))), executionTime := some (.valid 0) }

/-- A config with `retryDelay: -1`. -/
def negativeConfig : RawConfig :=
  { targetUrl := .str "https://example.com", clickSelector := .str ".btn",
    clickDelay := .undefined, retryCount := .undefined, retryDelay := .num (.fin (-1)) }

/-- A request with the config `negativeConfig`. -/
def negativeRequest : TaskRequest :=
  { taskId := "t1", config := some negativeConfig, executionTime := some (.valid 5000) }

/-- The entry `listScheduledTasks` builds for a stored task whose record is `r`
(lines 432-438). -/
def summaryOf (taskConfig : TaskInfo) (r : StatusInfo) : TaskSummary :=
  { taskId := taskConfig.taskId, executionTime := taskConfig.executionTime,
    status := r.status, attemptCount := r.attemptCount, config := taskConfig.config }

/-- The entries of all stored tasks that have a record, in the insertion order of
`scheduledTasks`. -/
def summaries (w : World) : List TaskSummary :=
  w.scheduledTasks.filterMap (fun e =>
    (mapGet w.executionStatus e.2.taskId).map (summaryOf e.2))

/-- The keys of `scheduledTasks` are distinct and each stored task carries its key as
`taskId`. -/
def KeysOk (w : World) : Prop :=
  (w.scheduledTasks.map (fun e => e.1)).Nodup ∧ ∀ e ∈ w.scheduledTasks, e.2.taskId = e.1

/-- Three tasks are scheduled, `tB` for the instant 9000, then `t1` and `tC` both for the
instant 5000, and `tC` is paused. -/
def listEvents : List Event :=
  [.schedule (some { taskId := "tB", config := some (sampleConfig .undefined),
                     executionTime := some (.valid 9000) }),
   .schedule (sampleRequest (.num (.fin 2))),
   .schedule (some { taskId := "tC", config := some (sampleConfig .undefined),
                     executionTime := some (.valid 5000) }),
   .pauseExecution "tC"]

/-- The timers of `w1` are among those of `w`, in the same order, every entry of
`executionTimers` in `w1` is an entry in `w`, and no timer handle has been handed out. -/
def TimersShrink (w w1 : World) : Prop :=
  List.Sublist w1.timers w.timers ∧
    (∀ k tid, mapGet w1.executionTimers k = some tid → mapGet w.executionTimers k = some tid) ∧
    w1.nextTimerId = w.nextTimerId

/-- One new timer for the task `k`, which had no entry in `executionTimers`, is armed with the
next handle and recorded. -/
def TimerArmed (w w1 : World) : Prop :=
  ∃ k d, mapGet w.executionTimers k = none ∧
    w1.timers = w.timers ++ [{ timerId := w.nextTimerId, taskId := k, delayMs := d,
                               armedAt := w.now }] ∧
    w1.executionTimers = mapSet w.executionTimers k w.nextTimerId ∧
    w1.nextTimerId = w.nextTimerId + 1

/-- The armed timers have distinct handles; the handles recorded in `executionTimers` are below
the next handle and belong to one task each. -/
def TimerIds (w : World) : Prop :=
  (w.timers.map (fun t => t.timerId)).Nodup ∧
    (∀ k tid, mapGet w.executionTimers k = some tid → tid < w.nextTimerId) ∧
    (∀ k1 k2 tid, mapGet w.executionTimers k1 = some tid →
      mapGet w.executionTimers k2 = some tid → k1 = k2)

/-- The task an event is about: the id passed to a public method, the task of the firing
timer, the task of the run of the retry controller; `none` for an event about no one task. -/
def Event.target (w : World) : Event → Option TaskId
  | .schedule (some tc) => some tc.taskId
  | .schedule none => none
  | .executeTask k => some k
  | .pauseExecution k => some k
  | .resumeExecution k => some k
  | .cancelExecution k => some k
  | .getExecutionStatus k => some k
  | .listScheduledTasks _ => none
  | .onExecutionComplete _ => none
  | .tick _ => none
  | .timerFire tid => (findTimer w.timers tid).map (fun t => t.taskId)
  | .attemptBegin pid => (findProc w.procs pid).map (fun p => p.taskId)
  | .attemptSettle pid _ => (findProc w.procs pid).map (fun p => p.taskId)

/-- The record, the stored task, the `executionTimers` entry and the armed timers of the task
`b` are the same in both worlds. -/
def SameFor (b : TaskId) (w w1 : World) : Prop :=
  mapGet w1.executionStatus b = mapGet w.executionStatus b ∧
    mapGet w1.scheduledTasks b = mapGet w.scheduledTasks b ∧
    mapGet w1.executionTimers b = mapGet w.executionTimers b ∧
    timersOf w1 b = timersOf w b

/-! ## The selector helper, further samples and invariants -/

/-- Errors thrown by `createDOMSelector`, one constructor per `throw` of lines 26-53. -/
inductive SelectorError
  /-- Message 選擇器配置缺少 type 字段 (line 28). -/
  | missingType
  /-- Message class 選擇器缺少 value (line 35). -/
  | classMissingValue
  /-- Message id 選擇器缺少 value (line 39). -/
  | idMissingValue
  /-- Message attribute 選擇器缺少 name 或 value (line 43). -/
  | attributeMissingNameOrValue
  /-- Message xpath 選擇器缺少 value (line 47). -/
  | xpathMissingValue
  /-- Message 未知的選擇器類型 (line 51). -/
  | unknownType (type : String)
  deriving DecidableEq

/-- The argument of `createDOMSelector`: each field is a string, as its JSDoc says, or absent
(`none`). -/
structure SelectorConfig where
  type : Option String
  value : Option String
  name : Option String
  deriving DecidableEq

/-- Whether an optional string is falsy: absent or empty. -/
def falsy (s : Option String) : Bool :=
  match s with
  | none => true
  | some v => decide (v = "")

/-- Source lines 26-53. -/
def createDOMSelector (config : Option SelectorConfig) : Except SelectorError String :=
  match config with
  | none => .error .missingType
  | some c =>
    if falsy c.type then .error .missingType
    else
      match c.type with
      | some "class" =>
        if falsy c.value then .error .classMissingValue else .ok ("." ++ c.value.getD "")
      | some "id" =>
        if falsy c.value then .error .idMissingValue else .ok ("#" ++ c.value.getD "")
      | some "attribute" =>
        if falsy c.name || falsy c.value then .error .attributeMissingNameOrValue
        else .ok ("[" ++ c.name.getD "" ++ "=\"" ++ c.value.getD "" ++ "\"]")
      | some "xpath" =>
        if falsy c.value then .error .xpathMissingValue else .ok (c.value.getD "")
      | some other => .error (.unknownType other)
      | none => .error .missingType

/-- A config with `retryCount: 2` and `retryDelay: 0`. -/
def zeroDelayConfig : RawConfig :=
  { targetUrl := .str "https://example.com", clickSelector := .str ".btn",
    clickDelay := .undefined, retryCount := .num (.fin 2), retryDelay := .num (.fin 0) }

/-- A task with the config `zeroDelayConfig` is scheduled and executed, and its first attempt
fails. -/
def zeroDelayEvents : List Event :=
  [.schedule (some { taskId := "t1", config := some zeroDelayConfig, executionTime := some (.valid 5000) }),
   .executeTask "t1", .attemptBegin 0, .attemptSettle 0 false]

/-- A config with `clickDelay: NaN`. -/
def nanConfig : RawConfig :=
  { targetUrl := .str "https://example.com", clickSelector := .str ".btn",
    clickDelay := .num .nan, retryCount := .undefined, retryDelay := .undefined }

/-- A config with `retryCount: 1.5`. -/
def fractionalConfig : RawConfig :=
  { targetUrl := .str "https://example.com", clickSelector := .str ".btn",
    clickDelay := .undefined, retryCount := .num (.fin (3 / 2)), retryDelay := .undefined }

/-- A task with an entry in `executionTimers` has status `scheduled`, `completed` or `failed`. -/
def TimerStatusOk (w : World) : Prop :=
  ∀ k tid r, mapGet w.executionTimers k = some tid → mapGet w.executionStatus k = some r →
    r.status = .scheduled ∨ r.status = .completed ∨ r.status = .failed

/-- The fields of a record agree with its status and its attempt counter. -/
def WellFormed (r : StatusInfo) : Prop :=
  (r.status = .completed → r.result ≠ none ∧ r.completedAt ≠ none) ∧
  (r.status = .failed → r.error ≠ none ∧ r.completedAt ≠ none) ∧
  (r.status = .cancelled → r.cancelledAt ≠ none) ∧
  (r.attemptCount = 0 ↔ r.lastAttemptTime = none)

/-- The sample task is paused and resumed while its first attempt is in flight, and the attempt
then succeeds: the timer armed by `resumeExecution` (handle 1) is still pending. -/
def resumedInFlightEvents : List Event :=
  [.schedule (sampleRequest (.num (.fin 2))), .executeTask "t1", .attemptBegin 0,
   .pauseExecution "t1", .resumeExecution "t1", .attemptSettle 0 true]

/-- The run `pid` of the task `id`, driven from the world `w`, is over in the world `w2` after
`n` attempts: the run is gone, every listener has received the one event `ev` and nothing
else, `ev` carries the outcome of attempt `n`, and the record of the task counts `n` attempts
and is `completed` if `ev` reports success and `failed` otherwise. -/
def RunOver (exec : Nat → Bool) (pid : Nat) (id : TaskId) (w w2 : World) (n : Nat)
    (ev : CompletionEvent) : Prop :=
  findProc w2.procs pid = none ∧
  w2.delivered = w.delivered ++ w.completionCallbacks.map (fun cb => (cb.ident, ev)) ∧
  ev.taskId = id ∧ ev.attemptCount = n ∧ ev.success = exec n ∧
  ∃ r2, mapGet w2.executionStatus id = some r2 ∧ r2.attemptCount = n ∧
    ((ev.success = true ∧ r2.status = .completed) ∨
     (ev.success = false ∧ r2.status = .failed))

/-! ## Invalid dates, pending runs and object identity -/

/-- Three tasks are scheduled in a fresh engine: `tA` for the instant 5000, `tB` for an Invalid
Date (`new Date(NaN)`) and `tC` for the instant 1000. -/
def invalidDateEvents : List Event :=
  [.schedule (some { taskId := "tA", config := some (sampleConfig .undefined),
                     executionTime := some (.valid 5000) }),
   .schedule (some { taskId := "tB", config := some (sampleConfig .undefined),
                     executionTime := some .invalid }),
   .schedule (some { taskId := "tC", config := some (sampleConfig .undefined),
                     executionTime := some (.valid 1000) })]

/-- The sample task is executed, then paused and resumed before the `setImmediate` callback of
`executeTask` has run: the task is `scheduled` again, no attempt has been made, and the run
started by `executeTask` (`pid` 0) is still pending. -/
def resumedBeforeAttemptEvents : List Event :=
  [.schedule (sampleRequest (.num (.fin 2))), .executeTask "t1", .pauseExecution "t1",
   .resumeExecution "t1"]

/-- A reference to an object of the shape of a status record. The record of a task is one
object for the whole life of the engine: `executionStatus.set` is called by `schedule` only
(line 265), for a key the maps do not have, and every later write is an assignment to a field
of the object `executionStatus.get` returns; that object is `record taskId`. The object built
by the `n`-th object literal of `getExecutionStatus` (lines 412-423) is `snapshot n`. -/
inductive ObjRef
  | record (taskId : TaskId)
  | snapshot (n : Nat)
  deriving DecidableEq

/-- The engine together with the objects `getExecutionStatus` has handed out to its callers,
in the order of their creation. -/
structure Heap where
  world : World
  snapshots : List StatusInfo

/-- The fields of the object behind a reference, `none` if there is no such object. -/
def Heap.read (h : Heap) : ObjRef → Option StatusInfo
  | .record taskId => mapGet h.world.executionStatus taskId
  | .snapshot n => h.snapshots[n]?

/-- Source lines 406-424 with object identity: the `return` statement builds a new object
from the ten fields of the record and returns the reference to it. -/
def getExecutionStatusRef (h : Heap) (taskId : TaskId) : Except EngineError ObjRef × Heap :=
  match mapGet h.world.executionStatus taskId with
  | none => (.error (.taskNotFound taskId), h)
  | some status =>
    (.ok (.snapshot h.snapshots.length),
     { h with snapshots := h.snapshots ++
        [{ taskId := status.taskId, status := status.status, config := status.config,
           executionTime := status.executionTime, attemptCount := status.attemptCount,
           lastAttemptTime := status.lastAttemptTime, cancelledAt := status.cancelledAt,
           completedAt := status.completedAt, error := status.error,
           result := status.result }] })

/-- One event on the heap. `getExecutionStatus` creates its result object; every other event
is the event of `step` on the engine: the engine keeps no reference to an object it has handed
out (the object literal of lines 412-423 is stored nowhere), so all its writes go to records. -/
def stepHeap (h : Heap) : Event → Option Heap
  | .getExecutionStatus taskId => some (getExecutionStatusRef h taskId).2
  | e => (step h.world e).map (fun w => { h with world := w })

/-- A sequence of events on the heap, `none` as soon as one of them cannot happen. -/
def runHeap : Heap → List Event → Option Heap
  | h, [] => some h
  | h, e :: es =>
    match stepHeap h e with
    | none => none
    | some h1 => runHeap h1 es

/-! ## Association lists, timers and callbacks -/

theorem mapGet_mapSet_self {α : Type} (m : List (TaskId × α)) (k : TaskId) (v : α) :
    mapGet (mapSet m k v) k = some v := by
  induction m with
  | nil => simp [mapSet, mapGet]
  | cons e m ih =>
    obtain ⟨k1, v1⟩ := e
    by_cases h : k1 = k <;> simp [mapSet, mapGet, h, ih]

theorem mapGet_mapSet_of_ne {α : Type} (m : List (TaskId × α)) (k k1 : TaskId) (v : α)
    (h : k ≠ k1) : mapGet (mapSet m k v) k1 = mapGet m k1 := by
  induction m with
  | nil => simp [mapSet, mapGet, h]
  | cons e m ih =>
    obtain ⟨k2, v2⟩ := e
    by_cases h2 : k2 = k
    · subst h2; simp [mapSet, mapGet, h]
    · by_cases h3 : k2 = k1
      · subst h3; simp [mapSet, mapGet, h2]
      · simp [mapSet, mapGet, h2, h3, ih]

theorem mapGet_mapDelete_self {α : Type} (m : List (TaskId × α)) (k : TaskId) :
    mapGet (mapDelete m k) k = none := by
  induction m with
  | nil => simp [mapDelete, mapGet]
  | cons e m ih =>
    obtain ⟨k1, v1⟩ := e
    by_cases h : k1 = k <;> simp [mapDelete, mapGet, h, ih]

theorem mapGet_mapDelete_of_ne {α : Type} (m : List (TaskId × α)) (k k1 : TaskId)
    (h : k ≠ k1) : mapGet (mapDelete m k) k1 = mapGet m k1 := by
  induction m with
  | nil => simp [mapDelete, mapGet]
  | cons e m ih =>
    obtain ⟨k2, v2⟩ := e
    by_cases h2 : k2 = k
    · subst h2; simp [mapDelete, mapGet, h, ih]
    · by_cases h3 : k2 = k1
      · subst h3; simp [mapDelete, mapGet, h2]
      · simp [mapDelete, mapGet, h2, h3, ih]

theorem findProc_mem {ps : List Proc} {pid : Nat} {p : Proc} (h : findProc ps pid = some p) :
    p ∈ ps ∧ p.pid = pid := by
  induction ps with
  | nil => simp [findProc] at h
  | cons q ps ih =>
    by_cases hq : q.pid = pid
    · simp [findProc, hq] at h; subst h; simp [hq]
    · simp [findProc, hq] at h
      exact ⟨List.mem_cons_of_mem _ (ih h).1, (ih h).2⟩

theorem findTimer_mem {ts : List Timer} {tid : Nat} {t : Timer} (h : findTimer ts tid = some t) :
    t ∈ ts ∧ t.timerId = tid := by
  induction ts with
  | nil => simp [findTimer] at h
  | cons q ts ih =>
    by_cases hq : q.timerId = tid
    · simp [findTimer, hq] at h; subst h; simp [hq]
    · simp [findTimer, hq] at h
      exact ⟨List.mem_cons_of_mem _ (ih h).1, (ih h).2⟩

theorem foldl_invokeCallback_frame (ev : CompletionEvent) (cbs : List Callback) (w : World) :
    let w1 := cbs.foldl (invokeCallback ev) w
    w1.now = w.now ∧ w1.scheduledTasks = w.scheduledTasks ∧
    w1.executionTimers = w.executionTimers ∧ w1.completionCallbacks = w.completionCallbacks ∧
    w1.executionStatus = w.executionStatus ∧ w1.timers = w.timers ∧
    w1.nextTimerId = w.nextTimerId ∧ w1.procs = w.procs ∧ w1.nextPid = w.nextPid ∧
    w1.delivered = w.delivered ++ cbs.map (fun cb => (cb.ident, ev)) := by
  induction cbs generalizing w with
  | nil => simp
  | cons cb cbs ih =>
    have h := ih (invokeCallback ev w cb)
    simp only [List.foldl_cons, List.map_cons]
    obtain ⟨h1, h2, h3, h4, h5, h6, h7, h8, h9, h10⟩ := h
    refine ⟨?_, ?_, ?_, ?_, ?_, ?_, ?_, ?_, ?_, ?_⟩ <;>
      first
      | (rw [h10]; unfold invokeCallback; split <;> simp)
      | (simp only [h1, h2, h3, h4, h5, h6, h7, h8, h9]; unfold invokeCallback; split <;> rfl)


@[simp] theorem triggerCompletionCallbacks_executionStatus (w : World) (ev : CompletionEvent) :
    (triggerCompletionCallbacks w ev).executionStatus = w.executionStatus :=
  (foldl_invokeCallback_frame ev w.completionCallbacks w).2.2.2.2.1

@[simp] theorem triggerCompletionCallbacks_executionTimers (w : World) (ev : CompletionEvent) :
    (triggerCompletionCallbacks w ev).executionTimers = w.executionTimers :=
  (foldl_invokeCallback_frame ev w.completionCallbacks w).2.2.1

@[simp] theorem triggerCompletionCallbacks_scheduledTasks (w : World) (ev : CompletionEvent) :
    (triggerCompletionCallbacks w ev).scheduledTasks = w.scheduledTasks :=
  (foldl_invokeCallback_frame ev w.completionCallbacks w).2.1

@[simp] theorem triggerCompletionCallbacks_timers (w : World) (ev : CompletionEvent) :
    (triggerCompletionCallbacks w ev).timers = w.timers :=
  (foldl_invokeCallback_frame ev w.completionCallbacks w).2.2.2.2.2.1

@[simp] theorem triggerCompletionCallbacks_procs (w : World) (ev : CompletionEvent) :
    (triggerCompletionCallbacks w ev).procs = w.procs :=
  (foldl_invokeCallback_frame ev w.completionCallbacks w).2.2.2.2.2.2.2.1

@[simp] theorem triggerCompletionCallbacks_now (w : World) (ev : CompletionEvent) :
    (triggerCompletionCallbacks w ev).now = w.now :=
  (foldl_invokeCallback_frame ev w.completionCallbacks w).1

@[simp] theorem triggerCompletionCallbacks_completionCallbacks (w : World) (ev : CompletionEvent) :
    (triggerCompletionCallbacks w ev).completionCallbacks = w.completionCallbacks :=
  (foldl_invokeCallback_frame ev w.completionCallbacks w).2.2.2.1

theorem triggerCompletionCallbacks_delivered (w : World) (ev : CompletionEvent) :
    (triggerCompletionCallbacks w ev).delivered =
      w.delivered ++ w.completionCallbacks.map (fun cb => (cb.ident, ev)) :=
  (foldl_invokeCallback_frame ev w.completionCallbacks w).2.2.2.2.2.2.2.2.2

theorem mem_clearTimeout {ts : List Timer} {tid : Nat} {t : Timer} :
    t ∈ clearTimeout ts tid ↔ t ∈ ts ∧ t.timerId ≠ tid := by
  simp [clearTimeout]

theorem mem_removeProc {ps : List Proc} {pid : Nat} {p : Proc} :
    p ∈ removeProc ps pid ↔ p ∈ ps ∧ p.pid ≠ pid := by
  simp [removeProc]

theorem mem_setProc {ps : List Proc} {p q : Proc} (h : q ∈ setProc ps p) : q ∈ ps ∨ q = p := by
  simp only [setProc, List.mem_map] at h
  obtain ⟨a, ha, rfl⟩ := h
  split
  · exact Or.inr rfl
  · exact Or.inl ha

theorem clearTaskTimer_timers_subset {w : World} {k : TaskId} {t : Timer}
    (h : t ∈ (clearTaskTimer w k).timers) : t ∈ w.timers := by
  unfold clearTaskTimer at h
  split at h
  · exact (mem_clearTimeout.1 h).1
  · exact h

theorem clearTaskTimer_get (w : World) (k k1 : TaskId) :
    mapGet (clearTaskTimer w k).executionTimers k1 =
      if k = k1 then none else mapGet w.executionTimers k1 := by
  unfold clearTaskTimer
  split
  · by_cases h : k = k1
    · subst h; simp [mapGet_mapDelete_self]
    · simp [h, mapGet_mapDelete_of_ne]
  · rename_i hn
    by_cases h : k = k1
    · subst h; simp [hn]
    · simp [h]

@[simp] theorem clearTaskTimer_executionStatus (w : World) (k : TaskId) :
    (clearTaskTimer w k).executionStatus = w.executionStatus := by
  unfold clearTaskTimer; split <;> rfl

@[simp] theorem clearTaskTimer_scheduledTasks (w : World) (k : TaskId) :
    (clearTaskTimer w k).scheduledTasks = w.scheduledTasks := by
  unfold clearTaskTimer; split <;> rfl

@[simp] theorem clearTaskTimer_procs (w : World) (k : TaskId) :
    (clearTaskTimer w k).procs = w.procs := by
  unfold clearTaskTimer; split <;> rfl

@[simp] theorem clearTaskTimer_now (w : World) (k : TaskId) :
    (clearTaskTimer w k).now = w.now := by
  unfold clearTaskTimer; split <;> rfl

@[simp] theorem clearTaskTimer_nextPid (w : World) (k : TaskId) :
    (clearTaskTimer w k).nextPid = w.nextPid := by
  unfold clearTaskTimer; split <;> rfl

@[simp] theorem clearTaskTimer_completionCallbacks (w : World) (k : TaskId) :
    (clearTaskTimer w k).completionCallbacks = w.completionCallbacks := by
  unfold clearTaskTimer; split <;> rfl

theorem executeTask_other {w : World} {id k : TaskId} (hk : k ≠ id) (hq : Quiet w id) :
    Quiet (executeTask w k).2 id ∧
      mapGet (executeTask w k).2.executionStatus id = mapGet w.executionStatus id := by
  unfold executeTask
  split
  · exact ⟨hq, rfl⟩
  · split
    · exact ⟨hq, rfl⟩
    · refine ⟨⟨?_, ?_, ?_, ?_, ?_⟩, ?_⟩
      · intro t ht
        exact hq.noTimer t (clearTaskTimer_timers_subset ht)
      · intro p hp
        simp only [clearTaskTimer_procs, List.mem_append, List.mem_singleton] at hp
        rcases hp with hp | rfl
        · exact hq.noProc p hp
        · exact hk
      · simp [clearTaskTimer_get, hk, hq.noEntry]
      · simpa using hq.known
      · simp [statusOf, mapGet_mapSet_of_ne _ _ _ _ hk]
        simpa [statusOf] using hq.cancelled
      · simp [mapGet_mapSet_of_ne _ _ _ _ hk]


theorem pauseExecution_other {w : World} {id k : TaskId} (hk : k ≠ id) (hq : Quiet w id) :
    Quiet (pauseExecution w k).2 id ∧
      mapGet (pauseExecution w k).2.executionStatus id = mapGet w.executionStatus id := by
  unfold pauseExecution
  split
  · exact ⟨hq, rfl⟩
  · split
    · exact ⟨hq, rfl⟩
    · refine ⟨⟨?_, ?_, ?_, ?_, ?_⟩, ?_⟩
      · intro t ht
        exact hq.noTimer t (clearTaskTimer_timers_subset ht)
      · intro p hp
        exact hq.noProc p (by simpa using hp)
      · simp [clearTaskTimer_get, hk, hq.noEntry]
      · simpa using hq.known
      · simp [statusOf, mapGet_mapSet_of_ne _ _ _ _ hk]
        simpa [statusOf] using hq.cancelled
      · simp [mapGet_mapSet_of_ne _ _ _ _ hk]

theorem cancelExecution_other {w : World} {id k : TaskId} (hk : k ≠ id) (hq : Quiet w id) :
    Quiet (cancelExecution w k).2 id ∧
      mapGet (cancelExecution w k).2.executionStatus id = mapGet w.executionStatus id := by
  unfold cancelExecution
  split
  · exact ⟨hq, rfl⟩
  · refine ⟨⟨?_, ?_, ?_, ?_, ?_⟩, ?_⟩
    · intro t ht
      exact hq.noTimer t (clearTaskTimer_timers_subset ht)
    · intro p hp
      exact hq.noProc p (by simpa using hp)
    · simp [clearTaskTimer_get, hk, hq.noEntry]
    · simpa using hq.known
    · simp [statusOf, mapGet_mapSet_of_ne _ _ _ _ hk]
      simpa [statusOf] using hq.cancelled
    · simp [mapGet_mapSet_of_ne _ _ _ _ hk]

theorem resumeExecution_quiet {w : World} {id : TaskId} (k : TaskId) (hq : Quiet w id) :
    Quiet (resumeExecution w k).2 id ∧
      mapGet (resumeExecution w k).2.executionStatus id = mapGet w.executionStatus id := by
  unfold resumeExecution
  split
  · exact ⟨hq, rfl⟩
  · rename_i status hst
    split
    · exact ⟨hq, rfl⟩
    · rename_i hp
      have hk : k ≠ id := by
        rintro rfl
        have := hq.cancelled
        simp [statusOf, hst] at this
        simp [this] at hp
      refine ⟨⟨?_, ?_, ?_, ?_, ?_⟩, ?_⟩
      · intro t ht
        simp only [List.mem_append, List.mem_singleton] at ht
        rcases ht with ht | rfl
        · exact hq.noTimer t ht
        · exact hk
      · exact hq.noProc
      · simp [mapGet_mapSet_of_ne _ _ _ _ hk, hq.noEntry]
      · exact hq.known
      · simp [statusOf, mapGet_mapSet_of_ne _ _ _ _ hk]
        simpa [statusOf] using hq.cancelled
      · simp [mapGet_mapSet_of_ne _ _ _ _ hk]

theorem schedule_quiet {w : World} {id : TaskId} (req : Option TaskRequest) (hq : Quiet w id) :
    Quiet (schedule w req).2 id ∧
      mapGet (schedule w req).2.executionStatus id = mapGet w.executionStatus id := by
  unfold schedule
  split
  · exact ⟨hq, rfl⟩
  · rename_i tc
    split
    · exact ⟨hq, rfl⟩
    · split
      · exact ⟨hq, rfl⟩
      · rename_i hdup
        have hk : tc.taskId ≠ id := by
          intro h
          rw [h] at hdup
          exact hdup hq.known
        split
        · exact ⟨hq, rfl⟩
        · split
          · exact ⟨hq, rfl⟩
          · split
            · exact ⟨hq, rfl⟩
            · refine ⟨⟨?_, ?_, ?_, ?_, ?_⟩, ?_⟩
              · intro t ht
                simp only [List.mem_append, List.mem_singleton] at ht
                rcases ht with ht | rfl
                · exact hq.noTimer t ht
                · exact hk
              · exact hq.noProc
              · simp [mapGet_mapSet_of_ne _ _ _ _ hk, hq.noEntry]
              · have := hq.known
                simp only [mapHas] at this ⊢
                simpa [mapGet_mapSet_of_ne _ _ _ _ hk] using this
              · simp [statusOf, mapGet_mapSet_of_ne _ _ _ _ hk]
                simpa [statusOf] using hq.cancelled
              · simp [mapGet_mapSet_of_ne _ _ _ _ hk]

theorem attemptExecution_other {w : World} {id k : TaskId} (pid : Nat) (config : ExecutionConfig)
    (c : Nat) (m : JSNum) (hk : k ≠ id) (hq : Quiet w id) :
    Quiet (attemptExecution w pid k config c m) id ∧
      mapGet (attemptExecution w pid k config c m).executionStatus id =
        mapGet w.executionStatus id := by
  unfold attemptExecution
  split
  · refine ⟨⟨hq.noTimer, ?_, hq.noEntry, hq.known, hq.cancelled⟩, rfl⟩
    intro p hp
    exact hq.noProc p (mem_removeProc.1 hp).1
  · refine ⟨⟨hq.noTimer, ?_, hq.noEntry, hq.known, ?_⟩, ?_⟩
    · intro p hp
      rcases mem_setProc hp with hp | rfl
      · exact hq.noProc p hp
      · exact hk
    · simp [statusOf, mapGet_mapSet_of_ne _ _ _ _ hk]
      simpa [statusOf] using hq.cancelled
    · simp [mapGet_mapSet_of_ne _ _ _ _ hk]

theorem attemptSettled_other {w : World} {id : TaskId} (p : Proc) (success : Bool)
    (hp : p ∈ w.procs) (hq : Quiet w id) :
    Quiet (attemptSettled w p success) id ∧
      mapGet (attemptSettled w p success).executionStatus id = mapGet w.executionStatus id := by
  have hk : p.taskId ≠ id := hq.noProc p hp
  have hc := hq.cancelled
  simp only [statusOf] at hc
  unfold attemptSettled
  split
  · refine ⟨⟨hq.noTimer, ?_, hq.noEntry, hq.known, hq.cancelled⟩, rfl⟩
    intro q hq1
    exact hq.noProc q (mem_removeProc.1 hq1).1
  · split
    · refine ⟨⟨?_, ?_, ?_, ?_, ?_⟩, ?_⟩
      · simpa using hq.noTimer
      · intro q hq1
        simp only [triggerCompletionCallbacks_procs] at hq1
        exact hq.noProc q (mem_removeProc.1 hq1).1
      · simpa using hq.noEntry
      · simpa [mapHas] using hq.known
      · simpa [statusOf, mapGet_mapSet_of_ne _ _ _ _ hk] using hc
      · simp [mapGet_mapSet_of_ne _ _ _ _ hk]
    · split
      · refine ⟨⟨hq.noTimer, ?_, hq.noEntry, hq.known, ?_⟩, ?_⟩
        · intro q hq1
          rcases mem_setProc hq1 with hq1 | rfl
          · exact hq.noProc q hq1
          · exact hk
        · simpa [statusOf, mapGet_mapSet_of_ne _ _ _ _ hk] using hc
        · simp [mapGet_mapSet_of_ne _ _ _ _ hk]
      · refine ⟨⟨?_, ?_, ?_, ?_, ?_⟩, ?_⟩
        · simpa using hq.noTimer
        · intro q hq1
          simp only [triggerCompletionCallbacks_procs] at hq1
          exact hq.noProc q (mem_removeProc.1 hq1).1
        · simpa using hq.noEntry
        · simpa [mapHas] using hq.known
        · simpa [statusOf, mapGet_mapSet_of_ne _ _ _ _ hk] using hc
        · simp [mapGet_mapSet_of_ne _ _ _ _ hk]

theorem fireTimer_other {w : World} {id : TaskId} (t : Timer) (ht : t ∈ w.timers)
    (hq : Quiet w id) :
    Quiet (fireTimer w t) id ∧
      mapGet (fireTimer w t).executionStatus id = mapGet w.executionStatus id := by
  have hk : t.taskId ≠ id := hq.noTimer t ht
  have hq1 : Quiet { w with timers := clearTimeout w.timers t.timerId } id :=
    ⟨fun u hu => hq.noTimer u (mem_clearTimeout.1 hu).1, hq.noProc, hq.noEntry, hq.known,
      hq.cancelled⟩
  have h := executeTask_other hk hq1
  unfold fireTimer
  simp only
  split
  · rename_i r w2 heq
    rw [heq] at h
    exact h
  · rename_i r w2 heq
    rw [heq] at h
    exact ⟨⟨h.1.noTimer, h.1.noProc, h.1.noEntry, h.1.known, h.1.cancelled⟩, h.2⟩

/-- While nothing is pending for a cancelled task, every event other than a new
`executeTask`, `pauseExecution` or `cancelExecution` call for it leaves its record alone. -/
theorem quiet_step {w w1 : World} {id : TaskId} {e : Event} (hq : Quiet w id)
    (hstep : step w e = some w1) (h1 : e ≠ .executeTask id) (h2 : e ≠ .pauseExecution id)
    (h3 : e ≠ .cancelExecution id) :
    Quiet w1 id ∧ mapGet w1.executionStatus id = mapGet w.executionStatus id := by
  cases e with
  | schedule req =>
    simp only [step, Option.some.injEq] at hstep; subst hstep
    exact schedule_quiet req hq
  | executeTask k =>
    simp only [step, Option.some.injEq] at hstep; subst hstep
    exact executeTask_other (by rintro rfl; exact h1 rfl) hq
  | pauseExecution k =>
    simp only [step, Option.some.injEq] at hstep; subst hstep
    exact pauseExecution_other (by rintro rfl; exact h2 rfl) hq
  | resumeExecution k =>
    simp only [step, Option.some.injEq] at hstep; subst hstep
    exact resumeExecution_quiet k hq
  | cancelExecution k =>
    simp only [step, Option.some.injEq] at hstep; subst hstep
    exact cancelExecution_other (by rintro rfl; exact h3 rfl) hq
  | getExecutionStatus k =>
    simp only [step, Option.some.injEq] at hstep; subst hstep
    unfold getExecutionStatus
    split <;> exact ⟨hq, rfl⟩
  | listScheduledTasks f =>
    simp only [step, Option.some.injEq] at hstep; subst hstep
    unfold listScheduledTasks
    split
    · exact ⟨hq, rfl⟩
    · split
      · split <;> exact ⟨hq, rfl⟩
      · exact ⟨hq, rfl⟩
  | onExecutionComplete cb =>
    simp only [step, Option.some.injEq] at hstep; subst hstep
    unfold onExecutionComplete
    split
    · exact ⟨hq, rfl⟩
    · exact ⟨⟨hq.noTimer, hq.noProc, hq.noEntry, hq.known, hq.cancelled⟩, rfl⟩
  | tick dt =>
    simp only [step, Option.some.injEq] at hstep; subst hstep
    exact ⟨⟨hq.noTimer, hq.noProc, hq.noEntry, hq.known, hq.cancelled⟩, rfl⟩
  | timerFire tid =>
    simp only [step] at hstep
    split at hstep
    · simp at hstep
    · rename_i t ht
      simp only [Option.some.injEq] at hstep; subst hstep
      exact fireTimer_other t (findTimer_mem ht).1 hq
  | attemptBegin pid =>
    simp only [step] at hstep
    split at hstep
    · simp at hstep
    · rename_i p hp
      have hk : p.taskId ≠ id := hq.noProc p (findProc_mem hp).1
      split at hstep
      · simp only [Option.some.injEq] at hstep; subst hstep
        exact attemptExecution_other _ _ _ _ hk hq
      · simp only [Option.some.injEq] at hstep; subst hstep
        exact attemptExecution_other _ _ _ _ hk hq
      · simp at hstep
  | attemptSettle pid success =>
    simp only [step] at hstep
    split at hstep
    · simp at hstep
    · rename_i p hp
      split at hstep
      · simp only [Option.some.injEq] at hstep; subst hstep
        exact attemptSettled_other p success (findProc_mem hp).1 hq
      · simp at hstep


theorem mapHas_mapSet {α : Type} (m : List (TaskId × α)) (k k1 : TaskId) (v : α) :
    mapHas (mapSet m k v) k1 = (decide (k = k1) || mapHas m k1) := by
  by_cases h : k = k1
  · subst h; simp [mapHas, mapGet_mapSet_self]
  · simp [mapHas, mapGet_mapSet_of_ne _ _ _ _ h, h]

theorem mapHas_mapSet_of_get {α : Type} {m : List (TaskId × α)} {k : TaskId} {v0 : α}
    (h : mapGet m k = some v0) (k1 : TaskId) (v : α) :
    mapHas (mapSet m k v) k1 = mapHas m k1 := by
  rw [mapHas_mapSet]
  by_cases hk : k = k1
  · subst hk; simp [mapHas, h]
  · simp [hk]

/-- A step that only rewrites records, never turning one into `paused`, and drops or keeps
timers, keeps the invariant. -/
theorem Inv.of_records {w w1 : World} (hi : Inv w) (ht : ∀ t ∈ w1.timers, t ∈ w.timers)
    (he : w1.executionTimers = w.executionTimers) (hs : w1.scheduledTasks = w.scheduledTasks)
    (hr : ∀ k r1, mapGet w1.executionStatus k = some r1 →
      ∃ r, mapGet w.executionStatus k = some r ∧ (r1.status = .paused → r.status = .paused))
    (hk : ∀ k, mapHas w1.executionStatus k = mapHas w.executionStatus k) : Inv w1 := by
  refine ⟨?_, ?_, ?_, ?_⟩
  · intro t h
    rw [he]
    exact hi.recorded t (ht t h)
  · intro k tid h
    rw [he] at h
    rw [hs]
    exact hi.timerKnown k tid h
  · intro k r1 h hp
    obtain ⟨r, hr1, hr2⟩ := hr k r1 h
    rw [he]
    exact hi.pausedNoTimer k r hr1 (hr2 hp)
  · intro k
    rw [hk, hs]
    exact hi.sameKeys k

/-- Disarming the timer of a task and rewriting its record keeps the invariant. -/
theorem Inv.of_clear {w w1 : World} {k : TaskId} {r r1 : StatusInfo} (hi : Inv w)
    (hg : mapGet w.executionStatus k = some r)
    (ht : w1.timers = (clearTaskTimer w k).timers)
    (he : w1.executionTimers = (clearTaskTimer w k).executionTimers)
    (hs : w1.scheduledTasks = w.scheduledTasks)
    (hr : w1.executionStatus = mapSet w.executionStatus k r1) : Inv w1 := by
  refine ⟨?_, ?_, ?_, ?_⟩
  · intro t h
    rw [ht] at h
    rw [he, clearTaskTimer_get]
    have hmem := clearTaskTimer_timers_subset h
    have hrec := hi.recorded t hmem
    by_cases hk : k = t.taskId
    · exfalso
      unfold clearTaskTimer at h
      rw [← hk] at hrec
      rw [hrec] at h
      exact (mem_clearTimeout.1 h).2 rfl
    · simp [hk, hrec]
  · intro k1 tid h
    rw [he, clearTaskTimer_get] at h
    rw [hs]
    by_cases hk : k = k1
    · simp [hk] at h
    · simp only [hk, if_false] at h
      exact hi.timerKnown k1 tid h
  · intro k1 r2 h hp
    rw [he, clearTaskTimer_get]
    by_cases hk : k = k1
    · simp [hk]
    · simp only [hk, if_false]
      rw [hr, mapGet_mapSet_of_ne _ _ _ _ hk] at h
      exact hi.pausedNoTimer k1 r2 h hp
  · intro k1
    rw [hr, hs, mapHas_mapSet_of_get hg]
    exact hi.sameKeys k1

theorem Inv.executeTask {w : World} (hi : Inv w) (k : TaskId) : Inv (executeTask w k).2 := by
  unfold AutomationEngine.executeTask
  split
  · exact hi
  · split
    · exact hi
    · rename_i r hr
      exact hi.of_clear hr rfl rfl (by simp) (by simp only [clearTaskTimer_executionStatus]; rfl)

theorem Inv.pauseExecution {w : World} (hi : Inv w) (k : TaskId) :
    Inv (pauseExecution w k).2 := by
  unfold AutomationEngine.pauseExecution
  split
  · exact hi
  · split
    · exact hi
    · rename_i r hr _
      exact hi.of_clear hr rfl rfl (by simp) (by simp only [clearTaskTimer_executionStatus]; rfl)

theorem Inv.cancelExecution {w : World} (hi : Inv w) (k : TaskId) :
    Inv (cancelExecution w k).2 := by
  unfold AutomationEngine.cancelExecution
  split
  · exact hi
  · rename_i r hr
    exact hi.of_clear hr rfl rfl (by simp) (by simp only [clearTaskTimer_executionStatus]; rfl)

theorem Inv.resumeExecution {w : World} (hi : Inv w) (k : TaskId) :
    Inv (resumeExecution w k).2 := by
  unfold AutomationEngine.resumeExecution
  split
  · exact hi
  · rename_i r hr
    split
    · exact hi
    · rename_i hp
      have hp1 : r.status = .paused := by simpa using hp
      have hno := hi.pausedNoTimer k r hr hp1
      refine ⟨?_, ?_, ?_, ?_⟩
      · intro t h
        simp only [List.mem_append, List.mem_singleton] at h
        rcases h with h | rfl
        · have hrec := hi.recorded t h
          have hk : k ≠ t.taskId := by
            rintro rfl
            rw [hno] at hrec
            simp at hrec
          simp [mapGet_mapSet_of_ne _ _ _ _ hk, hrec]
        · simp [mapGet_mapSet_self]
      · intro k1 tid h
        by_cases hk : k = k1
        · subst hk
          have := hi.sameKeys k
          simp only [mapHas, hr, Option.isSome_some] at this
          simpa [mapHas] using this.symm
        · simp only [mapGet_mapSet_of_ne _ _ _ _ hk] at h
          exact hi.timerKnown k1 tid h
      · intro k1 r2 h hp2
        by_cases hk : k = k1
        · subst hk
          simp only [mapGet_mapSet_self, Option.some.injEq] at h
          subst h
          simp at hp2
        · simp only [mapGet_mapSet_of_ne _ _ _ _ hk] at h ⊢
          exact hi.pausedNoTimer k1 r2 h hp2
      · intro k1
        simp only [mapHas_mapSet_of_get hr]
        exact hi.sameKeys k1

theorem Inv.schedule {w : World} (hi : Inv w) (req : Option TaskRequest) :
    Inv (schedule w req).2 := by
  unfold AutomationEngine.schedule
  split
  · exact hi
  · rename_i tc
    split
    · exact hi
    · split
      · exact hi
      · rename_i hdup
        split
        · exact hi
        · split
          · exact hi
          · split
            · exact hi
            · refine ⟨?_, ?_, ?_, ?_⟩
              · intro t h
                simp only [List.mem_append, List.mem_singleton] at h
                rcases h with h | rfl
                · have hrec := hi.recorded t h
                  have hk : tc.taskId ≠ t.taskId := by
                    intro hk
                    rw [← hk] at hrec
                    exact hdup (hi.timerKnown _ _ hrec)
                  simp [mapGet_mapSet_of_ne _ _ _ _ hk, hrec]
                · simp [mapGet_mapSet_self]
              · intro k1 tid h
                simp only [mapHas_mapSet]
                by_cases hk : tc.taskId = k1
                · simp [hk]
                · simp only [mapGet_mapSet_of_ne _ _ _ _ hk] at h
                  simp [hi.timerKnown k1 tid h]
              · intro k1 r2 h hp2
                by_cases hk : tc.taskId = k1
                · subst hk
                  simp only [mapGet_mapSet_self, Option.some.injEq] at h
                  subst h
                  simp [createStatusInfo] at hp2
                · simp only [mapGet_mapSet_of_ne _ _ _ _ hk] at h ⊢
                  exact hi.pausedNoTimer k1 r2 h hp2
              · intro k1
                simp only [mapHas_mapSet, hi.sameKeys k1]

theorem Inv.attemptExecution {w : World} (hi : Inv w) (pid : Nat) (k : TaskId)
    (config : ExecutionConfig) (c : Nat) (m : JSNum) :
    Inv (attemptExecution w pid k config c m) := by
  unfold AutomationEngine.attemptExecution
  split
  · exact hi.of_records (fun _ h => h) rfl rfl (fun k r h => ⟨r, h, fun x => x⟩) (fun _ => rfl)
  · rename_i r hr
    refine hi.of_records (fun _ h => h) rfl rfl ?_ (fun k1 => mapHas_mapSet_of_get hr k1 _)
    intro k1 r1 h
    by_cases hk : k = k1
    · subst hk
      simp only [mapGet_mapSet_self, Option.some.injEq] at h
      subst h
      exact ⟨r, hr, fun x => x⟩
    · simp only [mapGet_mapSet_of_ne _ _ _ _ hk] at h
      exact ⟨r1, h, fun x => x⟩

theorem Inv.attemptSettled {w : World} (hi : Inv w) (p : Proc) (success : Bool) :
    Inv (attemptSettled w p success) := by
  have key : ∀ (r r0 : StatusInfo), mapGet w.executionStatus p.taskId = some r0 →
      (r.status = .paused → r0.status = .paused) →
      ∀ k r1, mapGet (mapSet w.executionStatus p.taskId r) k = some r1 →
        ∃ r2, mapGet w.executionStatus k = some r2 ∧ (r1.status = .paused → r2.status = .paused) := by
    intro r r0 hr0 himp k r1 h
    by_cases hk : p.taskId = k
    · subst hk
      simp only [mapGet_mapSet_self, Option.some.injEq] at h
      subst h
      exact ⟨r0, hr0, himp⟩
    · simp only [mapGet_mapSet_of_ne _ _ _ _ hk] at h
      exact ⟨r1, h, fun x => x⟩
  unfold AutomationEngine.attemptSettled
  split
  · exact hi.of_records (fun _ h => h) rfl rfl (fun k r h => ⟨r, h, fun x => x⟩) (fun _ => rfl)
  · rename_i r hr
    split
    · refine hi.of_records (by simp) (by simp) (by simp) ?_ ?_
      · simp only [triggerCompletionCallbacks_executionStatus]
        exact key _ r hr (by simp)
      · intro k1
        simp only [triggerCompletionCallbacks_executionStatus]
        exact mapHas_mapSet_of_get hr k1 _
    · split
      · refine hi.of_records (fun _ h => h) rfl rfl ?_ (fun k1 => mapHas_mapSet_of_get hr k1 _)
        exact key _ r hr (fun x => x)
      · refine hi.of_records (by simp) (by simp) (by simp) ?_ ?_
        · simp only [triggerCompletionCallbacks_executionStatus]
          exact key _ r hr (by simp)
        · intro k1
          simp only [triggerCompletionCallbacks_executionStatus]
          exact mapHas_mapSet_of_get hr k1 _

theorem Inv.fireTimer {w : World} (hi : Inv w) (t : Timer) : Inv (fireTimer w t) := by
  have h1 : Inv { w with timers := clearTimeout w.timers t.timerId } :=
    hi.of_records (fun _ h => (mem_clearTimeout.1 h).1) rfl rfl
      (fun k r h => ⟨r, h, fun x => x⟩) (fun _ => rfl)
  have h2 := h1.executeTask t.taskId
  unfold AutomationEngine.fireTimer
  simp only
  split
  · rename_i r w2 heq
    rw [heq] at h2
    exact h2
  · rename_i r w2 heq
    rw [heq] at h2
    exact h2.of_records (fun _ h => h) rfl rfl (fun k r h => ⟨r, h, fun x => x⟩) (fun _ => rfl)

theorem Inv.step {w w1 : World} {e : Event} (hi : Inv w) (hstep : step w e = some w1) :
    Inv w1 := by
  cases e with
  | schedule req =>
    simp only [AutomationEngine.step, Option.some.injEq] at hstep; subst hstep
    exact hi.schedule req
  | executeTask k =>
    simp only [AutomationEngine.step, Option.some.injEq] at hstep; subst hstep
    exact hi.executeTask k
  | pauseExecution k =>
    simp only [AutomationEngine.step, Option.some.injEq] at hstep; subst hstep
    exact hi.pauseExecution k
  | resumeExecution k =>
    simp only [AutomationEngine.step, Option.some.injEq] at hstep; subst hstep
    exact hi.resumeExecution k
  | cancelExecution k =>
    simp only [AutomationEngine.step, Option.some.injEq] at hstep; subst hstep
    exact hi.cancelExecution k
  | getExecutionStatus k =>
    simp only [AutomationEngine.step, Option.some.injEq] at hstep; subst hstep
    unfold getExecutionStatus
    split <;> exact hi
  | listScheduledTasks f =>
    simp only [AutomationEngine.step, Option.some.injEq] at hstep; subst hstep
    unfold listScheduledTasks
    split
    · exact hi
    · split
      · split <;> exact hi
      · exact hi
  | onExecutionComplete cb =>
    simp only [AutomationEngine.step, Option.some.injEq] at hstep; subst hstep
    unfold onExecutionComplete
    split
    · exact hi
    · exact hi.of_records (fun _ h => h) rfl rfl (fun k r h => ⟨r, h, fun x => x⟩) (fun _ => rfl)
  | tick dt =>
    simp only [AutomationEngine.step, Option.some.injEq] at hstep; subst hstep
    exact hi.of_records (fun _ h => h) rfl rfl (fun k r h => ⟨r, h, fun x => x⟩) (fun _ => rfl)
  | timerFire tid =>
    simp only [AutomationEngine.step] at hstep
    split at hstep
    · simp at hstep
    · simp only [Option.some.injEq] at hstep; subst hstep
      exact hi.fireTimer _
  | attemptBegin pid =>
    simp only [AutomationEngine.step] at hstep
    split at hstep
    · simp at hstep
    · split at hstep
      · simp only [Option.some.injEq] at hstep; subst hstep
        exact hi.attemptExecution _ _ _ _ _
      · simp only [Option.some.injEq] at hstep; subst hstep
        exact hi.attemptExecution _ _ _ _ _
      · simp at hstep
  | attemptSettle pid success =>
    simp only [AutomationEngine.step] at hstep
    split at hstep
    · simp at hstep
    · split at hstep
      · simp only [Option.some.injEq] at hstep; subst hstep
        exact hi.attemptSettled _ _
      · simp at hstep

theorem Inv.init (t0 : Int) : Inv (World.init t0) := by
  refine ⟨?_, ?_, ?_, ?_⟩ <;> simp [World.init, mapGet, mapHas]

theorem Reachable.inv {w : World} (h : Reachable w) : Inv w := by
  induction h with
  | init t0 => exact Inv.init t0
  | step e _ hstep ih => exact ih.step hstep


/-! ## The record of a task across one event -/

theorem mapGet_mapSet {α : Type} (m : List (TaskId × α)) (k k1 : TaskId) (v : α) :
    mapGet (mapSet m k v) k1 = if k = k1 then some v else mapGet m k1 := by
  by_cases h : k = k1
  · subst h; simp [mapGet_mapSet_self]
  · simp [h, mapGet_mapSet_of_ne _ _ _ _ h]

theorem executeTask_record {w : World} {id : TaskId} {r : StatusInfo} (k : TaskId)
    (hr : mapGet w.executionStatus id = some r) :
    mapGet (executeTask w k).2.executionStatus id = some r ∨
      (k = id ∧ mapGet (executeTask w k).2.executionStatus id =
        some { r with status := .executing }) := by
  unfold executeTask
  split
  · exact Or.inl hr
  · split
    · exact Or.inl hr
    · rename_i r0 hr0
      simp only [clearTaskTimer_executionStatus, mapGet_mapSet]
      by_cases hk : k = id
      · subst hk
        rw [hr] at hr0
        simp only [Option.some.injEq] at hr0
        subst hr0
        exact Or.inr ⟨rfl, by simp⟩
      · exact Or.inl (by simp [hk, hr])

/-- The record of a task after one event, in terms of its record before. -/
theorem step_record {w w1 : World} {e : Event} {id : TaskId} {r : StatusInfo} (hi : Inv w)
    (hstep : step w e = some w1) (hr : mapGet w.executionStatus id = some r) :
    ∃ r1, mapGet w1.executionStatus id = some r1 ∧ RecordStep w id r e r1 := by
  cases e with
  | schedule req =>
    simp only [step, Option.some.injEq] at hstep; subst hstep
    refine ⟨r, ?_, .same _⟩
    unfold schedule
    split
    · exact hr
    · rename_i tc
      split
      · exact hr
      · split
        · exact hr
        · rename_i hdup
          have hk : tc.taskId ≠ id := by
            intro h
            rw [h, ← hi.sameKeys id] at hdup
            simp [mapHas, hr] at hdup
          split
          · exact hr
          · split
            · exact hr
            · split
              · exact hr
              · simp [mapGet_mapSet, hk, hr]
  | executeTask k =>
    simp only [step, Option.some.injEq] at hstep; subst hstep
    rcases executeTask_record k hr with h | ⟨rfl, h⟩
    · exact ⟨r, h, .same _⟩
    · exact ⟨_, h, .execute⟩
  | pauseExecution k =>
    simp only [step, Option.some.injEq] at hstep; subst hstep
    unfold pauseExecution
    split
    · exact ⟨r, hr, .same _⟩
    · rename_i r0 hr0
      split
      · exact ⟨r, hr, .same _⟩
      · rename_i hfin
        simp only [clearTaskTimer_executionStatus, mapGet_mapSet]
        by_cases hk : k = id
        · subst hk
          rw [hr] at hr0
          simp only [Option.some.injEq] at hr0
          subst hr0
          simp only [not_or] at hfin
          exact ⟨_, by simp, .pause hfin.1 hfin.2⟩
        · exact ⟨r, by simp [hk, hr], .same _⟩
  | resumeExecution k =>
    simp only [step, Option.some.injEq] at hstep; subst hstep
    unfold resumeExecution
    split
    · exact ⟨r, hr, .same _⟩
    · rename_i r0 hr0
      split
      · exact ⟨r, hr, .same _⟩
      · rename_i hp
        simp only [mapGet_mapSet]
        by_cases hk : k = id
        · subst hk
          rw [hr] at hr0
          simp only [Option.some.injEq] at hr0
          subst hr0
          exact ⟨_, by simp, .resume (by simpa using hp)⟩
        · exact ⟨r, by simp [hk, hr], .same _⟩
  | cancelExecution k =>
    simp only [step, Option.some.injEq] at hstep; subst hstep
    unfold cancelExecution
    split
    · exact ⟨r, hr, .same _⟩
    · rename_i r0 hr0
      simp only [clearTaskTimer_executionStatus, mapGet_mapSet]
      by_cases hk : k = id
      · subst hk
        rw [hr] at hr0
        simp only [Option.some.injEq] at hr0
        subst hr0
        refine ⟨_, ?_, RecordStep.cancel⟩
        simp
      · exact ⟨r, by simp [hk, hr], .same _⟩
  | getExecutionStatus k =>
    simp only [step, Option.some.injEq] at hstep; subst hstep
    refine ⟨r, ?_, .same _⟩
    unfold getExecutionStatus
    split <;> exact hr
  | listScheduledTasks f =>
    simp only [step, Option.some.injEq] at hstep; subst hstep
    refine ⟨r, ?_, .same _⟩
    unfold listScheduledTasks
    split
    · exact hr
    · split
      · split <;> exact hr
      · exact hr
  | onExecutionComplete cb =>
    simp only [step, Option.some.injEq] at hstep; subst hstep
    refine ⟨r, ?_, .same _⟩
    unfold onExecutionComplete
    split <;> exact hr
  | tick dt =>
    simp only [step, Option.some.injEq] at hstep; subst hstep
    exact ⟨r, hr, .same _⟩
  | timerFire tid =>
    simp only [step] at hstep
    split at hstep
    · simp at hstep
    · rename_i t ht
      simp only [Option.some.injEq] at hstep; subst hstep
      have h := executeTask_record (w := { w with timers := clearTimeout w.timers t.timerId })
        t.taskId hr
      have hfire : (fireTimer w t).executionStatus =
          (executeTask { w with timers := clearTimeout w.timers t.timerId }
            t.taskId).2.executionStatus := by
        unfold fireTimer
        simp only
        split <;> (rename_i heq; rw [heq])
      rw [hfire]
      rcases h with h | ⟨hk, h⟩
      · exact ⟨r, h, .same _⟩
      · exact ⟨_, h, .fire tid t ht hk⟩
  | attemptBegin pid =>
    simp only [step] at hstep
    split at hstep
    · simp at hstep
    · rename_i p hp
      split at hstep
      · rename_i hph
        simp only [Option.some.injEq] at hstep; subst hstep
        unfold attemptExecution
        split
        · exact ⟨r, hr, .same _⟩
        · rename_i r0 hr0
          simp only [mapGet_mapSet]
          by_cases hk : p.taskId = id
          · rw [hk, hr] at hr0
            simp only [Option.some.injEq] at hr0
            subst hr0
            exact ⟨_, by simp [hk], .first pid p hp hk hph⟩
          · exact ⟨r, by simp [hk, hr], .same _⟩
      · rename_i d hph
        simp only [Option.some.injEq] at hstep; subst hstep
        unfold attemptExecution
        split
        · exact ⟨r, hr, .same _⟩
        · rename_i r0 hr0
          simp only [mapGet_mapSet]
          by_cases hk : p.taskId = id
          · rw [hk, hr] at hr0
            simp only [Option.some.injEq] at hr0
            subst hr0
            exact ⟨_, by simp [hk], .next pid p d hp hk hph⟩
          · exact ⟨r, by simp [hk, hr], .same _⟩
      · simp at hstep
  | attemptSettle pid success =>
    simp only [step] at hstep
    split at hstep
    · simp at hstep
    · rename_i p hp
      split at hstep
      · rename_i d hph
        simp only [Option.some.injEq] at hstep; subst hstep
        unfold attemptSettled
        split
        · exact ⟨r, hr, .same _⟩
        · rename_i r0 hr0
          by_cases hk : p.taskId = id
          · rw [hk, hr] at hr0
            simp only [Option.some.injEq] at hr0
            subst hr0
            split
            · rename_i hs
              subst hs
              exact ⟨_, by simp [mapGet_mapSet, hk], .succeed pid p d hp hk hph⟩
            · rename_i hs
              have hs1 : success = false := by simpa using hs
              subst hs1
              split
              · rename_i hlt
                exact ⟨_, by simp [mapGet_mapSet, hk], .failRetry pid p d hp hk hph hlt⟩
              · rename_i hlt
                exact ⟨_, by simp [mapGet_mapSet, hk],
                  .failFinal pid p d hp hk hph (by simpa using hlt)⟩
          · refine ⟨r, ?_, .same _⟩
            split
            · simp [mapGet_mapSet, hk, hr]
            · split <;> simp [mapGet_mapSet, hk, hr]
      · simp at hstep

/-! ## Runs, reachability and cancellation -/

theorem reachable_runEvents {w w1 : World} (es : List Event) (hw : Reachable w)
    (h : runEvents w es = some w1) : Reachable w1 := by
  induction es generalizing w with
  | nil =>
    simp only [runEvents, Option.some.injEq] at h
    exact h ▸ hw
  | cons e es ih =>
    simp only [runEvents] at h
    split at h
    · simp at h
    · rename_i w2 h2
      exact ih (Reachable.step e hw h2) h

theorem reachable_worldAfter (es : List Event) (h : (runEvents (World.init 0) es).isSome = true) :
    Reachable (worldAfter es) := by
  unfold worldAfter
  cases hrun : runEvents (World.init 0) es with
  | none => simp [hrun] at h
  | some w1 => exact reachable_runEvents es (Reachable.init 0) hrun

theorem findProc_setProc {ps : List Proc} {pid : Nat} {p : Proc} (q : Proc)
    (h : findProc ps pid = some p) (hq : q.pid = pid) : findProc (setProc ps q) pid = some q := by
  subst hq
  induction ps with
  | nil => simp [findProc] at h
  | cons a ps ih =>
    by_cases ha : a.pid = q.pid
    · simp [setProc, findProc, ha]
    · simp only [findProc, ha, if_false] at h
      have := ih h
      simp only [setProc] at this
      simp [setProc, findProc, ha, this]

theorem findProc_removeProc (ps : List Proc) (pid : Nat) :
    findProc (removeProc ps pid) pid = none := by
  induction ps with
  | nil => simp [removeProc, findProc]
  | cons a ps ih =>
    simp only [removeProc] at ih
    by_cases ha : a.pid = pid
    · simpa [removeProc, ha] using ih
    · simpa [removeProc, findProc, ha] using ih

theorem quiet_runEvents {id : TaskId} (es : List Event) {w w1 : World} (hq : Quiet w id)
    (hes : ∀ e ∈ es, e ≠ .executeTask id ∧ e ≠ .pauseExecution id ∧ e ≠ .cancelExecution id)
    (h : runEvents w es = some w1) :
    Quiet w1 id ∧ mapGet w1.executionStatus id = mapGet w.executionStatus id := by
  induction es generalizing w with
  | nil =>
    simp only [runEvents, Option.some.injEq] at h
    subst h
    exact ⟨hq, rfl⟩
  | cons e es ih =>
    simp only [runEvents] at h
    split at h
    · simp at h
    · rename_i w2 h2
      have he := hes e (List.mem_cons_self _ _)
      have hs := quiet_step hq h2 he.1 he.2.1 he.2.2
      have hr := ih hs.1 (fun e1 h1 => hes e1 (List.mem_cons_of_mem _ h1)) h
      exact ⟨hr.1, hr.2.trans hs.2⟩

theorem cancelExecution_result {w : World} {id : TaskId} {r : StatusInfo}
    (hr : mapGet w.executionStatus id = some r) :
    (cancelExecution w id).1 = .ok (.taskStatus id .cancelled) ∧
      mapGet (cancelExecution w id).2.executionStatus id =
        some { r with status := .cancelled, cancelledAt := some w.now } ∧
      (cancelExecution w id).2.procs = w.procs ∧
      (cancelExecution w id).2.timers = (clearTaskTimer w id).timers ∧
      (cancelExecution w id).2.executionTimers = (clearTaskTimer w id).executionTimers ∧
      (cancelExecution w id).2.scheduledTasks = w.scheduledTasks := by
  unfold cancelExecution
  rw [hr]
  simp [mapGet_mapSet_self]

theorem cancelExecution_quiet {w : World} {id : TaskId} {r : StatusInfo} (hi : Inv w)
    (hr : mapGet w.executionStatus id = some r) (hp : ∀ p ∈ w.procs, p.taskId ≠ id) :
    Quiet (cancelExecution w id).2 id := by
  obtain ⟨_, h2, h3, h4, h5, h6⟩ := cancelExecution_result hr
  refine ⟨?_, ?_, ?_, ?_, ?_⟩
  · intro t ht hk
    rw [h4] at ht
    have hrec := hi.recorded t (clearTaskTimer_timers_subset ht)
    rw [hk] at hrec
    unfold clearTaskTimer at ht
    rw [hrec] at ht
    exact (mem_clearTimeout.1 ht).2 rfl
  · rw [h3]; exact hp
  · rw [h5, clearTaskTimer_get]; simp
  · rw [h6, ← hi.sameKeys id]; simp [mapHas, hr]
  · simp [statusOf, h2]

theorem specEdge_to_paused {s : Status} (h1 : s ≠ .completed) (h2 : s ≠ .failed)
    (h3 : s ≠ .cancelled) : s = .paused ∨ specEdge s .paused = true := by
  cases s <;> simp_all [specEdge]

/-! ## The claims -/

/-- C1 (code bug): with `retryCount: 2` and an attempt executor that fails on every call, the
run started by `executeTask` is over after two attempts: the record ends `failed` with
`attemptCount = 2`, not the three attempts of the claim. -/
theorem C1_two_retries_give_two_attempts :
    findProc (driveProc alwaysFails 0 4 (started (.num (.fin 2)))).procs 0 = none ∧
    attemptCountOf (driveProc alwaysFails 0 4 (started (.num (.fin 2)))) "t1" = some 2 ∧
    statusOf (driveProc alwaysFails 0 4 (started (.num (.fin 2)))) "t1" = some .failed := by
  decide

/-- C2 (code bug): with `retryCount: 2` and an attempt executor that would succeed on its
third call, the run is over after two failed attempts: the record ends `failed` with
`attemptCount = 2` and no result, the third call is never made. -/
theorem C2_third_attempt_never_made :
    findProc (driveProc (succeedsAt 3) 0 4 (started (.num (.fin 2)))).procs 0 = none ∧
    (mapGet (driveProc (succeedsAt 3) 0 4 (started (.num (.fin 2)))).executionStatus "t1").map
      (fun r => (r.status, r.attemptCount, r.result)) = some (.failed, 2, none) := by
  decide

/-- C3 (code bug): a task accepted with `retryCount: 0` reaches `attemptCount = 3`, more than
`1 + retryCount`, because `retryCount || 3` reads the accepted value 0 as absent. -/
theorem C3_zero_retries_reach_three_attempts :
    Reachable (worldAfter zeroRetryEvents) ∧
    (mapGet (worldAfter zeroRetryEvents).executionStatus "t1").map
      (fun r => (r.config.retryCount, r.attemptCount, r.status)) =
        some (some (.fin 0), 3, .failed) :=
  ⟨reachable_worldAfter _ (by decide), by decide⟩

/-- C4 (counterexample): from the reachable world in which the failed sample task
(`attemptCount = 2`) has been started again, the first attempt of the new run sets
`attemptCount` to 1. -/
theorem C4_counterexample :
    Reachable (worldAfter reexecutedEvents) ∧
    attemptCountOf (worldAfter reexecutedEvents) "t1" = some 2 ∧
    (step (worldAfter reexecutedEvents) (.attemptBegin 1)).map
      (fun w => attemptCountOf w "t1") = some (some 1) :=
  ⟨reachable_worldAfter _ (by decide), by decide, by decide⟩

/-- C4 (amended): from a reachable world every event keeps the record of a task and leaves its
`attemptCount` unchanged, except the start of an attempt of a run of that task, which sets
`attemptCount` to the number of that attempt: 1 for the first attempt of a run started by
`executeTask`, one more than the run's previous attempt after a retry wait. -/
theorem C4_attemptCount_set_only_by_attempt_start (w w1 : World) (e : Event) (id : TaskId)
    (r : StatusInfo) (hw : Reachable w) (hstep : step w e = some w1)
    (hr : mapGet w.executionStatus id = some r) :
    ∃ r1, mapGet w1.executionStatus id = some r1 ∧
      (r1.attemptCount = r.attemptCount ∨
        ∃ pid p, e = .attemptBegin pid ∧ findProc w.procs pid = some p ∧ p.taskId = id ∧
          r1.attemptCount = if p.phase = .immediate then 1 else p.currentAttempt + 1) := by
  obtain ⟨r1, h1, hrs⟩ := step_record hw.inv hstep hr
  refine ⟨r1, h1, ?_⟩
  cases hrs with
  | same => exact Or.inl rfl
  | execute => exact Or.inl rfl
  | fire => exact Or.inl rfl
  | pause => exact Or.inl rfl
  | resume => exact Or.inl rfl
  | cancel => exact Or.inl rfl
  | first pid p hp hk hph => exact Or.inr ⟨pid, p, rfl, hp, hk, by simp [hph]⟩
  | next pid p d hp hk hph => exact Or.inr ⟨pid, p, rfl, hp, hk, by simp [hph]⟩
  | succeed => exact Or.inl rfl
  | failRetry => exact Or.inl rfl
  | failFinal => exact Or.inl rfl

/-- C4 (witness): the amended statement at the start of the second attempt of the sample
task. -/
theorem C4_attemptCount_witness :
    Reachable (worldAfter retryWaitEvents) ∧
    step (worldAfter retryWaitEvents) (.attemptBegin 0) =
      some (worldAfter (retryWaitEvents ++ [.attemptBegin 0])) ∧
    mapGet (worldAfter retryWaitEvents).executionStatus "t1" = some retryWaitRecord ∧
    ∃ r1, mapGet (worldAfter (retryWaitEvents ++ [.attemptBegin 0])).executionStatus "t1" =
        some r1 ∧
      (r1.attemptCount = retryWaitRecord.attemptCount ∨
        ∃ pid p, Event.attemptBegin 0 = .attemptBegin pid ∧
          findProc (worldAfter retryWaitEvents).procs pid = some p ∧ p.taskId = "t1" ∧
          r1.attemptCount = if p.phase = .immediate then 1 else p.currentAttempt + 1) :=
  ⟨reachable_worldAfter _ (by decide), by decide, by decide,
    C4_attemptCount_set_only_by_attempt_start _ _ _ _ _ (reachable_worldAfter _ (by decide))
      (by decide) (by decide)⟩

/-- C5 (counterexample): the sample task is paused while its first attempt is in flight; when
the attempt succeeds the status goes from `paused` to `completed`, which is none of the nine
edges. Likewise `executeTask` on the completed sample task is not rejected and moves the status
from `completed` to `executing`. -/
theorem C5_counterexample :
    Reachable (worldAfter pausedInFlightEvents) ∧
    statusOf (worldAfter pausedInFlightEvents) "t1" = some .paused ∧
    (step (worldAfter pausedInFlightEvents) (.attemptSettle 0 true)).map
      (fun w => statusOf w "t1") = some (some .completed) ∧
    specEdge .paused .completed = false ∧
    Reachable (worldAfter completedEvents) ∧
    statusOf (worldAfter completedEvents) "t1" = some .completed ∧
    (executeTask (worldAfter completedEvents) "t1").1 = .ok (.taskStatus "t1" .executing) ∧
    statusOf (executeTask (worldAfter completedEvents) "t1").2 "t1" = some .executing ∧
    specEdge .completed .executing = false :=
  ⟨reachable_worldAfter _ (by decide), by decide, by decide, by decide,
    reachable_worldAfter _ (by decide), by decide, rfl, by decide, by decide⟩

/-- C5 (amended): from a reachable world, leaving aside `pauseExecution` on a cancelled task
and `cancelExecution` on a completed, failed or cancelled one, an event either keeps the status
of a record, or changes it along one of the nine edges, or is `executeTask` (called directly or
by a firing timer) setting `executing`, or is an attempt outcome setting `completed` (success)
or `failed` (retries exhausted), these three from whatever status the record has.
`resumeExecution` on a task that is not paused and `pauseExecution` on a completed or failed
task are rejected with an error and change nothing. -/
theorem C5_status_changes (w w1 : World) (e : Event) (id : TaskId) (r : StatusInfo)
    (hw : Reachable w) (hstep : step w e = some w1)
    (hr : mapGet w.executionStatus id = some r)
    (hpause : e = .pauseExecution id → r.status ≠ .cancelled)
    (hcancel : e = .cancelExecution id →
      r.status = .scheduled ∨ r.status = .executing ∨ r.status = .paused) :
    (∃ r1, mapGet w1.executionStatus id = some r1 ∧
      (r1.status = r.status ∨ specEdge r.status r1.status = true ∨
        ((e = .executeTask id ∨
            ∃ tid t, e = .timerFire tid ∧ findTimer w.timers tid = some t ∧ t.taskId = id) ∧
          r1.status = .executing) ∨
        ((∃ pid, e = .attemptSettle pid true) ∧ r1.status = .completed) ∨
        ((∃ pid, e = .attemptSettle pid false) ∧ r1.status = .failed))) ∧
    (r.status ≠ .paused → resumeExecution w id = (.error (.notPaused id), w)) ∧
    (r.status = .completed ∨ r.status = .failed →
      pauseExecution w id = (.error (.cannotPauseFinished id), w)) := by
  refine ⟨?_, ?_, ?_⟩
  · obtain ⟨r1, h1, hrs⟩ := step_record hw.inv hstep hr
    refine ⟨r1, h1, ?_⟩
    cases hrs with
    | same => exact Or.inl rfl
    | execute => exact Or.inr (Or.inr (Or.inl ⟨Or.inl rfl, rfl⟩))
    | fire tid t ht hk => exact Or.inr (Or.inr (Or.inl ⟨Or.inr ⟨tid, t, rfl, ht, hk⟩, rfl⟩))
    | pause hc hf =>
      rcases specEdge_to_paused hc hf (hpause rfl) with h | h
      · exact Or.inl h.symm
      · exact Or.inr (Or.inl h)
    | resume hp =>
      refine Or.inr (Or.inl ?_)
      show specEdge r.status .scheduled = true
      rw [hp]; rfl
    | cancel =>
      refine Or.inr (Or.inl ?_)
      show specEdge r.status .cancelled = true
      rcases hcancel rfl with h | h | h <;> (rw [h]; rfl)
    | first => exact Or.inl rfl
    | next => exact Or.inl rfl
    | succeed pid => exact Or.inr (Or.inr (Or.inr (Or.inl ⟨⟨pid, rfl⟩, rfl⟩)))
    | failRetry => exact Or.inl rfl
    | failFinal pid => exact Or.inr (Or.inr (Or.inr (Or.inr ⟨⟨pid, rfl⟩, rfl⟩)))
  · intro h
    unfold resumeExecution
    simp [hr, h]
  · intro h
    unfold pauseExecution
    simp [hr, h]

/-- C5 (witness): the amended statement at `pauseExecution` of the scheduled sample task. -/
theorem C5_status_changes_witness :
    Reachable (worldAfter scheduledEvents) ∧
    step (worldAfter scheduledEvents) (.pauseExecution "t1") =
      some (worldAfter (scheduledEvents ++ [.pauseExecution "t1"])) ∧
    mapGet (worldAfter scheduledEvents).executionStatus "t1" =
      some (createStatusInfo "t1" sampleAccepted (.valid 5000)) ∧
    (Event.pauseExecution "t1" = .pauseExecution "t1" →
      (createStatusInfo "t1" sampleAccepted (.valid 5000)).status ≠ .cancelled) ∧
    (Event.pauseExecution "t1" = .cancelExecution "t1" →
      (createStatusInfo "t1" sampleAccepted (.valid 5000)).status = .scheduled ∨
      (createStatusInfo "t1" sampleAccepted (.valid 5000)).status = .executing ∨
      (createStatusInfo "t1" sampleAccepted (.valid 5000)).status = .paused) ∧
    ((createStatusInfo "t1" sampleAccepted (.valid 5000)).status ≠ .paused →
      resumeExecution (worldAfter scheduledEvents) "t1" =
        (.error (.notPaused "t1"), worldAfter scheduledEvents)) :=
  ⟨reachable_worldAfter _ (by decide), by decide, by decide, by decide, by decide,
    (C5_status_changes (worldAfter scheduledEvents)
      (worldAfter (scheduledEvents ++ [.pauseExecution "t1"])) (.pauseExecution "t1") "t1"
      (createStatusInfo "t1" sampleAccepted (.valid 5000)) (reachable_worldAfter _ (by decide))
      (by decide) (by decide) (by decide) (by decide)).2.1⟩

/-- C6 (counterexample): the sample task is cancelled while its first attempt is in flight;
`cancelExecution` succeeds, and when the attempt then succeeds the record becomes `completed`
with a result and `completedAt` set. Likewise, after the scheduled sample task is cancelled, a
later `executeTask` succeeds and sets its status to `executing`. -/
theorem C6_counterexample :
    Reachable (worldAfter inFlightEvents) ∧
    (cancelExecution (worldAfter inFlightEvents) "t1").1 = .ok (.taskStatus "t1" .cancelled) ∧
    (mapGet (cancelExecution (worldAfter inFlightEvents) "t1").2.executionStatus "t1").map
      (fun r => (r.status, r.result.isSome, r.completedAt)) = some (.cancelled, false, none) ∧
    (step (cancelExecution (worldAfter inFlightEvents) "t1").2 (.attemptSettle 0 true)).map
      (fun w => (mapGet w.executionStatus "t1").map
        (fun r => (r.status, r.result.isSome, r.completedAt))) =
      some (some (.completed, true, some 0)) ∧
    Reachable (worldAfter scheduledEvents) ∧
    (cancelExecution (worldAfter scheduledEvents) "t1").1 = .ok (.taskStatus "t1" .cancelled) ∧
    (step (cancelExecution (worldAfter scheduledEvents) "t1").2 (.executeTask "t1")).map
      (fun w => statusOf w "t1") = some (some .executing) :=
  ⟨reachable_worldAfter _ (by decide), rfl, by decide, by decide,
    reachable_worldAfter _ (by decide), rfl, by decide⟩

/-- C6 (amended): once `cancelExecution(id)` has succeeded in a reachable world in which no run
of the retry controller is pending for the task, no later sequence of events changes any field
of its record, and no timer or run is ever pending for it again, as long as none of them is a
new `executeTask`, `pauseExecution` or `cancelExecution` call for that task. -/
theorem C6_cancelled_record_kept (w : World) (id : TaskId) (r : StatusInfo) (es : List Event)
    (w2 : World) (hw : Reachable w) (hr : mapGet w.executionStatus id = some r)
    (hp : ∀ p ∈ w.procs, p.taskId ≠ id)
    (hes : ∀ e ∈ es, e ≠ .executeTask id ∧ e ≠ .pauseExecution id ∧ e ≠ .cancelExecution id)
    (hrun : runEvents (cancelExecution w id).2 es = some w2) :
    (cancelExecution w id).1 = .ok (.taskStatus id .cancelled) ∧
    mapGet w2.executionStatus id =
      some { r with status := .cancelled, cancelledAt := some w.now } ∧
    (∀ t ∈ w2.timers, t.taskId ≠ id) ∧ (∀ p ∈ w2.procs, p.taskId ≠ id) := by
  have hq := cancelExecution_quiet hw.inv hr hp
  have hres := cancelExecution_result hr
  have h := quiet_runEvents es hq hes hrun
  exact ⟨hres.1, h.2.trans hres.2.1, h.1.noTimer, h.1.noProc⟩

/-- C6 (witness): the amended statement for the scheduled sample task and the events of
`afterCancelEvents`. -/
theorem C6_cancelled_record_kept_witness :
    Reachable (worldAfter scheduledEvents) ∧
    mapGet (worldAfter scheduledEvents).executionStatus "t1" =
      some (createStatusInfo "t1" sampleAccepted (.valid 5000)) ∧
    (∀ p ∈ (worldAfter scheduledEvents).procs, p.taskId ≠ "t1") ∧
    (∀ e ∈ afterCancelEvents,
      e ≠ .executeTask "t1" ∧ e ≠ .pauseExecution "t1" ∧ e ≠ .cancelExecution "t1") ∧
    runEvents (cancelExecution (worldAfter scheduledEvents) "t1").2 afterCancelEvents =
      some (worldAfter (scheduledEvents ++ [.cancelExecution "t1"] ++ afterCancelEvents)) ∧
    mapGet (worldAfter (scheduledEvents ++ [.cancelExecution "t1"] ++
      afterCancelEvents)).executionStatus "t1" = some cancelledRecord :=
  ⟨reachable_worldAfter _ (by decide), by decide, by decide, by decide, by decide,
    (C6_cancelled_record_kept (worldAfter scheduledEvents) "t1"
      (createStatusInfo "t1" sampleAccepted (.valid 5000)) afterCancelEvents _
      (reachable_worldAfter _ (by decide)) (by decide) (by decide) (by decide)
      (by decide)).2.1⟩

/-- C7 (code bug): `cancelExecution` on the completed sample task does not fail: it returns
status `cancelled`, and the record goes from `completed` to `cancelled` with `cancelledAt` set
to the current time. -/
theorem C7_cancel_overwrites_completed :
    Reachable (worldAfter completedEvents) ∧
    (mapGet (worldAfter completedEvents).executionStatus "t1").map
      (fun r => (r.status, r.cancelledAt)) = some (.completed, none) ∧
    (cancelExecution (worldAfter completedEvents) "t1").1 = .ok (.taskStatus "t1" .cancelled) ∧
    (mapGet (cancelExecution (worldAfter completedEvents) "t1").2.executionStatus "t1").map
      (fun r => (r.status, r.cancelledAt)) = some (.cancelled, some 150) :=
  ⟨reachable_worldAfter _ (by decide), by decide, rfl, by decide⟩

/-- C8 (counterexample): the sample task is executed, paused and resumed before the
`setImmediate` callback of `executeTask` has run. In this reachable world the task is
`scheduled` with `attemptCount` 0; `cancelExecution` succeeds and removes the armed timer, and
then, with no further call of a public method, the passage of time and the pending callbacks
of the run start an attempt and complete it: `attemptCount` becomes 1 and the status
`completed`. -/
theorem C8_counterexample :
    Reachable (worldAfter resumedBeforeAttemptEvents) ∧
    (mapGet (worldAfter resumedBeforeAttemptEvents).executionStatus "t1").map
      (fun r => (r.status, r.attemptCount)) = some (.scheduled, 0) ∧
    (cancelExecution (worldAfter resumedBeforeAttemptEvents) "t1").1 =
      .ok (.taskStatus "t1" .cancelled) ∧
    statusOf (cancelExecution (worldAfter resumedBeforeAttemptEvents) "t1").2 "t1" =
      some .cancelled ∧
    timersOf (cancelExecution (worldAfter resumedBeforeAttemptEvents) "t1").2 "t1" = [] ∧
    [Event.tick 6000, .attemptBegin 0, .attemptSettle 0 true].all Event.isCallback = true ∧
    (runEvents (cancelExecution (worldAfter resumedBeforeAttemptEvents) "t1").2
      [.tick 6000, .attemptBegin 0, .attemptSettle 0 true]).map
        (fun w => (statusOf w "t1", attemptCountOf w "t1")) =
      some (some .completed, some 1) :=
  ⟨reachable_worldAfter _ (by decide), by decide, rfl, by decide, by decide, by decide,
    by decide⟩

/-- C8 (amended): in a reachable world, `cancelExecution` on a task in status `scheduled` for
which no run of the retry controller is pending returns status `cancelled`, sets the status
to `cancelled` and `cancelledAt` to the current time, and removes the armed timer of the task;
afterwards no sequence of timer firings, retry-controller callbacks and clock ticks changes
the record: `attemptCount` stays what it was (0 for a task never executed) and the status
stays `cancelled`. -/
theorem C8_cancel_scheduled_disarms_timer (w : World) (id : TaskId) (r : StatusInfo)
    (hw : Reachable w) (hr : mapGet w.executionStatus id = some r)
    (_hs : r.status = .scheduled) (hp : ∀ p ∈ w.procs, p.taskId ≠ id) :
    (cancelExecution w id).1 = .ok (.taskStatus id .cancelled) ∧
    mapGet (cancelExecution w id).2.executionStatus id =
      some { r with status := .cancelled, cancelledAt := some w.now } ∧
    mapGet (cancelExecution w id).2.executionTimers id = none ∧
    (∀ t ∈ (cancelExecution w id).2.timers, t.taskId ≠ id) ∧
    ∀ (es : List Event) (w2 : World), (∀ e ∈ es, e.isCallback = true) →
      runEvents (cancelExecution w id).2 es = some w2 →
      mapGet w2.executionStatus id =
          some { r with status := .cancelled, cancelledAt := some w.now } ∧
        attemptCountOf w2 id = some r.attemptCount ∧ statusOf w2 id = some .cancelled := by
  have hq := cancelExecution_quiet hw.inv hr hp
  have hres := cancelExecution_result hr
  refine ⟨hres.1, hres.2.1, hq.noEntry, hq.noTimer, ?_⟩
  intro es w2 hes hrun
  have hes1 : ∀ e ∈ es,
      e ≠ .executeTask id ∧ e ≠ .pauseExecution id ∧ e ≠ .cancelExecution id := by
    intro e he
    have hc := hes e he
    refine ⟨?_, ?_, ?_⟩ <;> (rintro rfl; simp [Event.isCallback] at hc)
  have h := (quiet_runEvents es hq hes1 hrun).2.trans hres.2.1
  refine ⟨h, ?_, ?_⟩
  · simp [attemptCountOf, h]
  · simp [statusOf, h]

/-- C8 (witness): the scheduled sample task is cancelled at the instant 0. -/
theorem C8_cancel_scheduled_witness :
    Reachable (worldAfter scheduledEvents) ∧
    mapGet (worldAfter scheduledEvents).executionStatus "t1" =
      some (createStatusInfo "t1" sampleAccepted (.valid 5000)) ∧
    (createStatusInfo "t1" sampleAccepted (.valid 5000)).status = .scheduled ∧
    (∀ p ∈ (worldAfter scheduledEvents).procs, p.taskId ≠ "t1") ∧
    mapGet (cancelExecution (worldAfter scheduledEvents) "t1").2.executionStatus "t1" =
      some { createStatusInfo "t1" sampleAccepted (.valid 5000) with
             status := .cancelled, cancelledAt := some (worldAfter scheduledEvents).now } :=
  ⟨reachable_worldAfter _ (by decide), by decide, by decide, by decide,
    (C8_cancel_scheduled_disarms_timer (worldAfter scheduledEvents) "t1"
      (createStatusInfo "t1" sampleAccepted (.valid 5000)) (reachable_worldAfter _ (by decide))
      (by decide) (by decide) (by decide)).2.1⟩

/-- C9 (counterexample): the sample task is cancelled during the retry wait after its failed
first attempt (`attemptCount = 1`); the wait is still pending, and when it ends the second
attempt is started and `attemptCount` becomes 2. The same happens after `pauseExecution`. -/
theorem C9_counterexample :
    Reachable (worldAfter retryWaitEvents) ∧
    findProc (worldAfter retryWaitEvents).procs 0 = some retryWaitProc ∧
    (cancelExecution (worldAfter retryWaitEvents) "t1").1 = .ok (.taskStatus "t1" .cancelled) ∧
    attemptCountOf (cancelExecution (worldAfter retryWaitEvents) "t1").2 "t1" = some 1 ∧
    (step (cancelExecution (worldAfter retryWaitEvents) "t1").2 (.attemptBegin 0)).map
      (fun w => (attemptCountOf w "t1", (findProc w.procs 0).map (fun p => p.phase))) =
      some (some 2, some (.inFlight (.fin 500))) ∧
    (pauseExecution (worldAfter retryWaitEvents) "t1").1 = .ok (.taskStatus "t1" .paused) ∧
    attemptCountOf (pauseExecution (worldAfter retryWaitEvents) "t1").2 "t1" = some 1 ∧
    (step (pauseExecution (worldAfter retryWaitEvents) "t1").2 (.attemptBegin 0)).map
      (fun w => (attemptCountOf w "t1", (findProc w.procs 0).map (fun p => p.phase))) =
      some (some 2, some (.inFlight (.fin 500))) :=
  ⟨reachable_worldAfter _ (by decide), by decide, rfl, by decide, by decide, rfl, by decide,
    by decide⟩

/-- C9 (amended): `cancelExecution` and `pauseExecution` called while a run of the task is in
its retry wait do not preempt the wait: after the call the run is still pending as it was, and
when the wait ends the next attempt is started, so that `attemptCount` becomes the number of
that attempt and the run is in flight again. -/
theorem C9_retry_wait_not_preempted (w w1 : World) (id : TaskId) (p : Proc) (d : JSNum)
    (r : StatusInfo) (hp : findProc w.procs p.pid = some p) (hid : p.taskId = id)
    (hph : p.phase = .retryWait d) (hr : mapGet w.executionStatus id = some r)
    (hw1 : w1 = (cancelExecution w id).2 ∨ w1 = (pauseExecution w id).2) :
    findProc w1.procs p.pid = some p ∧
    ∃ w2, step w1 (.attemptBegin p.pid) = some w2 ∧
      attemptCountOf w2 id = some (p.currentAttempt + 1) ∧
      findProc w2.procs p.pid =
        some { p with currentAttempt := p.currentAttempt + 1,
                      phase := .inFlight (simulateClickDelay p.config) } := by
  have hprocs : w1.procs = w.procs := by
    rcases hw1 with h | h
    · rw [h]; exact (cancelExecution_result hr).2.2.1
    · rw [h]; unfold pauseExecution; rw [hr]; simp only; split <;> simp
  have hrec : ∃ r1, mapGet w1.executionStatus id = some r1 := by
    rcases hw1 with h | h
    · exact ⟨_, h ▸ (cancelExecution_result hr).2.1⟩
    · rw [h]; unfold pauseExecution; rw [hr]; simp only
      split
      · exact ⟨r, hr⟩
      · exact ⟨_, mapGet_mapSet_self _ _ _⟩
  obtain ⟨r1, hr1⟩ := hrec
  have hp1 : findProc w1.procs p.pid = some p := by rw [hprocs]; exact hp
  refine ⟨hp1, ?_⟩
  simp only [step, hp1, hph]
  refine ⟨_, rfl, ?_, ?_⟩
  · simp [attemptExecution, hid, hr1, attemptCountOf, mapGet_mapSet_self]
  · simp only [attemptExecution, hid, hr1]
    exact findProc_setProc _ hp1 rfl

/-- C9 (witness): the amended statement for the sample task cancelled during its retry
wait. -/
theorem C9_retry_wait_witness :
    findProc (worldAfter retryWaitEvents).procs retryWaitProc.pid = some retryWaitProc ∧
    retryWaitProc.taskId = "t1" ∧ retryWaitProc.phase = .retryWait (.fin 100) ∧
    mapGet (worldAfter retryWaitEvents).executionStatus "t1" = some retryWaitRecord ∧
    ((cancelExecution (worldAfter retryWaitEvents) "t1").2 =
        (cancelExecution (worldAfter retryWaitEvents) "t1").2 ∨
      (cancelExecution (worldAfter retryWaitEvents) "t1").2 =
        (pauseExecution (worldAfter retryWaitEvents) "t1").2) ∧
    findProc (cancelExecution (worldAfter retryWaitEvents) "t1").2.procs retryWaitProc.pid =
      some retryWaitProc :=
  ⟨by decide, by decide, by decide, by decide, Or.inl rfl,
    (C9_retry_wait_not_preempted (worldAfter retryWaitEvents) _ "t1" retryWaitProc (.fin 100)
      retryWaitRecord (by decide) (by decide) (by decide) (by decide) (Or.inl rfl)).1⟩

/-- C10: when `pauseExecution` succeeds while an attempt of the task is in flight, the record
is `paused` and the attempt is still in flight; when it then resolves with success, after any
lapse of time, the record becomes `completed` with `result` and `completedAt` set, the run
is over, and every registered listener receives the success event
`{taskId, success: true, result, attemptCount}` once, in registration order. -/
theorem C10_in_flight_outcome_applied_after_pause (w : World) (id : TaskId) (p : Proc)
    (d : JSNum) (r : StatusInfo) (dt : Nat) (hp : findProc w.procs p.pid = some p)
    (hid : p.taskId = id) (hph : p.phase = .inFlight d)
    (hr : mapGet w.executionStatus id = some r)
    (hok : (pauseExecution w id).1 = .ok (.taskStatus id .paused)) :
    statusOf (pauseExecution w id).2 id = some .paused ∧
    findProc (pauseExecution w id).2.procs p.pid = some p ∧
    ∃ w2, runEvents (pauseExecution w id).2 [.tick dt, .attemptSettle p.pid true] = some w2 ∧
      mapGet w2.executionStatus id =
        some { r with status := .completed, completedAt := some (w.now + dt),
                      result := some (simulateClickResult p.config (w.now + dt)) } ∧
      findProc w2.procs p.pid = none ∧
      w2.delivered = (pauseExecution w id).2.delivered ++
        (pauseExecution w id).2.completionCallbacks.map (fun cb =>
          (cb.ident, { taskId := id, success := true,
                       result := some (simulateClickResult p.config (w.now + dt)),
                       error := none, attemptCount := p.currentAttempt })) := by
  have hfin : ¬ (r.status = .completed ∨ r.status = .failed) := by
    intro h
    unfold pauseExecution at hok
    simp [hr, h] at hok
  have hw1 : (pauseExecution w id).2 =
      { clearTaskTimer w id with
        executionStatus := mapSet w.executionStatus id { r with status := .paused } } := by
    unfold pauseExecution
    simp [hr, hfin]
  rw [hw1]
  have hp1 : findProc (clearTaskTimer w id).procs p.pid = some p := by simpa using hp
  refine ⟨by simp [statusOf, mapGet_mapSet_self], hp1, ?_⟩
  simp only [runEvents, step, hp1, hph]
  refine ⟨_, rfl, ?_, ?_, ?_⟩
  · simp [attemptSettled, hid, mapGet_mapSet_self]
  · simp [attemptSettled, hid, mapGet_mapSet_self, findProc_removeProc]
  · simp [attemptSettled, hid, mapGet_mapSet_self, triggerCompletionCallbacks_delivered]

/-- C10 (witness): the sample task, with two listeners registered, is paused while its first
attempt is in flight, and the attempt succeeds 100 ms later. -/
theorem C10_in_flight_outcome_witness :
    findProc (worldAfter listeningEvents).procs inFlightProc.pid = some inFlightProc ∧
    inFlightProc.taskId = "t1" ∧ inFlightProc.phase = .inFlight (.fin 500) ∧
    mapGet (worldAfter listeningEvents).executionStatus "t1" = some inFlightRecord ∧
    (pauseExecution (worldAfter listeningEvents) "t1").1 = .ok (.taskStatus "t1" .paused) ∧
    ∃ w2, runEvents (pauseExecution (worldAfter listeningEvents) "t1").2
        [.tick 100, .attemptSettle inFlightProc.pid true] = some w2 ∧
      mapGet w2.executionStatus "t1" =
        some { inFlightRecord with
               status := .completed,
               completedAt := some ((worldAfter listeningEvents).now + (100 : Nat)),
               result := some (simulateClickResult inFlightProc.config
                 ((worldAfter listeningEvents).now + (100 : Nat))) } ∧
      findProc w2.procs inFlightProc.pid = none ∧
      w2.delivered = (pauseExecution (worldAfter listeningEvents) "t1").2.delivered ++
        (pauseExecution (worldAfter listeningEvents) "t1").2.completionCallbacks.map (fun cb =>
          (cb.ident, { taskId := "t1", success := true,
                       result := some (simulateClickResult inFlightProc.config
                         ((worldAfter listeningEvents).now + (100 : Nat))),
                       error := none, attemptCount := inFlightProc.currentAttempt })) :=
  ⟨by decide, by decide, by decide, by decide, rfl,
    (C10_in_flight_outcome_applied_after_pause (worldAfter listeningEvents) "t1" inFlightProc
      (.fin 500) inFlightRecord 100 (by decide) (by decide) (by decide) (by decide) rfl).2.2⟩

/-! ## Pausing, resuming, scheduling and fresh run identifiers -/

theorem clearTaskTimer_no_timer {w : World} (hi : Inv w) (id : TaskId) :
    ∀ t ∈ (clearTaskTimer w id).timers, t.taskId ≠ id := by
  intro t ht hk
  have hrec := hi.recorded t (clearTaskTimer_timers_subset ht)
  rw [hk] at hrec
  unfold clearTaskTimer at ht
  rw [hrec] at ht
  exact (mem_clearTimeout.1 ht).2 rfl

@[simp] theorem clearTaskTimer_nextTimerId (w : World) (k : TaskId) :
    (clearTaskTimer w k).nextTimerId = w.nextTimerId := by
  unfold clearTaskTimer; split <;> rfl

theorem timersOf_eq_nil {w : World} {id : TaskId} (h : ∀ t ∈ w.timers, t.taskId ≠ id) :
    timersOf w id = [] := by
  unfold timersOf
  rw [List.filter_eq_nil_iff]
  intro t ht
  simpa using h t ht

theorem pauseExecution_result {w : World} {id : TaskId} {r : StatusInfo}
    (hr : mapGet w.executionStatus id = some r)
    (hs : ¬ (r.status = .completed ∨ r.status = .failed)) :
    pauseExecution w id = (.ok (.taskStatus id .paused),
      { clearTaskTimer w id with
        executionStatus := mapSet w.executionStatus id { r with status := .paused } }) := by
  unfold pauseExecution
  simp [hr, hs]

theorem resumeExecution_result {w : World} {id : TaskId} {r : StatusInfo}
    (hr : mapGet w.executionStatus id = some r) (hs : r.status = .paused) :
    resumeExecution w id = (.ok (.taskStatus id .scheduled),
      { w with
        executionStatus := mapSet w.executionStatus id { r with status := .scheduled }
        timers := w.timers ++
          [{ timerId := w.nextTimerId, taskId := id,
             delayMs := maxZero (r.executionTime.msFrom w.now), armedAt := w.now }]
        nextTimerId := w.nextTimerId + 1
        executionTimers := mapSet w.executionTimers id w.nextTimerId }) := by
  unfold resumeExecution
  simp [hr, hs]

theorem schedule_ok {w : World} {tc : TaskRequest} {config : ExecutionConfig} {t : JSDate}
    (hid : tc.taskId ≠ "") (hnew : mapHas w.scheduledTasks tc.taskId = false)
    (hcfg : validateExecutionConfig tc.config = .ok config) (ht : tc.executionTime = some t)
    (hlt : t.notAfter w.now = false) :
    schedule w (some tc) =
      (.ok (.scheduled tc.taskId .scheduled t),
       { w with
         executionStatus := mapSet w.executionStatus tc.taskId (createStatusInfo tc.taskId config t)
         scheduledTasks := mapSet w.scheduledTasks tc.taskId
           { taskId := tc.taskId, config := config, executionTime := t }
         timers := w.timers ++
           [{ timerId := w.nextTimerId, taskId := tc.taskId, delayMs := t.msFrom w.now,
              armedAt := w.now }]
         nextTimerId := w.nextTimerId + 1
         executionTimers := mapSet w.executionTimers tc.taskId w.nextTimerId }) := by
  unfold schedule
  simp [hid, hnew, hcfg, ht, hlt]

theorem schedule_cases (w : World) (req : Option TaskRequest) :
    (∃ e, schedule w req = (.error e, w)) ∨
      ∃ tc config t, req = some tc ∧ tc.taskId ≠ "" ∧ mapHas w.scheduledTasks tc.taskId = false ∧
        validateExecutionConfig tc.config = .ok config ∧ tc.executionTime = some t ∧
        t.notAfter w.now = false := by
  cases req with
  | none => exact Or.inl ⟨_, rfl⟩
  | some tc =>
    by_cases hid : tc.taskId = ""
    · exact Or.inl ⟨.missingTaskId, by simp [schedule, hid]⟩
    · by_cases hdup : mapHas w.scheduledTasks tc.taskId = true
      · exact Or.inl ⟨.alreadyScheduled tc.taskId, by simp [schedule, hid, hdup]⟩
      · cases hcfg : validateExecutionConfig tc.config with
        | error e => exact Or.inl ⟨e, by simp [schedule, hid, hdup, hcfg]⟩
        | ok config =>
          cases ht : tc.executionTime with
          | none => exact Or.inl ⟨.executionTimeNotDate, by simp [schedule, hid, hdup, hcfg, ht]⟩
          | some t =>
            by_cases hle : t.notAfter w.now = true
            · exact Or.inl ⟨.executionTimePast, by simp [schedule, hid, hdup, hcfg, ht, hle]⟩
            · exact Or.inr ⟨tc, config, t, rfl, hid, by simpa using hdup, hcfg, ht,
                by simpa using hle⟩

theorem executeTask_scheduledTasks (w : World) (k : TaskId) :
    (executeTask w k).2.scheduledTasks = w.scheduledTasks := by
  unfold executeTask
  split
  · rfl
  · split
    · rfl
    · simp

theorem fireTimer_scheduledTasks (w : World) (t : Timer) :
    (fireTimer w t).scheduledTasks = w.scheduledTasks := by
  have h := executeTask_scheduledTasks { w with timers := clearTimeout w.timers t.timerId }
    t.taskId
  unfold fireTimer
  simp only
  split <;> (rename_i heq; rw [heq] at h; exact h)

theorem step_scheduledTasks {w w1 : World} {e : Event} (hstep : step w e = some w1) :
    w1.scheduledTasks = w.scheduledTasks ∨
      ∃ tc info, e = .schedule (some tc) ∧ succeeded (schedule w (some tc)).1 = true ∧
        w1.scheduledTasks = mapSet w.scheduledTasks tc.taskId info := by
  cases e with
  | schedule req =>
    simp only [step, Option.some.injEq] at hstep; subst hstep
    rcases schedule_cases w req with ⟨e, he⟩ | ⟨tc, config, t, rfl, hid, hnew, hcfg, ht, hlt⟩
    · rw [he]; exact Or.inl rfl
    · have h := schedule_ok hid hnew hcfg ht hlt
      exact Or.inr ⟨tc, _, rfl, by rw [h]; rfl, by rw [h]⟩
  | executeTask k =>
    simp only [step, Option.some.injEq] at hstep; subst hstep
    unfold executeTask
    split
    · exact Or.inl rfl
    · split
      · exact Or.inl rfl
      · exact Or.inl (by simp)
  | pauseExecution k =>
    simp only [step, Option.some.injEq] at hstep; subst hstep
    unfold pauseExecution
    split
    · exact Or.inl rfl
    · split
      · exact Or.inl rfl
      · exact Or.inl (by simp)
  | resumeExecution k =>
    simp only [step, Option.some.injEq] at hstep; subst hstep
    unfold resumeExecution
    split
    · exact Or.inl rfl
    · split <;> exact Or.inl rfl
  | cancelExecution k =>
    simp only [step, Option.some.injEq] at hstep; subst hstep
    unfold cancelExecution
    split
    · exact Or.inl rfl
    · exact Or.inl (by simp)
  | getExecutionStatus k =>
    simp only [step, Option.some.injEq] at hstep; subst hstep
    unfold getExecutionStatus
    split <;> exact Or.inl rfl
  | listScheduledTasks f =>
    simp only [step, Option.some.injEq] at hstep; subst hstep
    unfold listScheduledTasks
    split
    · exact Or.inl rfl
    · split
      · split <;> exact Or.inl rfl
      · exact Or.inl rfl
  | onExecutionComplete cb =>
    simp only [step, Option.some.injEq] at hstep; subst hstep
    unfold onExecutionComplete
    split <;> exact Or.inl rfl
  | tick dt =>
    simp only [step, Option.some.injEq] at hstep; subst hstep
    exact Or.inl rfl
  | timerFire tid =>
    simp only [step] at hstep
    split at hstep
    · simp at hstep
    · simp only [Option.some.injEq] at hstep; subst hstep
      exact Or.inl (fireTimer_scheduledTasks _ _)
  | attemptBegin pid =>
    simp only [step] at hstep
    split at hstep
    · simp at hstep
    · split at hstep
      · simp only [Option.some.injEq] at hstep; subst hstep
        left; unfold attemptExecution; split <;> rfl
      · simp only [Option.some.injEq] at hstep; subst hstep
        left; unfold attemptExecution; split <;> rfl
      · simp at hstep
  | attemptSettle pid success =>
    simp only [step] at hstep
    split at hstep
    · simp at hstep
    · split at hstep
      · simp only [Option.some.injEq] at hstep; subst hstep
        left; unfold attemptSettled
        split
        · rfl
        · split
          · simp
          · split
            · rfl
            · simp
      · simp at hstep

theorem never_scheduled_run {id : TaskId} (es : List Event) {w0 w : World}
    (h0 : mapGet w0.scheduledTasks id = none) (hrun : runEvents w0 es = some w)
    (hnever : everScheduled id w0 es = false) : mapGet w.scheduledTasks id = none := by
  induction es generalizing w0 with
  | nil =>
    simp only [runEvents, Option.some.injEq] at hrun
    exact hrun ▸ h0
  | cons e es ih =>
    simp only [runEvents] at hrun
    split at hrun
    · simp at hrun
    · rename_i w1 hstep
      simp only [everScheduled, hstep, Bool.or_eq_false_iff] at hnever
      refine ih ?_ hrun hnever.2
      rcases step_scheduledTasks hstep with h | ⟨tc, info, rfl, hok, h⟩
      · rw [h]; exact h0
      · have hne : tc.taskId ≠ id := by
          intro heq
          have := hnever.1
          simp [scheduledOk, heq, hok] at this
        rw [h, mapGet_mapSet_of_ne _ _ _ _ hne]
        exact h0

theorem Inv.unknown_task {w : World} (hi : Inv w) {id : TaskId}
    (h : mapGet w.scheduledTasks id = none) :
    mapGet w.executionStatus id = none ∧ mapGet w.executionTimers id = none ∧
      ∀ t ∈ w.timers, t.taskId ≠ id := by
  have hstat : mapGet w.executionStatus id = none := by
    have := hi.sameKeys id
    simp only [mapHas, h, Option.isSome_none] at this
    cases hg : mapGet w.executionStatus id with
    | none => rfl
    | some r => simp [hg] at this
  have htim : mapGet w.executionTimers id = none := by
    cases hg : mapGet w.executionTimers id with
    | none => rfl
    | some tid =>
      have := hi.timerKnown id tid hg
      simp [mapHas, h] at this
  refine ⟨hstat, htim, ?_⟩
  intro t ht hk
  have := hi.recorded t ht
  rw [hk, htim] at this
  simp at this

@[simp] theorem triggerCompletionCallbacks_nextPid (w : World) (ev : CompletionEvent) :
    (triggerCompletionCallbacks w ev).nextPid = w.nextPid :=
  (foldl_invokeCallback_frame ev w.completionCallbacks w).2.2.2.2.2.2.2.2.1

theorem pidsFresh_executeTask {w : World} (h : PidsFresh w) (k : TaskId) :
    PidsFresh (executeTask w k).2 := by
  unfold AutomationEngine.executeTask
  split
  · exact h
  · split
    · exact h
    · intro p hp
      simp only [clearTaskTimer_procs, clearTaskTimer_nextPid, List.mem_append,
        List.mem_singleton] at hp ⊢
      rcases hp with hp | rfl
      · exact Nat.lt_succ_of_lt (h p hp)
      · exact Nat.lt_succ_self _

theorem pidsFresh_attemptExecution {w : World} (h : PidsFresh w) (pid : Nat) (k : TaskId)
    (config : ExecutionConfig) (c : Nat) (m : JSNum) (hpid : pid < w.nextPid) :
    PidsFresh (attemptExecution w pid k config c m) := by
  unfold AutomationEngine.attemptExecution
  split
  · intro p hp
    exact h p (mem_removeProc.1 hp).1
  · intro p hp
    rcases mem_setProc hp with hp | rfl
    · exact h p hp
    · exact hpid

theorem pidsFresh_attemptSettled {w : World} (h : PidsFresh w) (p : Proc) (success : Bool)
    (hp : p ∈ w.procs) : PidsFresh (attemptSettled w p success) := by
  unfold AutomationEngine.attemptSettled
  split
  · intro q hq
    exact h q (mem_removeProc.1 hq).1
  · split
    · intro q hq
      simp only [triggerCompletionCallbacks_procs, triggerCompletionCallbacks_nextPid] at hq ⊢
      exact h q (mem_removeProc.1 hq).1
    · split
      · intro q hq
        rcases mem_setProc hq with hq | rfl
        · exact h q hq
        · exact h p hp
      · intro q hq
        simp only [triggerCompletionCallbacks_procs, triggerCompletionCallbacks_nextPid] at hq ⊢
        exact h q (mem_removeProc.1 hq).1

theorem pidsFresh_step {w w1 : World} {e : Event} (h : PidsFresh w)
    (hstep : step w e = some w1) : PidsFresh w1 := by
  cases e with
  | schedule req =>
    simp only [AutomationEngine.step, Option.some.injEq] at hstep; subst hstep
    rcases schedule_cases w req with ⟨e, he⟩ | ⟨tc, config, t, rfl, hid, hnew, hcfg, ht, hlt⟩
    · rw [he]; exact h
    · rw [schedule_ok hid hnew hcfg ht hlt]; exact h
  | executeTask k =>
    simp only [AutomationEngine.step, Option.some.injEq] at hstep; subst hstep
    exact pidsFresh_executeTask h k
  | pauseExecution k =>
    simp only [AutomationEngine.step, Option.some.injEq] at hstep; subst hstep
    unfold pauseExecution
    split
    · exact h
    · split
      · exact h
      · intro p hp
        simp only [clearTaskTimer_procs, clearTaskTimer_nextPid] at hp ⊢
        exact h p hp
  | resumeExecution k =>
    simp only [AutomationEngine.step, Option.some.injEq] at hstep; subst hstep
    unfold resumeExecution
    split
    · exact h
    · split <;> exact h
  | cancelExecution k =>
    simp only [AutomationEngine.step, Option.some.injEq] at hstep; subst hstep
    unfold cancelExecution
    split
    · exact h
    · intro p hp
      simp only [clearTaskTimer_procs, clearTaskTimer_nextPid] at hp ⊢
      exact h p hp
  | getExecutionStatus k =>
    simp only [AutomationEngine.step, Option.some.injEq] at hstep; subst hstep
    unfold getExecutionStatus
    split <;> exact h
  | listScheduledTasks f =>
    simp only [AutomationEngine.step, Option.some.injEq] at hstep; subst hstep
    unfold listScheduledTasks
    split
    · exact h
    · split
      · split <;> exact h
      · exact h
  | onExecutionComplete cb =>
    simp only [AutomationEngine.step, Option.some.injEq] at hstep; subst hstep
    unfold onExecutionComplete
    split <;> exact h
  | tick dt =>
    simp only [AutomationEngine.step, Option.some.injEq] at hstep; subst hstep
    exact h
  | timerFire tid =>
    simp only [AutomationEngine.step] at hstep
    split at hstep
    · simp at hstep
    · rename_i t ht
      simp only [Option.some.injEq] at hstep; subst hstep
      have h1 : PidsFresh { w with timers := clearTimeout w.timers t.timerId } := h
      have h2 := pidsFresh_executeTask h1 t.taskId
      unfold fireTimer
      simp only
      split <;> (rename_i heq; rw [heq] at h2; exact h2)
  | attemptBegin pid =>
    simp only [AutomationEngine.step] at hstep
    split at hstep
    · simp at hstep
    · rename_i p hp
      have hpid : pid < w.nextPid := (findProc_mem hp).2 ▸ h p (findProc_mem hp).1
      split at hstep
      · simp only [Option.some.injEq] at hstep; subst hstep
        exact pidsFresh_attemptExecution h _ _ _ _ _ hpid
      · simp only [Option.some.injEq] at hstep; subst hstep
        exact pidsFresh_attemptExecution h _ _ _ _ _ hpid
      · simp at hstep
  | attemptSettle pid success =>
    simp only [AutomationEngine.step] at hstep
    split at hstep
    · simp at hstep
    · rename_i p hp
      split at hstep
      · simp only [Option.some.injEq] at hstep; subst hstep
        exact pidsFresh_attemptSettled h p success (findProc_mem hp).1
      · simp at hstep

theorem Reachable.pidsFresh {w : World} (h : Reachable w) : PidsFresh w := by
  induction h with
  | init t0 => intro p hp; simp [World.init] at hp
  | step e _ hstep ih => exact pidsFresh_step ih hstep

theorem findProc_append_fresh {ps : List Proc} {q : Proc} (h : ∀ p ∈ ps, p.pid ≠ q.pid) :
    findProc (ps ++ [q]) q.pid = some q := by
  induction ps with
  | nil => simp [findProc]
  | cons a ps ih =>
    have ha : a.pid ≠ q.pid := h a (List.mem_cons_self _ _)
    simp only [List.cons_append, findProc, ha, if_false]
    exact ih (fun p hp => h p (List.mem_cons_of_mem _ hp))

theorem executeTask_result {w : World} {id : TaskId} {tc : TaskInfo} {r : StatusInfo}
    (ht : mapGet w.scheduledTasks id = some tc) (hr : mapGet w.executionStatus id = some r) :
    executeTask w id = (.ok (.taskStatus id .executing),
      { clearTaskTimer w id with
        executionStatus := mapSet w.executionStatus id { r with status := .executing }
        procs := w.procs ++
          [{ pid := w.nextPid, taskId := id, config := tc.config, currentAttempt := 0,
             maxRetries := orDefault tc.config.retryCount 3, phase := .immediate }]
        nextPid := w.nextPid + 1 }) := by
  unfold executeTask
  simp [ht, hr]

theorem Inv.task_of_record {w : World} (hi : Inv w) {id : TaskId} {r : StatusInfo}
    (hr : mapGet w.executionStatus id = some r) : ∃ tc, mapGet w.scheduledTasks id = some tc := by
  have := hi.sameKeys id
  simp only [mapHas, hr, Option.isSome_some] at this
  cases hg : mapGet w.scheduledTasks id with
  | none => simp [hg] at this
  | some tc => exact ⟨tc, rfl⟩

/-! ## The claims on the lifecycle commands -/

/-- C11: `pauseExecution` on a task whose status is `completed` or `failed` is rejected with
the error of line 329 and leaves the whole world, hence the record and `executionTimers`,
unchanged. -/
theorem C11_pause_finished_rejected (w : World) (id : TaskId) (r : StatusInfo)
    (hr : mapGet w.executionStatus id = some r)
    (hs : r.status = .completed ∨ r.status = .failed) :
    pauseExecution w id = (.error (.cannotPauseFinished id), w) := by
  unfold pauseExecution
  simp [hr, hs]

/-- C11 (witness): the completed sample task. -/
theorem C11_pause_finished_witness :
    mapGet (worldAfter completedEvents).executionStatus "t1" = some completedRecord ∧
    (completedRecord.status = .completed ∨ completedRecord.status = .failed) ∧
    pauseExecution (worldAfter completedEvents) "t1" =
      (.error (.cannotPauseFinished "t1"), worldAfter completedEvents) :=
  ⟨by decide, by decide,
    C11_pause_finished_rejected _ "t1" completedRecord (by decide) (by decide)⟩

/-- C12 (code bug): `pauseExecution` on the cancelled sample task is not rejected: it returns
status `paused` and the record goes from `cancelled` to `paused`; a following
`resumeExecution` then succeeds and arms a timer for the cancelled task again. -/
theorem C12_pause_accepts_cancelled :
    Reachable (worldAfter cancelledEvents) ∧
    statusOf (worldAfter cancelledEvents) "t1" = some .cancelled ∧
    (pauseExecution (worldAfter cancelledEvents) "t1").1 = .ok (.taskStatus "t1" .paused) ∧
    statusOf (pauseExecution (worldAfter cancelledEvents) "t1").2 "t1" = some .paused ∧
    (resumeExecution (pauseExecution (worldAfter cancelledEvents) "t1").2 "t1").1 =
      .ok (.taskStatus "t1" .scheduled) ∧
    (timersOf (resumeExecution (pauseExecution (worldAfter cancelledEvents) "t1").2 "t1").2
      "t1").length = 1 :=
  ⟨reachable_worldAfter _ (by decide), by decide, rfl, by decide, rfl, by decide⟩

/-- C13: in a reachable world, `pauseExecution` on a task in status `scheduled` or `executing`
returns status `paused`; the record afterwards is the old record with `status` replaced by
`paused` (every other field as before), `executionTimers` has no entry for the task and no
timer is armed for it. -/
theorem C13_pause_sets_paused (w : World) (id : TaskId) (r : StatusInfo) (hw : Reachable w)
    (hr : mapGet w.executionStatus id = some r)
    (hs : r.status = .scheduled ∨ r.status = .executing) :
    (pauseExecution w id).1 = .ok (.taskStatus id .paused) ∧
    mapGet (pauseExecution w id).2.executionStatus id = some { r with status := .paused } ∧
    mapGet (pauseExecution w id).2.executionTimers id = none ∧
    (∀ t ∈ (pauseExecution w id).2.timers, t.taskId ≠ id) := by
  have hfin : ¬ (r.status = .completed ∨ r.status = .failed) := by
    rcases hs with h | h <;> simp [h]
  rw [pauseExecution_result hr hfin]
  refine ⟨rfl, mapGet_mapSet_self _ _ _, ?_, ?_⟩
  · simp [clearTaskTimer_get]
  · exact clearTaskTimer_no_timer hw.inv id

/-- C13 (witness): the scheduled sample task. -/
theorem C13_pause_sets_paused_witness :
    Reachable (worldAfter scheduledEvents) ∧
    mapGet (worldAfter scheduledEvents).executionStatus "t1" =
      some (createStatusInfo "t1" sampleAccepted (.valid 5000)) ∧
    ((createStatusInfo "t1" sampleAccepted (.valid 5000)).status = .scheduled ∨
      (createStatusInfo "t1" sampleAccepted (.valid 5000)).status = .executing) ∧
    mapGet (pauseExecution (worldAfter scheduledEvents) "t1").2.executionStatus "t1" =
      some { createStatusInfo "t1" sampleAccepted (.valid 5000) with status := .paused } :=
  ⟨reachable_worldAfter _ (by decide), by decide, by decide,
    (C13_pause_sets_paused _ "t1" (createStatusInfo "t1" sampleAccepted (.valid 5000))
      (reachable_worldAfter _ (by decide)) (by decide) (by decide)).2.1⟩

/-- C14: in a reachable world, for a task in status `scheduled`, `pauseExecution` followed at
once by `resumeExecution` both succeed; afterwards the record is exactly the record before the
pause (status `scheduled`, `attemptCount` and every other field as before) and exactly one
timer is armed for the task, the new one recorded in `executionTimers`. -/
theorem C14_pause_then_resume (w : World) (id : TaskId) (r : StatusInfo) (hw : Reachable w)
    (hr : mapGet w.executionStatus id = some r) (hs : r.status = .scheduled) :
    (pauseExecution w id).1 = .ok (.taskStatus id .paused) ∧
    (resumeExecution (pauseExecution w id).2 id).1 = .ok (.taskStatus id .scheduled) ∧
    mapGet (resumeExecution (pauseExecution w id).2 id).2.executionStatus id = some r ∧
    attemptCountOf (resumeExecution (pauseExecution w id).2 id).2 id = some r.attemptCount ∧
    timersOf (resumeExecution (pauseExecution w id).2 id).2 id =
      [{ timerId := w.nextTimerId, taskId := id,
         delayMs := maxZero (r.executionTime.msFrom w.now), armedAt := w.now }] ∧
    mapGet (resumeExecution (pauseExecution w id).2 id).2.executionTimers id =
      some w.nextTimerId := by
  have hfin : ¬ (r.status = .completed ∨ r.status = .failed) := by simp [hs]
  have hp := pauseExecution_result hr hfin
  have hr1 : mapGet (pauseExecution w id).2.executionStatus id =
      some { r with status := .paused } := by
    rw [hp]; exact mapGet_mapSet_self _ _ _
  have hres := resumeExecution_result hr1 rfl
  have hnil : timersOf (clearTaskTimer w id) id = [] :=
    timersOf_eq_nil (clearTaskTimer_no_timer hw.inv id)
  have hrec : ({ r with status := .scheduled } : StatusInfo) = r := by
    cases r; simp_all
  rw [hres]
  refine ⟨by rw [hp], rfl, ?_, ?_, ?_, ?_⟩
  · simp only [mapGet_mapSet_self]
    exact congrArg some hrec
  · simp only [attemptCountOf, mapGet_mapSet_self]
    rfl
  · rw [hp]
    simp only [timersOf, List.filter_append, clearTaskTimer_nextTimerId, clearTaskTimer_now]
    unfold timersOf at hnil
    rw [hnil]
    simp
  · rw [hp]
    simp [mapGet_mapSet_self]

/-- C14 (witness): the scheduled sample task is paused and resumed at the instant 0. -/
theorem C14_pause_then_resume_witness :
    Reachable (worldAfter scheduledEvents) ∧
    mapGet (worldAfter scheduledEvents).executionStatus "t1" =
      some (createStatusInfo "t1" sampleAccepted (.valid 5000)) ∧
    (createStatusInfo "t1" sampleAccepted (.valid 5000)).status = .scheduled ∧
    timersOf (resumeExecution (pauseExecution (worldAfter scheduledEvents) "t1").2 "t1").2 "t1" =
      [{ timerId := (worldAfter scheduledEvents).nextTimerId, taskId := "t1",
         delayMs := maxZero
           ((createStatusInfo "t1" sampleAccepted (.valid 5000)).executionTime.msFrom
             (worldAfter scheduledEvents).now),
         armedAt := (worldAfter scheduledEvents).now }] :=
  ⟨reachable_worldAfter _ (by decide), by decide, by decide,
    (C14_pause_then_resume _ "t1" (createStatusInfo "t1" sampleAccepted (.valid 5000))
      (reachable_worldAfter _ (by decide)) (by decide) (by decide)).2.2.2.2.1⟩

/-- C15: `resumeExecution` on an existing task whose status is not `paused` is rejected with
the error of line 358 and leaves the whole world, hence the record and `executionTimers`,
unchanged. -/
theorem C15_resume_not_paused_rejected (w : World) (id : TaskId) (r : StatusInfo)
    (hr : mapGet w.executionStatus id = some r) (hs : r.status ≠ .paused) :
    resumeExecution w id = (.error (.notPaused id), w) := by
  unfold resumeExecution
  simp [hr, hs]

/-- C15 (witness): the scheduled sample task. -/
theorem C15_resume_not_paused_witness :
    mapGet (worldAfter scheduledEvents).executionStatus "t1" =
      some (createStatusInfo "t1" sampleAccepted (.valid 5000)) ∧
    (createStatusInfo "t1" sampleAccepted (.valid 5000)).status ≠ .paused ∧
    resumeExecution (worldAfter scheduledEvents) "t1" =
      (.error (.notPaused "t1"), worldAfter scheduledEvents) :=
  ⟨by decide, by decide,
    C15_resume_not_paused_rejected _ "t1" (createStatusInfo "t1" sampleAccepted (.valid 5000))
      (by decide) (by decide)⟩

/-- C16: `resumeExecution` on a task in status `paused` returns status `scheduled`, sets the
record's status to `scheduled` and arms one new timer for the task, recorded in
`executionTimers`, whose delay is `Math.max(0, executionTime.getTime() - Date.now())`: for an
`executionTime` with the time value `ms` it is `max 0 (ms - now)`, which is `ms - now` while
the fire time is still ahead, 0 once the fire time has passed, and never negative. -/
theorem C16_resume_timer_delay (w : World) (id : TaskId) (r : StatusInfo)
    (hr : mapGet w.executionStatus id = some r) (hs : r.status = .paused) :
    (resumeExecution w id).1 = .ok (.taskStatus id .scheduled) ∧
    mapGet (resumeExecution w id).2.executionStatus id = some { r with status := .scheduled } ∧
    mapGet (resumeExecution w id).2.executionTimers id = some w.nextTimerId ∧
    ∃ t, (resumeExecution w id).2.timers = w.timers ++ [t] ∧ t.timerId = w.nextTimerId ∧
      t.taskId = id ∧ t.delayMs = maxZero (r.executionTime.msFrom w.now) ∧
      ∀ ms, r.executionTime = .valid ms →
        t.delayMs = some (max 0 (ms - w.now)) ∧
        (w.now < ms → t.delayMs = some (ms - w.now)) ∧
        (ms ≤ w.now → t.delayMs = some 0) ∧ ∃ d, t.delayMs = some d ∧ 0 ≤ d := by
  rw [resumeExecution_result hr hs]
  refine ⟨rfl, mapGet_mapSet_self _ _ _, mapGet_mapSet_self _ _ _,
    { timerId := w.nextTimerId, taskId := id,
      delayMs := maxZero (r.executionTime.msFrom w.now), armedAt := w.now },
    rfl, rfl, rfl, rfl, ?_⟩
  intro ms hms
  have hd : maxZero (r.executionTime.msFrom w.now) = some (max 0 (ms - w.now)) := by
    rw [hms]; rfl
  refine ⟨hd, ?_, ?_, _, hd, le_max_left _ _⟩
  · intro h
    show maxZero (r.executionTime.msFrom w.now) = some (ms - w.now)
    rw [hd, max_eq_right (by omega)]
  · intro h
    show maxZero (r.executionTime.msFrom w.now) = some 0
    rw [hd, max_eq_left (by omega)]

/-- C16 (witness): the sample task is paused and resumed 1000 ms after its fire time. -/
theorem C16_resume_timer_delay_witness :
    mapGet (worldAfter pausedLateEvents).executionStatus "t1" = some pausedRecord ∧
    pausedRecord.status = .paused ∧
    ∃ t, (resumeExecution (worldAfter pausedLateEvents) "t1").2.timers =
        (worldAfter pausedLateEvents).timers ++ [t] ∧
      t.timerId = (worldAfter pausedLateEvents).nextTimerId ∧ t.taskId = "t1" ∧
      t.delayMs = maxZero (pausedRecord.executionTime.msFrom (worldAfter pausedLateEvents).now) ∧
      ∀ ms, pausedRecord.executionTime = .valid ms →
        t.delayMs = some (max 0 (ms - (worldAfter pausedLateEvents).now)) ∧
        ((worldAfter pausedLateEvents).now < ms →
          t.delayMs = some (ms - (worldAfter pausedLateEvents).now)) ∧
        (ms ≤ (worldAfter pausedLateEvents).now → t.delayMs = some 0) ∧
        ∃ d, t.delayMs = some d ∧ 0 ≤ d :=
  ⟨by decide, by decide,
    (C16_resume_timer_delay (worldAfter pausedLateEvents) "t1" pausedRecord (by decide)
      (by decide)).2.2.2⟩

/-- C17: after any run of events from a fresh engine in which no `schedule` call for `id` has
succeeded, each of `executeTask`, `pauseExecution`, `resumeExecution`, `cancelExecution` and
`getExecutionStatus` is rejected with the not-found error and leaves the world unchanged, and
the engine holds no record, no task entry, no `executionTimers` entry and no armed timer for
`id`. -/
theorem C17_unknown_task_not_found (t0 : Int) (es : List Event) (w : World) (id : TaskId)
    (hrun : runEvents (World.init t0) es = some w)
    (hnever : everScheduled id (World.init t0) es = false) :
    executeTask w id = (.error (.taskNotFound id), w) ∧
    pauseExecution w id = (.error (.taskNotFound id), w) ∧
    resumeExecution w id = (.error (.taskNotFound id), w) ∧
    cancelExecution w id = (.error (.taskNotFound id), w) ∧
    getExecutionStatus w id = (.error (.taskNotFound id), w) ∧
    mapGet w.executionStatus id = none ∧ mapGet w.scheduledTasks id = none ∧
    mapGet w.executionTimers id = none ∧ (∀ t ∈ w.timers, t.taskId ≠ id) := by
  have htask : mapGet w.scheduledTasks id = none :=
    never_scheduled_run es (by simp [World.init, mapGet]) hrun hnever
  have hi : Inv w := (reachable_runEvents es (Reachable.init t0) hrun).inv
  obtain ⟨hstat, htim, hno⟩ := hi.unknown_task htask
  refine ⟨?_, ?_, ?_, ?_, ?_, hstat, htask, htim, hno⟩
  · simp [executeTask, htask]
  · simp [pauseExecution, hstat]
  · simp [resumeExecution, hstat]
  · simp [cancelExecution, hstat]
  · simp [getExecutionStatus, hstat]

/-- C17 (witness): the id `t1` after the events of `ghostEvents`, in which another task is
scheduled and run and the only `schedule` call for `t1` is rejected. -/
theorem C17_unknown_task_witness :
    runEvents (World.init 0) ghostEvents = some (worldAfter ghostEvents) ∧
    everScheduled "t1" (World.init 0) ghostEvents = false ∧
    cancelExecution (worldAfter ghostEvents) "t1" =
      (.error (.taskNotFound "t1"), worldAfter ghostEvents) :=
  ⟨by decide, by decide,
    (C17_unknown_task_not_found 0 ghostEvents (worldAfter ghostEvents) "t1" (by decide)
      (by decide)).2.2.2.1⟩

/-- C18: in a reachable world, `executeTask` on a task that has a record returns
`{taskId, status: 'executing'}`; at that moment the record is the old record with `status`
replaced by `executing` (`attemptCount`, `lastAttemptTime`, `result`, `error` and every other
field as before), no timer is armed or recorded for the task, and the run it has started is
still waiting in its `setImmediate` callback: no attempt has been made. -/
theorem C18_executeTask_returns_before_attempt (w : World) (id : TaskId) (r : StatusInfo)
    (hw : Reachable w) (hr : mapGet w.executionStatus id = some r) :
    (executeTask w id).1 = .ok (.taskStatus id .executing) ∧
    mapGet (executeTask w id).2.executionStatus id = some { r with status := .executing } ∧
    mapGet (executeTask w id).2.executionTimers id = none ∧
    (∀ t ∈ (executeTask w id).2.timers, t.taskId ≠ id) ∧
    ∃ tc, mapGet w.scheduledTasks id = some tc ∧
      (executeTask w id).2.procs = w.procs ++
        [{ pid := w.nextPid, taskId := id, config := tc.config, currentAttempt := 0,
           maxRetries := orDefault tc.config.retryCount 3, phase := .immediate }] := by
  obtain ⟨tc, htc⟩ := hw.inv.task_of_record hr
  rw [executeTask_result htc hr]
  refine ⟨rfl, mapGet_mapSet_self _ _ _, ?_, ?_, tc, htc, rfl⟩
  · simp [clearTaskTimer_get]
  · exact clearTaskTimer_no_timer hw.inv id

/-- C18 (witness): the scheduled sample task. -/
theorem C18_executeTask_witness :
    Reachable (worldAfter scheduledEvents) ∧
    mapGet (worldAfter scheduledEvents).executionStatus "t1" =
      some (createStatusInfo "t1" sampleAccepted (.valid 5000)) ∧
    mapGet (executeTask (worldAfter scheduledEvents) "t1").2.executionStatus "t1" =
      some { createStatusInfo "t1" sampleAccepted (.valid 5000) with status := .executing } :=
  ⟨reachable_worldAfter _ (by decide), by decide,
    (C18_executeTask_returns_before_attempt _ "t1" (createStatusInfo "t1" sampleAccepted (.valid 5000))
      (reachable_worldAfter _ (by decide)) (by decide)).2.1⟩

/-- C19 (counterexample): the sample task has `attemptCount = 2` after its failed run;
`executeTask` succeeds and leaves the count at 2, and the first attempt of the run it starts
records `attemptCount = 1`, not 3. -/
theorem C19_counterexample :
    Reachable (worldAfter failedEvents) ∧
    attemptCountOf (worldAfter failedEvents) "t1" = some 2 ∧
    (executeTask (worldAfter failedEvents) "t1").1 = .ok (.taskStatus "t1" .executing) ∧
    attemptCountOf (executeTask (worldAfter failedEvents) "t1").2 "t1" = some 2 ∧
    (step (executeTask (worldAfter failedEvents) "t1").2 (.attemptBegin 1)).map
      (fun w => attemptCountOf w "t1") = some (some 1) :=
  ⟨reachable_worldAfter _ (by decide), by decide, rfl, by decide, by decide⟩

/-- C19 (amended): in a reachable world, `executeTask` on a task that has a record leaves
`attemptCount` at its value until an attempt starts, and the first attempt of the run it has
started records `attemptCount = 1`, whatever the count was before. -/
theorem C19_first_attempt_records_one (w : World) (id : TaskId) (r : StatusInfo)
    (hw : Reachable w) (hr : mapGet w.executionStatus id = some r) :
    (executeTask w id).1 = .ok (.taskStatus id .executing) ∧
    attemptCountOf (executeTask w id).2 id = some r.attemptCount ∧
    ∃ w2, step (executeTask w id).2 (.attemptBegin w.nextPid) = some w2 ∧
      attemptCountOf w2 id = some 1 := by
  obtain ⟨tc, htc⟩ := hw.inv.task_of_record hr
  have hfresh : ∀ p ∈ w.procs, p.pid ≠ w.nextPid := fun p hp => Nat.ne_of_lt (hw.pidsFresh p hp)
  rw [executeTask_result htc hr]
  refine ⟨rfl, by simp [attemptCountOf, mapGet_mapSet_self], ?_⟩
  have hfind : findProc (w.procs ++
      [{ pid := w.nextPid, taskId := id, config := tc.config, currentAttempt := 0,
         maxRetries := orDefault tc.config.retryCount 3, phase := .immediate }]) w.nextPid =
      some { pid := w.nextPid, taskId := id, config := tc.config, currentAttempt := 0,
             maxRetries := orDefault tc.config.retryCount 3, phase := .immediate } :=
    findProc_append_fresh hfresh
  simp only [step, hfind]
  refine ⟨_, rfl, ?_⟩
  simp [attemptExecution, attemptCountOf, mapGet_mapSet_self]

/-- C19 (witness): the failed sample task is executed again. -/
theorem C19_first_attempt_witness :
    Reachable (worldAfter failedEvents) ∧
    mapGet (worldAfter failedEvents).executionStatus "t1" = some failedRecord ∧
    attemptCountOf (executeTask (worldAfter failedEvents) "t1").2 "t1" =
      some failedRecord.attemptCount :=
  ⟨reachable_worldAfter _ (by decide), by decide,
    (C19_first_attempt_records_one _ "t1" failedRecord (reachable_worldAfter _ (by decide))
      (by decide)).2.1⟩

/-- C20: in a reachable world, for a request with a non-empty `taskId` that has no record, a
config accepted by `validateExecutionConfig` and an `executionTime` strictly after the current
time, `schedule` returns `{taskId, status: 'scheduled', executionTime}`; a
`getExecutionStatus` right after it returns the fresh record (status `scheduled`,
`attemptCount` 0, `lastAttemptTime`, `cancelledAt`, `completedAt`, `error` and `result` null)
and changes nothing; and exactly one timer is armed for the task, with delay
`executionTime - now`, recorded in `executionTimers`. -/
theorem C20_schedule_succeeds (w : World) (tc : TaskRequest) (config : ExecutionConfig)
    (t : Int) (hw : Reachable w) (hid : tc.taskId ≠ "")
    (hnew : mapGet w.executionStatus tc.taskId = none)
    (hcfg : validateExecutionConfig tc.config = .ok config)
    (ht : tc.executionTime = some (.valid t)) (hlt : w.now < t) :
    (schedule w (some tc)).1 = .ok (.scheduled tc.taskId .scheduled (.valid t)) ∧
    getExecutionStatus (schedule w (some tc)).2 tc.taskId =
      (.ok (.statusInfo
        { taskId := tc.taskId, status := .scheduled, config := config,
          executionTime := .valid t,
          attemptCount := 0, lastAttemptTime := none, cancelledAt := none, completedAt := none,
          error := none, result := none }), (schedule w (some tc)).2) ∧
    timersOf (schedule w (some tc)).2 tc.taskId =
      [{ timerId := w.nextTimerId, taskId := tc.taskId, delayMs := some (t - w.now),
         armedAt := w.now }] ∧
    mapGet (schedule w (some tc)).2.executionTimers tc.taskId = some w.nextTimerId := by
  have hi := hw.inv
  have htask : mapGet w.scheduledTasks tc.taskId = none := by
    have := hi.sameKeys tc.taskId
    simp only [mapHas, hnew, Option.isSome_none] at this
    cases hg : mapGet w.scheduledTasks tc.taskId with
    | none => rfl
    | some x => simp [hg] at this
  have hhas : mapHas w.scheduledTasks tc.taskId = false := by simp [mapHas, htask]
  have hnil : timersOf w tc.taskId = [] := timersOf_eq_nil (hi.unknown_task htask).2.2
  have hna : (JSDate.valid t).notAfter w.now = false := by
    simp only [JSDate.notAfter, decide_eq_false_iff_not, not_le]; exact hlt
  rw [schedule_ok hid hhas hcfg ht hna]
  refine ⟨rfl, ?_, ?_, ?_⟩
  · simp [getExecutionStatus, mapGet_mapSet_self, createStatusInfo]
  · unfold timersOf at hnil
    simp [timersOf, List.filter_append, hnil, JSDate.msFrom]
  · simp [mapGet_mapSet_self]

/-- C20 (witness): the sample task is scheduled in a fresh engine at the instant 0. -/
theorem C20_schedule_succeeds_witness :
    Reachable (World.init 0) ∧ sampleTask.taskId ≠ "" ∧
    mapGet (World.init 0).executionStatus sampleTask.taskId = none ∧
    validateExecutionConfig sampleTask.config = .ok sampleAccepted ∧
    sampleTask.executionTime = some (.valid 5000) ∧ (World.init 0).now < 5000 ∧
    timersOf (schedule (World.init 0) (some sampleTask)).2 sampleTask.taskId =
      [{ timerId := (World.init 0).nextTimerId, taskId := sampleTask.taskId,
         delayMs := some (5000 - (World.init 0).now), armedAt := (World.init 0).now }] :=
  ⟨Reachable.init 0, by decide, by decide, rfl, rfl, by decide,
    (C20_schedule_succeeds (World.init 0) sampleTask sampleAccepted 5000 (Reachable.init 0)
      (by decide) (by decide) rfl rfl (by decide)).2.2.1⟩

/-! ## Validation, listing, timer handles and other tasks -/

theorem ltZero_ne_undefined {v : JSVal} (h : v.ltZero = true) :
    v ≠ .undefined ∧ v.typeof = "number" := by
  cases v <;> simp_all [JSVal.ltZero, JSVal.typeof]

theorem validate_negative {c : RawConfig}
    (hneg : c.clickDelay.ltZero = true ∨ c.retryCount.ltZero = true ∨
      c.retryDelay.ltZero = true) :
    ∃ e, validateExecutionConfig (some c) = .error e := by
  simp only [validateExecutionConfig]
  split_ifs with h1 h2 h3 h4 h5
  · exact ⟨_, rfl⟩
  · exact ⟨_, rfl⟩
  · exact ⟨_, rfl⟩
  · exact ⟨_, rfl⟩
  · exact ⟨_, rfl⟩
  · exfalso
    rcases hneg with h | h | h
    · exact h3 ⟨(ltZero_ne_undefined h).1, by simp [h]⟩
    · exact h4 ⟨(ltZero_ne_undefined h).1, by simp [h]⟩
    · exact h5 ⟨(ltZero_ne_undefined h).1, by simp [h]⟩

theorem foldl_invokeCallback_consoleErrors (ev : CompletionEvent) (cbs : List Callback)
    (w : World) :
    (cbs.foldl (invokeCallback ev) w).consoleErrors =
      w.consoleErrors ++ (cbs.filter (fun cb => cb.throws)).map (fun _ => "完成回調執行失敗:") := by
  induction cbs generalizing w with
  | nil => simp
  | cons cb cbs ih =>
    simp only [List.foldl_cons, ih]
    by_cases h : cb.throws = true
    · simp [invokeCallback, h, List.filter_cons]
    · simp [invokeCallback, h, List.filter_cons]

theorem mapGet_eq_none_iff {α : Type} (m : List (TaskId × α)) (k : TaskId) :
    mapGet m k = none ↔ ∀ e ∈ m, e.1 ≠ k := by
  induction m with
  | nil => simp [mapGet]
  | cons a m ih =>
    obtain ⟨k1, v1⟩ := a
    by_cases h : k1 = k
    · simp [mapGet, h]
    · simp [mapGet, h, ih]

theorem mapSet_of_none {α : Type} (m : List (TaskId × α)) (k : TaskId) (v : α)
    (h : mapGet m k = none) : mapSet m k v = m ++ [(k, v)] := by
  induction m with
  | nil => simp [mapSet]
  | cons a m ih =>
    obtain ⟨k1, v1⟩ := a
    by_cases hk : k1 = k
    · simp [mapGet, hk] at h
    · simp only [mapGet, hk, if_false] at h
      simp [mapSet, hk, ih h]

theorem step_scheduledTasks_append {w w1 : World} {e : Event} (hstep : step w e = some w1) :
    w1.scheduledTasks = w.scheduledTasks ∨
      ∃ tc config t, e = .schedule (some tc) ∧ mapGet w.scheduledTasks tc.taskId = none ∧
        w1.scheduledTasks = w.scheduledTasks ++
          [(tc.taskId, { taskId := tc.taskId, config := config, executionTime := t })] := by
  rcases step_scheduledTasks hstep with h | ⟨tc, info, rfl, hok, _⟩
  · exact Or.inl h
  · simp only [step, Option.some.injEq] at hstep
    subst hstep
    rcases schedule_cases w (some tc) with ⟨e, he⟩ | ⟨tc1, config, t, heq, hid, hnew, hcfg, ht, hlt⟩
    · rw [he] at hok
      simp [succeeded] at hok
    · cases heq
      have hnone : mapGet w.scheduledTasks tc.taskId = none := by
        simpa [mapHas] using hnew
      refine Or.inr ⟨tc, config, t, rfl, hnone, ?_⟩
      rw [schedule_ok hid hnew hcfg ht hlt]
      exact mapSet_of_none _ _ _ hnone

theorem keysOk_step {w w1 : World} {e : Event} (h : KeysOk w) (hstep : step w e = some w1) :
    KeysOk w1 := by
  rcases step_scheduledTasks_append hstep with hs | ⟨tc, config, t, _, hnone, hs⟩
  · unfold KeysOk; rw [hs]; exact h
  · unfold KeysOk
    rw [hs]
    refine ⟨?_, ?_⟩
    · rw [List.map_append, List.nodup_append]
      refine ⟨h.1, by simp, ?_⟩
      intro a ha hb
      simp only [List.map_cons, List.map_nil, List.mem_singleton] at hb
      subst hb
      obtain ⟨e1, he1, hk⟩ := List.mem_map.1 ha
      exact (mapGet_eq_none_iff _ _).1 hnone e1 he1 hk
    · intro e1 he1
      simp only [List.mem_append, List.mem_singleton] at he1
      rcases he1 with he1 | rfl
      · exact h.2 e1 he1
      · rfl

theorem Reachable.keysOk {w : World} (h : Reachable w) : KeysOk w := by
  induction h with
  | init t0 => simp [KeysOk, World.init]
  | step e _ hstep ih => exact keysOk_step ih hstep

theorem mapM_summarize (w : World) (l : List (TaskId × TaskInfo))
    (h : ∀ e ∈ l, ∃ r, mapGet w.executionStatus e.2.taskId = some r) :
    (l.map (fun e => e.2)).mapM (summarize w) =
      .ok (l.filterMap (fun e => (mapGet w.executionStatus e.2.taskId).map (summaryOf e.2))) := by
  induction l with
  | nil => rfl
  | cons a l ih =>
    obtain ⟨r, hr⟩ := h a (List.mem_cons_self _ _)
    have ih1 := ih (fun e he => h e (List.mem_cons_of_mem _ he))
    simp only [List.map_cons, List.mapM_cons, ih1, summarize, hr, List.filterMap_cons,
      Option.map_some']
    rfl

theorem Reachable.mapM_summaries {w : World} (hw : Reachable w) :
    (w.scheduledTasks.map (fun e => e.2)).mapM (summarize w) = .ok (summaries w) := by
  refine mapM_summarize w _ ?_
  intro e he
  have hk := hw.keysOk.2 e he
  have hmem : mapHas w.scheduledTasks e.1 = true := by
    cases hg : mapGet w.scheduledTasks e.1 with
    | none => exact absurd rfl ((mapGet_eq_none_iff _ _).1 hg e he)
    | some x => simp [mapHas, hg]
  rw [← hw.inv.sameKeys] at hmem
  rw [hk]
  cases hg : mapGet w.executionStatus e.1 with
  | none => simp [mapHas, hg] at hmem
  | some r => exact ⟨r, rfl⟩

theorem Reachable.record_of_task {w : World} (hw : Reachable w) {e : TaskId × TaskInfo}
    (he : e ∈ w.scheduledTasks) :
    e.2.taskId = e.1 ∧ ∃ r, mapGet w.executionStatus e.1 = some r := by
  refine ⟨hw.keysOk.2 e he, ?_⟩
  have hmem : mapHas w.scheduledTasks e.1 = true := by
    cases hg : mapGet w.scheduledTasks e.1 with
    | none => exact absurd rfl ((mapGet_eq_none_iff _ _).1 hg e he)
    | some x => simp [mapHas, hg]
  rw [← hw.inv.sameKeys] at hmem
  cases hg : mapGet w.executionStatus e.1 with
  | none => simp [mapHas, hg] at hmem
  | some r => exact ⟨r, rfl⟩

theorem forall2_summaries (w : World) (l : List (TaskId × TaskInfo))
    (h : ∀ e ∈ l, e.2.taskId = e.1 ∧ ∃ r, mapGet w.executionStatus e.1 = some r) :
    List.Forall₂ (fun e x => ∃ r, mapGet w.executionStatus e.1 = some r ∧
        x = { taskId := e.1, executionTime := e.2.executionTime, status := r.status,
              attemptCount := r.attemptCount, config := e.2.config })
      l (l.filterMap (fun e => (mapGet w.executionStatus e.2.taskId).map (summaryOf e.2))) := by
  induction l with
  | nil => exact List.Forall₂.nil
  | cons a l ih =>
    obtain ⟨hk, r, hr⟩ := h a (List.mem_cons_self _ _)
    have hr1 : mapGet w.executionStatus a.2.taskId = some r := by rw [hk]; exact hr
    simp only [List.filterMap_cons, hr1, Option.map_some']
    exact List.Forall₂.cons ⟨r, hr, by simp [summaryOf, hk]⟩
      (ih (fun e he => h e (List.mem_cons_of_mem _ he)))

theorem map_taskId_summaries (w : World) (l : List (TaskId × TaskInfo))
    (h : ∀ e ∈ l, e.2.taskId = e.1 ∧ ∃ r, mapGet w.executionStatus e.1 = some r) :
    (l.filterMap (fun e => (mapGet w.executionStatus e.2.taskId).map (summaryOf e.2))).map
      (fun x => x.taskId) = l.map (fun e => e.1) := by
  induction l with
  | nil => rfl
  | cons a l ih =>
    obtain ⟨hk, r, hr⟩ := h a (List.mem_cons_self _ _)
    have hr1 : mapGet w.executionStatus a.2.taskId = some r := by rw [hk]; exact hr
    simp only [List.filterMap_cons, hr1, Option.map_some', List.map_cons,
      ih (fun e he => h e (List.mem_cons_of_mem _ he))]
    simp [summaryOf, hk]

theorem schedule_appends (w : World) (tc : TaskRequest)
    (hok : succeeded (schedule w (some tc)).1 = true) :
    ∃ info, (schedule w (some tc)).2.scheduledTasks = w.scheduledTasks ++ [(tc.taskId, info)] := by
  rcases schedule_cases w (some tc) with ⟨e, he⟩ | ⟨tc1, config, t, heq, hid, hnew, hcfg, ht, hlt⟩
  · rw [he] at hok; simp [succeeded] at hok
  · cases heq
    rw [schedule_ok hid hnew hcfg ht hlt]
    exact ⟨_, mapSet_of_none _ _ _ (by simpa [mapHas] using hnew)⟩

theorem Reachable.listScheduledTasks_eq {w : World} (hw : Reachable w) (filter : Option String) :
    listScheduledTasks w filter =
      (.ok (.taskList
        (match filter with
         | some s =>
           if s ≠ "" then
             ((summaries w).insertionSort (fun a b => compareTime a.executionTime b.executionTime ≤ 0)).filter
               (fun x => decide (x.status.name = s))
           else (summaries w).insertionSort (fun a b => compareTime a.executionTime b.executionTime ≤ 0)
         | none => (summaries w).insertionSort (fun a b => compareTime a.executionTime b.executionTime ≤ 0))),
       w) := by
  unfold listScheduledTasks
  rw [hw.mapM_summaries]
  cases filter with
  | none => rfl
  | some s => by_cases hs : s = "" <;> simp [hs]

@[simp] theorem triggerCompletionCallbacks_nextTimerId (w : World) (ev : CompletionEvent) :
    (triggerCompletionCallbacks w ev).nextTimerId = w.nextTimerId :=
  (foldl_invokeCallback_frame ev w.completionCallbacks w).2.2.2.2.2.2.1

theorem timersShrink_refl (w : World) : TimersShrink w w :=
  ⟨List.Sublist.refl _, fun _ _ h => h, rfl⟩

theorem clearTaskTimer_shrink (w : World) (k : TaskId) : TimersShrink w (clearTaskTimer w k) := by
  refine ⟨?_, ?_, clearTaskTimer_nextTimerId w k⟩
  · unfold clearTaskTimer
    split
    · exact List.filter_sublist _
    · exact List.Sublist.refl _
  · intro k1 tid h
    rw [clearTaskTimer_get] at h
    split at h
    · cases h
    · exact h

theorem executeTask_shrink (w : World) (k : TaskId) : TimersShrink w (executeTask w k).2 := by
  unfold executeTask
  split
  · exact timersShrink_refl w
  · split
    · exact timersShrink_refl w
    · exact clearTaskTimer_shrink w k

theorem fireTimer_shrink (w : World) (t : Timer) : TimersShrink w (fireTimer w t) := by
  have h := executeTask_shrink { w with timers := clearTimeout w.timers t.timerId } t.taskId
  have hsub : List.Sublist (clearTimeout w.timers t.timerId) w.timers := List.filter_sublist _
  unfold fireTimer
  simp only
  split <;> (rename_i heq; rw [heq] at h; exact ⟨h.1.trans hsub, h.2.1, h.2.2⟩)

theorem step_timers {w w1 : World} {e : Event} (hi : Inv w) (hstep : step w e = some w1) :
    TimersShrink w w1 ∨ TimerArmed w w1 := by
  cases e with
  | schedule req =>
    simp only [step, Option.some.injEq] at hstep; subst hstep
    rcases schedule_cases w req with ⟨e, he⟩ | ⟨tc, config, t, rfl, hid, hnew, hcfg, ht, hlt⟩
    · rw [he]; exact Or.inl (timersShrink_refl w)
    · rw [schedule_ok hid hnew hcfg ht hlt]
      have hnone : mapGet w.scheduledTasks tc.taskId = none := by
        cases hg : mapGet w.scheduledTasks tc.taskId with
        | none => rfl
        | some x => simp [mapHas, hg] at hnew
      exact Or.inr ⟨tc.taskId, t.msFrom w.now, (hi.unknown_task hnone).2.1, rfl, rfl, rfl⟩
  | executeTask k =>
    simp only [step, Option.some.injEq] at hstep; subst hstep
    exact Or.inl (executeTask_shrink w k)
  | pauseExecution k =>
    simp only [step, Option.some.injEq] at hstep; subst hstep
    left
    unfold pauseExecution
    split
    · exact timersShrink_refl w
    · split
      · exact timersShrink_refl w
      · exact clearTaskTimer_shrink w k
  | resumeExecution k =>
    simp only [step, Option.some.injEq] at hstep; subst hstep
    cases hg : mapGet w.executionStatus k with
    | none => left; simp [resumeExecution, hg]; exact timersShrink_refl w
    | some r =>
      by_cases hp : r.status = .paused
      · rw [resumeExecution_result hg hp]
        exact Or.inr ⟨k, maxZero (r.executionTime.msFrom w.now), hi.pausedNoTimer k r hg hp,
          rfl, rfl, rfl⟩
      · left; simp [resumeExecution, hg, hp]; exact timersShrink_refl w
  | cancelExecution k =>
    simp only [step, Option.some.injEq] at hstep; subst hstep
    left
    unfold cancelExecution
    split
    · exact timersShrink_refl w
    · exact clearTaskTimer_shrink w k
  | getExecutionStatus k =>
    simp only [step, Option.some.injEq] at hstep; subst hstep
    left
    unfold getExecutionStatus
    split <;> exact timersShrink_refl w
  | listScheduledTasks f =>
    simp only [step, Option.some.injEq] at hstep; subst hstep
    left
    unfold listScheduledTasks
    split
    · exact timersShrink_refl w
    · split
      · split <;> exact timersShrink_refl w
      · exact timersShrink_refl w
  | onExecutionComplete cb =>
    simp only [step, Option.some.injEq] at hstep; subst hstep
    left
    unfold onExecutionComplete
    split <;> exact timersShrink_refl w
  | tick dt =>
    simp only [step, Option.some.injEq] at hstep; subst hstep
    exact Or.inl (timersShrink_refl w)
  | timerFire tid =>
    simp only [step] at hstep
    split at hstep
    · simp at hstep
    · simp only [Option.some.injEq] at hstep; subst hstep
      exact Or.inl (fireTimer_shrink w _)
  | attemptBegin pid =>
    simp only [step] at hstep
    split at hstep
    · simp at hstep
    · split at hstep
      · simp only [Option.some.injEq] at hstep; subst hstep
        left; unfold attemptExecution; split <;> exact timersShrink_refl w
      · simp only [Option.some.injEq] at hstep; subst hstep
        left; unfold attemptExecution; split <;> exact timersShrink_refl w
      · simp at hstep
  | attemptSettle pid success =>
    simp only [step] at hstep
    split at hstep
    · simp at hstep
    · split at hstep
      · simp only [Option.some.injEq] at hstep; subst hstep
        left; unfold attemptSettled
        split
        · exact timersShrink_refl w
        · split
          · exact ⟨by simp, by simp, by simp⟩
          · split
            · exact timersShrink_refl w
            · exact ⟨by simp, by simp, by simp⟩
      · simp at hstep

theorem timerIds_step {w w1 : World} {e : Event} (hi : Inv w) (h : TimerIds w)
    (hstep : step w e = some w1) : TimerIds w1 := by
  obtain ⟨hnd, hlt, hinj⟩ := h
  rcases step_timers hi hstep with ⟨hsub, hent, hnext⟩ | ⟨k, d, hnone, ht, he, hnext⟩
  · refine ⟨hnd.sublist (hsub.map _), ?_, ?_⟩
    · intro k tid hk
      rw [hnext]
      exact hlt k tid (hent k tid hk)
    · intro k1 k2 tid h1 h2
      exact hinj k1 k2 tid (hent k1 tid h1) (hent k2 tid h2)
  · refine ⟨?_, ?_, ?_⟩
    · rw [ht, List.map_append, List.nodup_append]
      refine ⟨hnd, by simp, ?_⟩
      intro a ha hb
      simp only [List.map_cons, List.map_nil, List.mem_singleton] at hb
      obtain ⟨t, htm, hta⟩ := List.mem_map.1 ha
      have := hlt _ _ (hi.recorded t htm)
      omega
    · intro k1 tid hk
      rw [he, mapGet_mapSet] at hk
      rw [hnext]
      split at hk
      · cases hk; exact Nat.lt_succ_self _
      · exact Nat.lt_succ_of_lt (hlt k1 tid hk)
    · intro k1 k2 tid h1 h2
      rw [he, mapGet_mapSet] at h1 h2
      split at h1 <;> split at h2
      · rename_i a b; exact a.symm.trans b
      · cases h1
        exact absurd (hlt k2 _ h2) (Nat.lt_irrefl _)
      · cases h2
        exact absurd (hlt k1 _ h1) (Nat.lt_irrefl _)
      · exact hinj k1 k2 tid h1 h2

theorem Reachable.timerIds {w : World} (h : Reachable w) : TimerIds w := by
  induction h with
  | init t0 => simp [TimerIds, World.init, mapGet]
  | step e hw hstep ih => exact timerIds_step hw.inv ih hstep

theorem length_le_one_of_nodup_const {l : List Nat} {a : Nat} (hnd : l.Nodup)
    (h : ∀ x ∈ l, x = a) : l.length ≤ 1 := by
  match l, hnd, h with
  | [], _, _ => simp
  | [_], _, _ => simp
  | x :: y :: l, hnd, h =>
    exfalso
    have hx := h x (by simp)
    have hy := h y (by simp)
    rw [List.nodup_cons] at hnd
    exact hnd.1 (by simp [hx, hy])

theorem Reachable.timersOf_length {w : World} (hw : Reachable w) (id : TaskId) :
    (timersOf w id).length ≤ 1 := by
  have hsub : List.Sublist (timersOf w id) w.timers := List.filter_sublist _
  have hnd := (hw.timerIds.1).sublist (hsub.map (fun t => t.timerId))
  cases hg : mapGet w.executionTimers id with
  | none =>
    have : timersOf w id = [] := by
      apply timersOf_eq_nil
      intro t ht hk
      have := hw.inv.recorded t ht
      rw [hk, hg] at this
      cases this
    simp [this]
  | some tid =>
    have hconst : ∀ x ∈ (timersOf w id).map (fun t => t.timerId), x = tid := by
      intro x hx
      obtain ⟨t, ht, rfl⟩ := List.mem_map.1 hx
      have hmem := List.mem_filter.1 ht
      have hk : t.taskId = id := by simpa using hmem.2
      have := hw.inv.recorded t hmem.1
      rw [hk, hg] at this
      exact (Option.some.inj this).symm
    simpa using length_le_one_of_nodup_const hnd hconst

theorem sameFor_refl (b : TaskId) (w : World) : SameFor b w w :=
  ⟨rfl, rfl, rfl, rfl⟩

theorem clearTimeout_timersOf_other {w : World} {b : TaskId} {tid : Nat}
    (h : ∀ t ∈ w.timers, t.taskId = b → t.timerId ≠ tid) :
    (clearTimeout w.timers tid).filter (fun t => decide (t.taskId = b)) = timersOf w b := by
  unfold clearTimeout timersOf
  rw [List.filter_filter]
  apply List.filter_congr
  intro t ht
  by_cases hb : t.taskId = b
  · simp [hb, h t ht hb]
  · simp [hb]

theorem clearTaskTimer_timersOf_other {w : World} {k b : TaskId}
    (hrec : ∀ t ∈ w.timers, mapGet w.executionTimers t.taskId = some t.timerId)
    (hinj : ∀ k1 k2 tid, mapGet w.executionTimers k1 = some tid →
      mapGet w.executionTimers k2 = some tid → k1 = k2)
    (hk : k ≠ b) : timersOf (clearTaskTimer w k) b = timersOf w b := by
  unfold clearTaskTimer
  split
  · rename_i tid hg
    show (clearTimeout w.timers tid).filter (fun t => decide (t.taskId = b)) = timersOf w b
    apply clearTimeout_timersOf_other
    intro t ht hb heq
    have := hrec t ht
    rw [hb, heq] at this
    exact hk (hinj k b tid hg this)
  · rfl

theorem executeTask_sameFor {w : World} {k b : TaskId}
    (hrec : ∀ t ∈ w.timers, mapGet w.executionTimers t.taskId = some t.timerId)
    (hinj : ∀ k1 k2 tid, mapGet w.executionTimers k1 = some tid →
      mapGet w.executionTimers k2 = some tid → k1 = k2)
    (hk : k ≠ b) : SameFor b w (executeTask w k).2 := by
  unfold executeTask
  split
  · exact sameFor_refl b w
  · split
    · exact sameFor_refl b w
    · refine ⟨?_, ?_, ?_, ?_⟩
      · simp [mapGet_mapSet_of_ne _ _ _ _ hk]
      · simp
      · simp [clearTaskTimer_get, hk]
      · exact clearTaskTimer_timersOf_other hrec hinj hk

theorem fireTimer_sameFor {w : World} {t : Timer} {b : TaskId} (hi : Inv w) (h : TimerIds w)
    (ht : t ∈ w.timers) (hk : t.taskId ≠ b) : SameFor b w (fireTimer w t) := by
  have hrec1 : ∀ u ∈ clearTimeout w.timers t.timerId,
      mapGet w.executionTimers u.taskId = some u.timerId :=
    fun u hu => hi.recorded u (mem_clearTimeout.1 hu).1
  have h1 := executeTask_sameFor (w := { w with timers := clearTimeout w.timers t.timerId })
    hrec1 h.2.2 hk
  have h2 : (clearTimeout w.timers t.timerId).filter (fun u => decide (u.taskId = b)) =
      timersOf w b := by
    apply clearTimeout_timersOf_other
    intro u hu hb heq
    have hu1 := hi.recorded u hu
    have ht1 := hi.recorded t ht
    rw [hb, heq] at hu1
    exact hk (h.2.2 _ _ _ ht1 hu1)
  unfold fireTimer
  simp only
  split <;>
    (rename_i heq; rw [heq] at h1
     exact ⟨h1.1, h1.2.1, h1.2.2.1, h1.2.2.2.trans h2⟩)

theorem timersOf_append_other {w : World} {b : TaskId} (t : Timer) (hk : t.taskId ≠ b) :
    (w.timers ++ [t]).filter (fun u => decide (u.taskId = b)) = timersOf w b := by
  simp [timersOf, List.filter_append, List.filter_cons, hk]

theorem Reachable.no_timer_of_no_entry {w : World} (hw : Reachable w) {id : TaskId}
    (h : mapGet w.executionTimers id = none) : timersOf w id = [] := by
  apply timersOf_eq_nil
  intro t ht hk
  have := hw.inv.recorded t ht
  rw [hk, h] at this
  cases this

theorem compareTime_valid (x y : Int) : compareTime (.valid x) (.valid y) ≤ 0 ↔ x ≤ y := by
  simp only [compareTime]; omega

theorem compareTime_self (d : JSDate) : compareTime d d ≤ 0 := by
  cases d <;> simp [compareTime]

theorem pairwise_orderedInsert_of_valid (a : TaskSummary) :
    ∀ l : List TaskSummary, (∀ x ∈ a :: l, x.executionTime ≠ .invalid) →
      l.Pairwise (fun a b => compareTime a.executionTime b.executionTime ≤ 0) →
      (l.orderedInsert (fun a b => compareTime a.executionTime b.executionTime ≤ 0) a).Pairwise
        (fun a b => compareTime a.executionTime b.executionTime ≤ 0) := by
  intro l
  induction l with
  | nil => intro _ _; simp
  | cons b l ih =>
    intro hv hp
    have hva := hv a (List.mem_cons_self _ _)
    have hvb := hv b (List.mem_cons_of_mem _ (List.mem_cons_self _ _))
    obtain ⟨x, hx⟩ : ∃ x, a.executionTime = .valid x := by
      cases h : a.executionTime with
      | valid x => exact ⟨x, rfl⟩
      | invalid => exact absurd h hva
    obtain ⟨y, hy⟩ : ∃ y, b.executionTime = .valid y := by
      cases h : b.executionTime with
      | valid y => exact ⟨y, rfl⟩
      | invalid => exact absurd h hvb
    rw [List.pairwise_cons] at hp
    by_cases hab : compareTime a.executionTime b.executionTime ≤ 0
    · rw [List.orderedInsert, if_pos hab, List.pairwise_cons]
      refine ⟨?_, List.pairwise_cons.2 hp⟩
      intro c hc
      rcases List.mem_cons.1 hc with rfl | hc
      · exact hab
      · have hbc := hp.1 c hc
        have hvc := hv c (List.mem_cons_of_mem _ (List.mem_cons_of_mem _ hc))
        cases hz : c.executionTime with
        | invalid => exact absurd hz hvc
        | valid z =>
          rw [hx, hy, compareTime_valid] at hab
          rw [hy, hz, compareTime_valid] at hbc
          rw [hx, compareTime_valid]
          omega
    · rw [List.orderedInsert, if_neg hab, List.pairwise_cons]
      refine ⟨?_, ih (fun c hc => ?_) hp.2⟩
      · intro c hc
        rcases (List.mem_orderedInsert _).1 hc with rfl | hc
        · rw [hx, hy, compareTime_valid] at hab
          rw [hy, hx, compareTime_valid]
          omega
        · exact hp.1 c hc
      · rcases List.mem_cons.1 hc with rfl | hc
        · exact hva
        · exact hv c (List.mem_cons_of_mem _ (List.mem_cons_of_mem _ hc))

theorem pairwise_insertionSort_of_valid :
    ∀ l : List TaskSummary, (∀ x ∈ l, x.executionTime ≠ .invalid) →
      (l.insertionSort (fun a b => compareTime a.executionTime b.executionTime ≤ 0)).Pairwise
        (fun a b => compareTime a.executionTime b.executionTime ≤ 0) := by
  intro l
  induction l with
  | nil => intro _; simp
  | cons a l ih =>
    intro hv
    rw [List.insertionSort]
    refine pairwise_orderedInsert_of_valid a _ (fun x hx => ?_)
      (ih (fun x hx => hv x (List.mem_cons_of_mem _ hx)))
    rcases List.mem_cons.1 hx with rfl | hx
    · exact hv _ (List.mem_cons_self _ _)
    · exact hv x (List.mem_cons_of_mem _ ((List.mem_insertionSort _).1 hx))

theorem summaries_executionTime {w : World} {x : TaskSummary} (hx : x ∈ summaries w) :
    ∃ e ∈ w.scheduledTasks, x.executionTime = e.2.executionTime := by
  simp only [summaries, List.mem_filterMap, Option.map_eq_some'] at hx
  obtain ⟨e, he, r, _, rfl⟩ := hx
  exact ⟨e, he, rfl⟩

theorem listScheduledTasks_sorted_of_valid (w : World) (filter : Option String)
    (hw : Reachable w) (hv : ∀ e ∈ w.scheduledTasks, e.2.executionTime ≠ .invalid) :
    ∃ l, listScheduledTasks w filter = (.ok (.taskList l), w) ∧
      l.Pairwise (fun a b => ∃ x y, a.executionTime = .valid x ∧ b.executionTime = .valid y ∧
        x ≤ y) ∧
      (∀ a b, List.Sublist [a, b] (summaries w) → a.executionTime = b.executionTime → a ∈ l →
        b ∈ l → List.Sublist [a, b] l) ∧
      (summaries w).map (fun x => x.taskId) = w.scheduledTasks.map (fun e => e.1) := by
  have hvs : ∀ x ∈ summaries w, x.executionTime ≠ .invalid := by
    intro x hx
    obtain ⟨e, he, heq⟩ := summaries_executionTime hx
    rw [heq]; exact hv e he
  have hsorted0 := pairwise_insertionSort_of_valid (summaries w) hvs
  have hsorted : ((summaries w).insertionSort
      (fun a b => compareTime a.executionTime b.executionTime ≤ 0)).Pairwise
      (fun a b => ∃ x y, a.executionTime = .valid x ∧ b.executionTime = .valid y ∧ x ≤ y) := by
    refine hsorted0.imp_of_mem ?_
    intro a b ha hb hab
    have hva := hvs a ((List.mem_insertionSort _).1 ha)
    have hvb := hvs b ((List.mem_insertionSort _).1 hb)
    cases hx : a.executionTime with
    | invalid => exact absurd hx hva
    | valid x =>
      cases hy : b.executionTime with
      | invalid => exact absurd hy hvb
      | valid y =>
        rw [hx, hy, compareTime_valid] at hab
        exact ⟨x, y, rfl, rfl, hab⟩
  have hpair : ∀ a b : TaskSummary, List.Sublist [a, b] (summaries w) →
      a.executionTime = b.executionTime →
      List.Sublist [a, b]
        ((summaries w).insertionSort
          (fun a b => compareTime a.executionTime b.executionTime ≤ 0)) :=
    fun a b h heq => List.pair_sublist_insertionSort
      (by show compareTime a.executionTime b.executionTime ≤ 0
          rw [heq]; exact compareTime_self _) h
  have hids : (summaries w).map (fun x => x.taskId) = w.scheduledTasks.map (fun e => e.1) :=
    map_taskId_summaries w w.scheduledTasks (fun e he => hw.record_of_task he)
  rw [hw.listScheduledTasks_eq]
  cases filter with
  | none => exact ⟨_, rfl, hsorted, fun a b h heq _ _ => hpair a b h heq, hids⟩
  | some s =>
    by_cases hs : s = ""
    · simp only [hs, ne_eq, not_true_eq_false, if_false]
      exact ⟨_, rfl, hsorted, fun a b h heq _ _ => hpair a b h heq, hids⟩
    · simp only [ne_eq, hs, not_false_eq_true, if_true]
      refine ⟨_, rfl, hsorted.filter _, ?_, hids⟩
      intro a b h heq ha hb
      have h1 := (hpair a b h heq).filter (fun x => decide (x.status.name = s))
      have pa := (List.mem_filter.1 ha).2
      have pb := (List.mem_filter.1 hb).2
      simpa [List.filter_cons, pa, pb] using h1

theorem getExecutionStatusRef_world (h : Heap) (id : TaskId) :
    (getExecutionStatusRef h id).2.world = h.world := by
  unfold getExecutionStatusRef
  split <;> rfl

theorem stepHeap_world (h : Heap) (e : Event) :
    (stepHeap h e).map (fun h1 => h1.world) = step h.world e := by
  cases e <;> simp only [stepHeap, Option.map_map, Option.map_some']
  case getExecutionStatus k =>
    rw [getExecutionStatusRef_world]
    simp only [step, getExecutionStatus]
    split <;> rfl
  all_goals (cases step h.world _ <;> rfl)

theorem runHeap_world (es : List Event) (h : Heap) :
    (runHeap h es).map (fun h1 => h1.world) = runEvents h.world es := by
  induction es generalizing h with
  | nil => rfl
  | cons e es ih =>
    have hs := stepHeap_world h e
    simp only [runHeap, runEvents]
    cases hh : stepHeap h e with
    | none => rw [hh] at hs; rw [← hs]; rfl
    | some h1 =>
      rw [hh] at hs
      rw [← hs]
      exact ih h1

theorem stepHeap_snapshots {h h1 : Heap} {e : Event} (hstep : stepHeap h e = some h1) :
    ∃ l, h1.snapshots = h.snapshots ++ l := by
  cases e
  case getExecutionStatus k =>
    simp only [stepHeap, Option.some.injEq] at hstep
    subst hstep
    unfold getExecutionStatusRef
    split
    · exact ⟨[], by simp⟩
    · exact ⟨_, rfl⟩
  all_goals
    simp only [stepHeap, Option.map_eq_some'] at hstep
    obtain ⟨w, _, rfl⟩ := hstep
    exact ⟨[], by simp⟩

theorem runHeap_snapshots (es : List Event) {h h2 : Heap} (hrun : runHeap h es = some h2) :
    ∃ l, h2.snapshots = h.snapshots ++ l := by
  induction es generalizing h with
  | nil =>
    simp only [runHeap, Option.some.injEq] at hrun
    subst hrun
    exact ⟨[], by simp⟩
  | cons e es ih =>
    simp only [runHeap] at hrun
    split at hrun
    · simp at hrun
    · rename_i h1 hstep
      obtain ⟨l1, hl1⟩ := stepHeap_snapshots hstep
      obtain ⟨l2, hl2⟩ := ih hrun
      exact ⟨l1 ++ l2, by rw [hl2, hl1, List.append_assoc]⟩

/-! ## The claims on scheduling, listing, listeners and isolation -/

/-- C21: in a reachable world, `schedule` with a `taskId` that already has a record is
rejected, whatever config and fire time the request carries, and leaves the whole world (the
record, the stored task, `executionTimers` and the armed timers) unchanged; the error is the
duplicate error of line 245. -/
theorem C21_duplicate_schedule_rejected (w : World) (tc : TaskRequest) (r : StatusInfo)
    (hw : Reachable w) (hr : mapGet w.executionStatus tc.taskId = some r) :
    ∃ e, schedule w (some tc) = (.error e, w) ∧
      (tc.taskId ≠ "" → e = .alreadyScheduled tc.taskId) := by
  have hhas : mapHas w.scheduledTasks tc.taskId = true := by
    rw [← hw.inv.sameKeys]; simp [mapHas, hr]
  by_cases hid : tc.taskId = ""
  · exact ⟨.missingTaskId, by simp [schedule, hid], fun h => absurd hid h⟩
  · exact ⟨.alreadyScheduled tc.taskId, by simp [schedule, hid, hhas], fun _ => rfl⟩

/-- C21 (witness): a second request for the scheduled sample task, with no config and no fire
time. -/
theorem C21_duplicate_schedule_witness :
    Reachable (worldAfter scheduledEvents) ∧
    mapGet (worldAfter scheduledEvents).executionStatus bareRequest.taskId =
      some (createStatusInfo "t1" sampleAccepted (.valid 5000)) ∧
    ∃ e, schedule (worldAfter scheduledEvents) (some bareRequest) =
        (.error e, worldAfter scheduledEvents) ∧
      (bareRequest.taskId ≠ "" → e = .alreadyScheduled bareRequest.taskId) :=
  ⟨reachable_worldAfter _ (by decide), by decide,
    C21_duplicate_schedule_rejected _ bareRequest
      (createStatusInfo "t1" sampleAccepted (.valid 5000))
      (reachable_worldAfter _ (by decide)) (by decide)⟩

/-- C22: `schedule` with an `executionTime` at or before the current time is rejected and
leaves the whole world unchanged, so no record, task entry or timer is created; when the
request passes the earlier checks the error is the one of line 256. -/
theorem C22_past_time_rejected (w : World) (tc : TaskRequest) (t : Int)
    (ht : tc.executionTime = some (.valid t)) (hle : t ≤ w.now) :
    ∃ e, schedule w (some tc) = (.error e, w) ∧
      (tc.taskId ≠ "" → mapHas w.scheduledTasks tc.taskId = false →
        (∃ c, validateExecutionConfig tc.config = .ok c) → e = .executionTimePast) := by
  by_cases hid : tc.taskId = ""
  · exact ⟨.missingTaskId, by simp [schedule, hid], fun h => absurd hid h⟩
  · by_cases hdup : mapHas w.scheduledTasks tc.taskId = true
    · exact ⟨.alreadyScheduled tc.taskId, by simp [schedule, hid, hdup],
        fun _ h => by simp [hdup] at h⟩
    · cases hcfg : validateExecutionConfig tc.config with
      | error e =>
        exact ⟨e, by simp [schedule, hid, hdup, hcfg], fun _ _ h => by simp at h⟩
      | ok c =>
        exact ⟨.executionTimePast,
          by simp [schedule, hid, hdup, hcfg, ht, JSDate.notAfter, hle], fun _ _ _ => rfl⟩

/-- C22 (witness): the sample task requested for the instant 0 in a fresh engine whose clock
shows 0. -/
theorem C22_past_time_witness :
    nowRequest.executionTime = some (.valid 0) ∧ (0 : Int) ≤ (World.init 0).now ∧
    ∃ e, schedule (World.init 0) (some nowRequest) = (.error e, World.init 0) ∧
      (nowRequest.taskId ≠ "" → mapHas (World.init 0).scheduledTasks nowRequest.taskId = false →
        (∃ c, validateExecutionConfig nowRequest.config = .ok c) → e = .executionTimePast) :=
  ⟨rfl, by decide, C22_past_time_rejected (World.init 0) nowRequest 0 rfl (by decide)⟩

/-- C23: a config whose `clickDelay`, `retryCount` or `retryDelay` is a negative number is
rejected by `validateExecutionConfig`, and `schedule` with such a config is rejected and leaves
the whole world unchanged, so no record, task entry or timer is created. -/
theorem C23_negative_config_rejected (w : World) (tc : TaskRequest) (c : RawConfig)
    (hc : tc.config = some c)
    (hneg : c.clickDelay.ltZero = true ∨ c.retryCount.ltZero = true ∨
      c.retryDelay.ltZero = true) :
    (∃ e, validateExecutionConfig (some c) = .error e) ∧
    ∃ e, schedule w (some tc) = (.error e, w) := by
  have hv := validate_negative hneg
  refine ⟨hv, ?_⟩
  rcases schedule_cases w (some tc) with h | ⟨tc1, config, t, heq, _, _, hcfg, _, _⟩
  · exact h
  · exfalso
    cases heq
    obtain ⟨e, he⟩ := hv
    rw [hc, he] at hcfg
    cases hcfg

/-- C23 (witness): the request with `retryDelay: -1` in a fresh engine. -/
theorem C23_negative_config_witness :
    negativeRequest.config = some negativeConfig ∧
    (negativeConfig.clickDelay.ltZero = true ∨ negativeConfig.retryCount.ltZero = true ∨
      negativeConfig.retryDelay.ltZero = true) ∧
    ∃ e, schedule (World.init 0) (some negativeRequest) = (.error e, World.init 0) :=
  ⟨rfl, by decide,
    (C23_negative_config_rejected (World.init 0) negativeRequest negativeConfig rfl
      (by decide)).2⟩

/-- C24: `getExecutionStatus` on an existing id returns the reference to a new object, one
that did not exist before the call and is the record of no task; its ten fields equal those of
the current record; the call changes no engine state and no object that existed. Whatever
events follow (the engine runs them as it would have without the call, status transitions and
attempts of the task included), the object returned keeps these fields, so its `status` and
`attemptCount` stay what they were at the call. -/
theorem C24_getExecutionStatus_snapshot (h : Heap) (id : TaskId) (r : StatusInfo)
    (hr : mapGet h.world.executionStatus id = some r) :
    (getExecutionStatusRef h id).1 = .ok (.snapshot h.snapshots.length) ∧
    h.read (.snapshot h.snapshots.length) = none ∧
    (getExecutionStatusRef h id).2.read (.snapshot h.snapshots.length) = some r ∧
    (getExecutionStatusRef h id).2.world = h.world ∧
    (∀ ref o, h.read ref = some o → (getExecutionStatusRef h id).2.read ref = some o) ∧
    getExecutionStatus h.world id = (.ok (.statusInfo r), h.world) ∧
    ∀ (es : List Event) (h2 : Heap), runHeap (getExecutionStatusRef h id).2 es = some h2 →
      runEvents h.world es = some h2.world ∧
      h2.read (.snapshot h.snapshots.length) = some r ∧
      (h2.read (.snapshot h.snapshots.length)).map (fun o => (o.status, o.attemptCount)) =
        some (r.status, r.attemptCount) := by
  have hres : getExecutionStatusRef h id =
      (.ok (.snapshot h.snapshots.length), { h with snapshots := h.snapshots ++ [r] }) := by
    simp [getExecutionStatusRef, hr]
  rw [hres]
  refine ⟨rfl, ?_, ?_, rfl, ?_, ?_, ?_⟩
  · simp [Heap.read]
  · simp [Heap.read]
  · intro ref o ho
    cases ref with
    | record k => exact ho
    | snapshot n =>
      simp only [Heap.read] at ho ⊢
      have hn : n < h.snapshots.length := by
        by_contra hge
        rw [List.getElem?_eq_none (by omega)] at ho
        simp at ho
      rw [List.getElem?_append_left hn]
      exact ho
  · simp [getExecutionStatus, hr]
  · intro es h2 hrun
    obtain ⟨l, hl⟩ := runHeap_snapshots es hrun
    have hl1 : h2.snapshots = h.snapshots ++ r :: l := by
      rw [hl]; simp
    have hread : h2.read (.snapshot h.snapshots.length) = some r := by
      simp only [Heap.read, hl1]
      rw [List.getElem?_append_right (le_refl _)]
      simp
    have hworld := runHeap_world es { h with snapshots := h.snapshots ++ [r] }
    rw [hrun] at hworld
    exact ⟨hworld.symm, hread, by rw [hread]; rfl⟩

/-- C24 (witness): the snapshot of the scheduled sample task keeps status `scheduled` and
`attemptCount` 0 while the task is executed and its first attempt starts. -/
theorem C24_getExecutionStatus_witness :
    mapGet (worldAfter scheduledEvents).executionStatus "t1" =
      some (createStatusInfo "t1" sampleAccepted (.valid 5000)) ∧
    (runHeap (getExecutionStatusRef { world := worldAfter scheduledEvents, snapshots := [] }
        "t1").2 [.executeTask "t1", .attemptBegin 0]).map
      (fun h2 => ((h2.read (.record "t1")).map (fun o => (o.status, o.attemptCount)),
        (h2.read (.snapshot 0)).map (fun o => (o.status, o.attemptCount)))) =
      some (some (.executing, 1), some (.scheduled, 0)) ∧
    ∀ (es : List Event) (h2 : Heap),
      runHeap (getExecutionStatusRef { world := worldAfter scheduledEvents, snapshots := [] }
        "t1").2 es = some h2 →
      runEvents (worldAfter scheduledEvents) es = some h2.world ∧
      h2.read (.snapshot 0) = some (createStatusInfo "t1" sampleAccepted (.valid 5000)) ∧
      (h2.read (.snapshot 0)).map (fun o => (o.status, o.attemptCount)) =
        some ((createStatusInfo "t1" sampleAccepted (.valid 5000)).status,
          (createStatusInfo "t1" sampleAccepted (.valid 5000)).attemptCount) :=
  ⟨by decide, by decide,
    (C24_getExecutionStatus_snapshot { world := worldAfter scheduledEvents, snapshots := [] }
      "t1" (createStatusInfo "t1" sampleAccepted (.valid 5000)) (by decide)).2.2.2.2.2.2⟩

/-- C25 (code bug): `schedule` accepts a request whose `executionTime` is an Invalid Date, and
with the tasks `tA` (instant 5000), `tB` (Invalid Date) and `tC` (instant 1000) scheduled in
this order `listScheduledTasks` returns them in this order: `tA` stands before `tC` although
its `executionTime` is later, so the list is not sorted ascending by `executionTime`. Nor is
any other arrangement of the returned entries ascending, since no time value is `<=` or `>=`
the time value `NaN` of `tB`. -/
theorem C25_invalid_date_unsorted :
    Reachable (worldAfter invalidDateEvents) ∧
    (mapGet (worldAfter invalidDateEvents).executionStatus "tB").map
      (fun r => (r.status, r.executionTime)) = some (.scheduled, .invalid) ∧
    ∃ l, listScheduledTasks (worldAfter invalidDateEvents) none =
        (.ok (.taskList l), worldAfter invalidDateEvents) ∧
      l.map (fun x => (x.taskId, x.executionTime)) =
        [("tA", .valid 5000), ("tB", .invalid), ("tC", .valid 1000)] ∧
      ∀ l1 : List TaskSummary, l1.Perm l →
        ¬ l1.Pairwise (fun a b => ∃ x y, a.executionTime = .valid x ∧
          b.executionTime = .valid y ∧ x ≤ y) := by
  refine ⟨reachable_worldAfter _ (by decide), by decide,
    (summaries (worldAfter invalidDateEvents)).insertionSort
      (fun a b => compareTime a.executionTime b.executionTime ≤ 0),
    (reachable_worldAfter invalidDateEvents (by decide)).listScheduledTasks_eq none,
    by decide, ?_⟩
  intro l1 hperm hp
  obtain ⟨a, ha, hta⟩ : ∃ a ∈ l1, a.executionTime = .valid 5000 := by
    have h : ∃ a ∈ (summaries (worldAfter invalidDateEvents)).insertionSort
        (fun a b => compareTime a.executionTime b.executionTime ≤ 0),
        a.executionTime = .valid 5000 := by decide
    obtain ⟨a, ha, hta⟩ := h
    exact ⟨a, hperm.mem_iff.2 ha, hta⟩
  obtain ⟨b, hb, htb⟩ : ∃ b ∈ l1, b.executionTime = .invalid := by
    have h : ∃ b ∈ (summaries (worldAfter invalidDateEvents)).insertionSort
        (fun a b => compareTime a.executionTime b.executionTime ≤ 0),
        b.executionTime = .invalid := by decide
    obtain ⟨b, hb, htb⟩ := h
    exact ⟨b, hperm.mem_iff.2 hb, htb⟩
  have hne : a ≠ b := by
    intro h; rw [h, htb] at hta; exact JSDate.noConfusion hta
  have hsym : l1.Pairwise (fun a b =>
      (∃ x y, a.executionTime = .valid x ∧ b.executionTime = .valid y ∧ x ≤ y) ∨
      (∃ x y, b.executionTime = .valid x ∧ a.executionTime = .valid y ∧ x ≤ y)) :=
    hp.imp (fun h => Or.inl h)
  have h := hsym.forall (fun _ _ h => h.symm) ha hb hne
  rcases h with ⟨x, y, _, hy, _⟩ | ⟨x, y, hx, _, _⟩
  · rw [htb] at hy; exact JSDate.noConfusion hy
  · rw [htb] at hx; exact JSDate.noConfusion hx

/-- C26: in a reachable world `listScheduledTasks` without a filter returns a permutation of
the entries of all stored tasks, one entry per task of `scheduledTasks` (whose keys are
distinct), each carrying the `status` and `attemptCount` of the task's current record; with a
filter whose `status` is a non-empty string `s` it returns exactly those of these entries
whose status is `s`; both calls leave the whole world unchanged. -/
theorem C26_list_is_exact (w : World) (s : String) (hw : Reachable w) (hs : s ≠ "") :
    ∃ all, listScheduledTasks w none = (.ok (.taskList all), w) ∧
      all.Perm (summaries w) ∧
      List.Forall₂ (fun e x => ∃ r, mapGet w.executionStatus e.1 = some r ∧
        x = { taskId := e.1, executionTime := e.2.executionTime, status := r.status,
              attemptCount := r.attemptCount, config := e.2.config })
        w.scheduledTasks (summaries w) ∧
      (w.scheduledTasks.map (fun e => e.1)).Nodup ∧
      listScheduledTasks w (some s) =
        (.ok (.taskList (all.filter (fun x => decide (x.status.name = s)))), w) := by
  refine ⟨_, hw.listScheduledTasks_eq none, List.perm_insertionSort _ _, ?_, hw.keysOk.1, ?_⟩
  · exact forall2_summaries w w.scheduledTasks (fun e he => hw.record_of_task he)
  · rw [hw.listScheduledTasks_eq]
    simp [hs]

/-- C26 (witness): the three tasks of `listEvents`, listed with the filter `paused`. -/
theorem C26_list_is_exact_witness :
    Reachable (worldAfter listEvents) ∧ "paused" ≠ "" ∧
    ∃ all, listScheduledTasks (worldAfter listEvents) none =
        (.ok (.taskList all), worldAfter listEvents) ∧
      all.Perm (summaries (worldAfter listEvents)) ∧
      listScheduledTasks (worldAfter listEvents) (some "paused") =
        (.ok (.taskList (all.filter (fun x => decide (x.status.name = "paused")))),
         worldAfter listEvents) :=
  ⟨reachable_worldAfter _ (by decide), by decide,
    match C26_list_is_exact (worldAfter listEvents) "paused"
      (reachable_worldAfter _ (by decide)) (by decide) with
    | ⟨all, h1, h2, _, _, h5⟩ => ⟨all, h1, h2, h5⟩⟩

/-- C27: publishing an outcome invokes every registered listener exactly once, in the order of
`completionCallbacks`, each with the same payload, whether or not listeners before it throw;
a throwing listener only adds a `console.error` line: the records, the runs of the retry
controller and the list of listeners are as before. `onExecutionComplete` appends the listener
at the end of `completionCallbacks`, so that order is the registration order. -/
theorem C27_every_listener_invoked (w : World) (result : CompletionEvent) (cb : Callback) :
    (triggerCompletionCallbacks w result).delivered =
      w.delivered ++ w.completionCallbacks.map (fun c => (c.ident, result)) ∧
    (triggerCompletionCallbacks w result).consoleErrors =
      w.consoleErrors ++
        (w.completionCallbacks.filter (fun c => c.throws)).map (fun _ => "完成回調執行失敗:") ∧
    (triggerCompletionCallbacks w result).executionStatus = w.executionStatus ∧
    (triggerCompletionCallbacks w result).procs = w.procs ∧
    (triggerCompletionCallbacks w result).completionCallbacks = w.completionCallbacks ∧
    onExecutionComplete w (some cb) =
      (.ok .unit, { w with completionCallbacks := w.completionCallbacks ++ [cb] }) :=
  ⟨triggerCompletionCallbacks_delivered w result,
    foldl_invokeCallback_consoleErrors result w.completionCallbacks w,
    triggerCompletionCallbacks_executionStatus w result, triggerCompletionCallbacks_procs w result,
    triggerCompletionCallbacks_completionCallbacks w result, rfl⟩

/-- C28: when the attempt in flight of a run resolves with success, the record of its task
gets status `completed`, `result` set to the payload of the executor and `completedAt` set to
the current time, and the event `{taskId, success: true, result, attemptCount}` is delivered
to every listener; when it fails with no retry left, the record gets status `failed`, `error`
set to the failure message and `completedAt` set, and the event
`{taskId, success: false, error, attemptCount}` is delivered; in both events `attemptCount`
is the number of the attempt that just resolved. A failure with a retry left only sets `error`
and publishes nothing. -/
theorem C28_terminal_outcome_published (w : World) (p : Proc) (d : JSNum) (r : StatusInfo)
    (hp : findProc w.procs p.pid = some p) (hph : p.phase = .inFlight d)
    (hr : mapGet w.executionStatus p.taskId = some r) :
    (∃ w1, step w (.attemptSettle p.pid true) = some w1 ∧
      mapGet w1.executionStatus p.taskId =
        some { r with status := .completed, completedAt := some w.now,
                      result := some (simulateClickResult p.config w.now) } ∧
      w1.delivered = w.delivered ++ w.completionCallbacks.map (fun c =>
        (c.ident, { taskId := p.taskId, success := true,
                    result := some (simulateClickResult p.config w.now), error := none,
                    attemptCount := p.currentAttempt }))) ∧
    (p.maxRetries.natLt p.currentAttempt = false →
      ∃ w1, step w (.attemptSettle p.pid false) = some w1 ∧
        mapGet w1.executionStatus p.taskId =
          some { r with error := some (simulateClickError p.config), status := .failed,
                        completedAt := some w.now } ∧
        w1.delivered = w.delivered ++ w.completionCallbacks.map (fun c =>
          (c.ident, { taskId := p.taskId, success := false, result := none,
                      error := some (simulateClickError p.config),
                      attemptCount := p.currentAttempt }))) ∧
    (p.maxRetries.natLt p.currentAttempt = true →
      ∃ w1, step w (.attemptSettle p.pid false) = some w1 ∧
        mapGet w1.executionStatus p.taskId =
          some { r with error := some (simulateClickError p.config) } ∧
        w1.delivered = w.delivered) := by
  refine ⟨?_, ?_, ?_⟩
  · simp only [step, hp, hph]
    refine ⟨_, rfl, ?_, ?_⟩
    · simp [attemptSettled, hr, mapGet_mapSet_self]
    · simp [attemptSettled, hr, triggerCompletionCallbacks_delivered]
  · intro hlt
    simp only [step, hp, hph]
    refine ⟨_, rfl, ?_, ?_⟩
    · simp [attemptSettled, hr, hlt, mapGet_mapSet_self]
    · simp [attemptSettled, hr, hlt, triggerCompletionCallbacks_delivered]
  · intro hlt
    simp only [step, hp, hph]
    refine ⟨_, rfl, ?_, ?_⟩
    · simp [attemptSettled, hr, hlt, mapGet_mapSet_self]
    · simp [attemptSettled, hr, hlt]

/-- C28 (witness): the sample task with two listeners registered and its first attempt in
flight. -/
theorem C28_terminal_outcome_witness :
    findProc (worldAfter listeningEvents).procs inFlightProc.pid = some inFlightProc ∧
    inFlightProc.phase = .inFlight (.fin 500) ∧
    mapGet (worldAfter listeningEvents).executionStatus inFlightProc.taskId =
      some inFlightRecord ∧
    ∃ w1, step (worldAfter listeningEvents) (.attemptSettle inFlightProc.pid true) = some w1 ∧
      mapGet w1.executionStatus inFlightProc.taskId =
        some { inFlightRecord with
               status := .completed, completedAt := some (worldAfter listeningEvents).now,
               result := some (simulateClickResult inFlightProc.config
                 (worldAfter listeningEvents).now) } ∧
      w1.delivered = (worldAfter listeningEvents).delivered ++
        (worldAfter listeningEvents).completionCallbacks.map (fun c =>
          (c.ident, { taskId := inFlightProc.taskId, success := true,
                      result := some (simulateClickResult inFlightProc.config
                        (worldAfter listeningEvents).now),
                      error := none, attemptCount := inFlightProc.currentAttempt })) :=
  ⟨by decide, by decide, by decide,
    (C28_terminal_outcome_published (worldAfter listeningEvents) inFlightProc (.fin 500)
      inFlightRecord (by decide) (by decide) (by decide)).1⟩

/-- C29: in a reachable world, an event that is not about the task `b` (a public method
called for another id, the firing of another task's timer, a step of another task's run of the
retry controller, whatever its outcome, or an event about no task) leaves the record of `b`,
its stored task with its config, its entry in `executionTimers` and its armed timers
unchanged. -/
theorem C29_other_task_untouched (w w1 : World) (e : Event) (b : TaskId) (hw : Reachable w)
    (hstep : step w e = some w1) (hb : e.target w ≠ some b) :
    mapGet w1.executionStatus b = mapGet w.executionStatus b ∧
    mapGet w1.scheduledTasks b = mapGet w.scheduledTasks b ∧
    mapGet w1.executionTimers b = mapGet w.executionTimers b ∧
    timersOf w1 b = timersOf w b := by
  have hi := hw.inv
  have hids := hw.timerIds
  show SameFor b w w1
  cases e with
  | schedule req =>
    simp only [step, Option.some.injEq] at hstep; subst hstep
    rcases schedule_cases w req with ⟨e, he⟩ | ⟨tc, config, t, rfl, hid, hnew, hcfg, ht, hlt⟩
    · rw [he]; exact sameFor_refl b w
    · have hk : tc.taskId ≠ b := fun h => hb (by simp [Event.target, h])
      rw [schedule_ok hid hnew hcfg ht hlt]
      exact ⟨by simp [mapGet_mapSet_of_ne _ _ _ _ hk], by simp [mapGet_mapSet_of_ne _ _ _ _ hk],
        by simp [mapGet_mapSet_of_ne _ _ _ _ hk], timersOf_append_other _ hk⟩
  | executeTask k =>
    simp only [step, Option.some.injEq] at hstep; subst hstep
    have hk : k ≠ b := fun h => hb (by simp [Event.target, h])
    exact executeTask_sameFor hi.recorded hids.2.2 hk
  | pauseExecution k =>
    simp only [step, Option.some.injEq] at hstep; subst hstep
    have hk : k ≠ b := fun h => hb (by simp [Event.target, h])
    unfold pauseExecution
    split
    · exact sameFor_refl b w
    · split
      · exact sameFor_refl b w
      · exact ⟨by simp [mapGet_mapSet_of_ne _ _ _ _ hk], by simp,
          by simp [clearTaskTimer_get, hk], clearTaskTimer_timersOf_other hi.recorded hids.2.2 hk⟩
  | resumeExecution k =>
    simp only [step, Option.some.injEq] at hstep; subst hstep
    have hk : k ≠ b := fun h => hb (by simp [Event.target, h])
    unfold resumeExecution
    split
    · exact sameFor_refl b w
    · split
      · exact sameFor_refl b w
      · exact ⟨by simp [mapGet_mapSet_of_ne _ _ _ _ hk], rfl,
          by simp [mapGet_mapSet_of_ne _ _ _ _ hk], timersOf_append_other _ hk⟩
  | cancelExecution k =>
    simp only [step, Option.some.injEq] at hstep; subst hstep
    have hk : k ≠ b := fun h => hb (by simp [Event.target, h])
    unfold cancelExecution
    split
    · exact sameFor_refl b w
    · exact ⟨by simp [mapGet_mapSet_of_ne _ _ _ _ hk], by simp,
        by simp [clearTaskTimer_get, hk], clearTaskTimer_timersOf_other hi.recorded hids.2.2 hk⟩
  | getExecutionStatus k =>
    simp only [step, Option.some.injEq] at hstep; subst hstep
    unfold getExecutionStatus
    split <;> exact sameFor_refl b w
  | listScheduledTasks f =>
    simp only [step, Option.some.injEq] at hstep; subst hstep
    unfold listScheduledTasks
    split
    · exact sameFor_refl b w
    · split
      · split <;> exact sameFor_refl b w
      · exact sameFor_refl b w
  | onExecutionComplete cb =>
    simp only [step, Option.some.injEq] at hstep; subst hstep
    unfold onExecutionComplete
    split <;> exact sameFor_refl b w
  | tick dt =>
    simp only [step, Option.some.injEq] at hstep; subst hstep
    exact sameFor_refl b w
  | timerFire tid =>
    simp only [step] at hstep
    split at hstep
    · simp at hstep
    · rename_i t ht
      simp only [Option.some.injEq] at hstep; subst hstep
      have hk : t.taskId ≠ b := fun h => hb (by simp [Event.target, ht, h])
      exact fireTimer_sameFor hi hids (findTimer_mem ht).1 hk
  | attemptBegin pid =>
    simp only [step] at hstep
    split at hstep
    · simp at hstep
    · rename_i p hp
      have hk : p.taskId ≠ b := fun h => hb (by simp [Event.target, hp, h])
      split at hstep
      · simp only [Option.some.injEq] at hstep; subst hstep
        unfold attemptExecution
        split
        · exact sameFor_refl b w
        · exact ⟨by simp [mapGet_mapSet_of_ne _ _ _ _ hk], rfl, rfl, rfl⟩
      · simp only [Option.some.injEq] at hstep; subst hstep
        unfold attemptExecution
        split
        · exact sameFor_refl b w
        · exact ⟨by simp [mapGet_mapSet_of_ne _ _ _ _ hk], rfl, rfl, rfl⟩
      · simp at hstep
  | attemptSettle pid success =>
    simp only [step] at hstep
    split at hstep
    · simp at hstep
    · rename_i p hp
      have hk : p.taskId ≠ b := fun h => hb (by simp [Event.target, hp, h])
      split at hstep
      · simp only [Option.some.injEq] at hstep; subst hstep
        unfold attemptSettled
        split
        · exact sameFor_refl b w
        · split
          · exact ⟨by simp [mapGet_mapSet_of_ne _ _ _ _ hk], by simp, by simp,
              by simp [timersOf]⟩
          · split
            · exact ⟨by simp [mapGet_mapSet_of_ne _ _ _ _ hk], rfl, rfl, rfl⟩
            · exact ⟨by simp [mapGet_mapSet_of_ne _ _ _ _ hk], by simp, by simp,
                by simp [timersOf]⟩
      · simp at hstep

/-- C29 (witness): among the three tasks of `listEvents`, cancelling `tB` leaves `t1`
untouched. -/
theorem C29_other_task_witness :
    Reachable (worldAfter listEvents) ∧
    step (worldAfter listEvents) (.cancelExecution "tB") =
      some (worldAfter (listEvents ++ [.cancelExecution "tB"])) ∧
    (Event.cancelExecution "tB").target (worldAfter listEvents) ≠ some "t1" ∧
    mapGet (worldAfter (listEvents ++ [.cancelExecution "tB"])).executionStatus "t1" =
      mapGet (worldAfter listEvents).executionStatus "t1" ∧
    mapGet (worldAfter (listEvents ++ [.cancelExecution "tB"])).scheduledTasks "t1" =
      mapGet (worldAfter listEvents).scheduledTasks "t1" ∧
    mapGet (worldAfter (listEvents ++ [.cancelExecution "tB"])).executionTimers "t1" =
      mapGet (worldAfter listEvents).executionTimers "t1" ∧
    timersOf (worldAfter (listEvents ++ [.cancelExecution "tB"])) "t1" =
      timersOf (worldAfter listEvents) "t1" :=
  ⟨reachable_worldAfter _ (by decide), by decide, by decide,
    C29_other_task_untouched _ _ (.cancelExecution "tB") "t1"
      (reachable_worldAfter _ (by decide)) (by decide) (by decide)⟩

/-- C30: in a reachable world at most one timer is armed for each task and every armed timer
is the one `executionTimers` records for its task; an event arms a timer only for a task for
which none is armed; and right after a successful `executeTask`, `pauseExecution` or
`cancelExecution` for a task its status is `executing`, `paused` or `cancelled` and no timer is
armed for it. -/
theorem C30_one_timer_per_task (w : World) (id : TaskId) (hw : Reachable w) :
    (timersOf w id).length ≤ 1 ∧
    (∀ t ∈ w.timers, mapGet w.executionTimers t.taskId = some t.timerId) ∧
    (∀ e w1, step w e = some w1 → ∀ t ∈ w1.timers, t ∉ w.timers → timersOf w t.taskId = []) ∧
    (succeeded (executeTask w id).1 = true →
      statusOf (executeTask w id).2 id = some .executing ∧
        timersOf (executeTask w id).2 id = []) ∧
    (succeeded (pauseExecution w id).1 = true →
      statusOf (pauseExecution w id).2 id = some .paused ∧
        timersOf (pauseExecution w id).2 id = []) ∧
    (succeeded (cancelExecution w id).1 = true →
      statusOf (cancelExecution w id).2 id = some .cancelled ∧
        timersOf (cancelExecution w id).2 id = []) := by
  refine ⟨hw.timersOf_length id, hw.inv.recorded, ?_, ?_, ?_, ?_⟩
  · intro e w1 hstep t ht hnew
    rcases step_timers hw.inv hstep with ⟨hsub, _, _⟩ | ⟨k, d, hnone, htm, _, _⟩
    · exact absurd (hsub.subset ht) hnew
    · rw [htm, List.mem_append, List.mem_singleton] at ht
      rcases ht with ht | rfl
      · exact absurd ht hnew
      · exact hw.no_timer_of_no_entry hnone
  · intro hok
    cases hr : mapGet w.executionStatus id with
    | none =>
      have hnone : mapGet w.scheduledTasks id = none := by
        have := hw.inv.sameKeys id
        simp only [mapHas, hr, Option.isSome_none] at this
        cases hg : mapGet w.scheduledTasks id with
        | none => rfl
        | some x => simp [hg] at this
      simp [executeTask, hnone, succeeded] at hok
    | some r =>
      obtain ⟨tc, htc⟩ := hw.inv.task_of_record hr
      rw [executeTask_result htc hr]
      exact ⟨by simp [statusOf, mapGet_mapSet_self],
        timersOf_eq_nil (clearTaskTimer_no_timer hw.inv id)⟩
  · intro hok
    cases hr : mapGet w.executionStatus id with
    | none => simp [pauseExecution, hr, succeeded] at hok
    | some r =>
      by_cases hfin : r.status = .completed ∨ r.status = .failed
      · simp [pauseExecution, hr, hfin, succeeded] at hok
      · rw [pauseExecution_result hr hfin]
        exact ⟨by simp [statusOf, mapGet_mapSet_self],
          timersOf_eq_nil (clearTaskTimer_no_timer hw.inv id)⟩
  · intro hok
    cases hr : mapGet w.executionStatus id with
    | none => simp [cancelExecution, hr, succeeded] at hok
    | some r =>
      obtain ⟨_, h2, _, h4, _, _⟩ := cancelExecution_result hr
      refine ⟨by simp [statusOf, h2], ?_⟩
      apply timersOf_eq_nil
      rw [h4]
      exact clearTaskTimer_no_timer hw.inv id

/-- C30 (witness): the task `t1` among the three tasks of `listEvents`. -/
theorem C30_one_timer_witness :
    Reachable (worldAfter listEvents) ∧ (timersOf (worldAfter listEvents) "t1").length ≤ 1 :=
  ⟨reachable_worldAfter _ (by decide),
    (C30_one_timer_per_task (worldAfter listEvents) "t1"
      (reachable_worldAfter _ (by decide))).1⟩

/-! ## Records and timer entries across one event, runs driven to their end -/

theorem runEvents_record {id : TaskId} (es : List Event) {w w1 : World} {r : StatusInfo}
    (hw : Reachable w) (hrun : runEvents w es = some w1)
    (hr : mapGet w.executionStatus id = some r) :
    ∃ r1, mapGet w1.executionStatus id = some r1 := by
  induction es generalizing w r with
  | nil =>
    simp only [runEvents, Option.some.injEq] at hrun
    exact ⟨r, hrun ▸ hr⟩
  | cons e es ih =>
    simp only [runEvents] at hrun
    split at hrun
    · simp at hrun
    · rename_i w2 h2
      obtain ⟨r2, hr2, _⟩ := step_record hw.inv h2 hr
      exact ih (Reachable.step e hw h2) hrun hr2

theorem executeTask_maps (w : World) (k : TaskId) :
    ((executeTask w k).2.executionStatus = w.executionStatus ∧
      (executeTask w k).2.executionTimers = w.executionTimers) ∨
    ∃ r, mapGet w.executionStatus k = some r ∧
      (executeTask w k).2.executionStatus =
        mapSet w.executionStatus k { r with status := .executing } ∧
      ∀ k1, mapGet (executeTask w k).2.executionTimers k1 =
        if k = k1 then none else mapGet w.executionTimers k1 := by
  cases ht : mapGet w.scheduledTasks k with
  | none => left; simp [executeTask, ht]
  | some tc =>
    cases hr : mapGet w.executionStatus k with
    | none => left; simp [executeTask, ht, hr]
    | some r =>
      right
      rw [executeTask_result ht hr]
      exact ⟨r, rfl, rfl, fun k1 => clearTaskTimer_get w k k1⟩

theorem step_maps {w w1 : World} {e : Event} (hstep : step w e = some w1) :
    (w1.executionStatus = w.executionStatus ∧ w1.executionTimers = w.executionTimers) ∨
    ∃ k r1, w1.executionStatus = mapSet w.executionStatus k r1 ∧
      ((∃ c t, r1 = createStatusInfo k c t ∧
          w1.executionTimers = mapSet w.executionTimers k w.nextTimerId) ∨
       ∃ r, mapGet w.executionStatus k = some r ∧ RecordStep w k r e r1 ∧
         ((r1.status = .scheduled ∧
             w1.executionTimers = mapSet w.executionTimers k w.nextTimerId) ∨
          (∀ k1, mapGet w1.executionTimers k1 =
             if k = k1 then none else mapGet w.executionTimers k1) ∨
          ((r1.status = r.status ∨ r1.status = .completed ∨ r1.status = .failed) ∧
             w1.executionTimers = w.executionTimers))) := by
  cases e with
  | schedule req =>
    simp only [step, Option.some.injEq] at hstep; subst hstep
    rcases schedule_cases w req with ⟨e, he⟩ | ⟨tc, config, t, hreq, hne, hnew, hcfg, ht, hlt⟩
    · left; rw [he]; exact ⟨rfl, rfl⟩
    · subst hreq
      right
      rw [schedule_ok hne hnew hcfg ht hlt]
      exact ⟨tc.taskId, _, rfl, .inl ⟨config, t, rfl, rfl⟩⟩
  | executeTask k =>
    simp only [step, Option.some.injEq] at hstep; subst hstep
    rcases executeTask_maps w k with h | ⟨r, hr, hs, ht⟩
    · exact .inl h
    · exact .inr ⟨k, _, hs, .inr ⟨r, hr, .execute, .inr (.inl ht)⟩⟩
  | pauseExecution k =>
    simp only [step, Option.some.injEq] at hstep; subst hstep
    cases hr : mapGet w.executionStatus k with
    | none => left; simp [pauseExecution, hr]
    | some r =>
      by_cases hfin : r.status = .completed ∨ r.status = .failed
      · left; simp [pauseExecution, hr, hfin]
      · right
        rw [pauseExecution_result hr hfin]
        simp only [not_or] at hfin
        exact ⟨k, _, rfl, .inr ⟨r, hr, .pause hfin.1 hfin.2,
          .inr (.inl (fun k1 => clearTaskTimer_get w k k1))⟩⟩
  | resumeExecution k =>
    simp only [step, Option.some.injEq] at hstep; subst hstep
    cases hr : mapGet w.executionStatus k with
    | none => left; simp [resumeExecution, hr]
    | some r =>
      by_cases hp : r.status = .paused
      · right
        rw [resumeExecution_result hr hp]
        exact ⟨k, _, rfl, .inr ⟨r, hr, .resume hp, .inl ⟨rfl, rfl⟩⟩⟩
      · left; simp [resumeExecution, hr, hp]
  | cancelExecution k =>
    simp only [step, Option.some.injEq] at hstep; subst hstep
    cases hr : mapGet w.executionStatus k with
    | none => left; simp [cancelExecution, hr]
    | some r =>
      right
      refine ⟨k, { r with status := .cancelled, cancelledAt := some w.now }, ?_,
        .inr ⟨r, hr, .cancel, .inr (.inl ?_)⟩⟩
      · simp [cancelExecution, hr]
      · intro k1
        simp only [cancelExecution, hr]
        exact clearTaskTimer_get w k k1
  | getExecutionStatus k =>
    simp only [step, Option.some.injEq] at hstep; subst hstep
    left
    unfold getExecutionStatus
    split <;> exact ⟨rfl, rfl⟩
  | listScheduledTasks f =>
    simp only [step, Option.some.injEq] at hstep; subst hstep
    left
    unfold listScheduledTasks
    split
    · exact ⟨rfl, rfl⟩
    · split
      · split <;> exact ⟨rfl, rfl⟩
      · exact ⟨rfl, rfl⟩
  | onExecutionComplete cb =>
    simp only [step, Option.some.injEq] at hstep; subst hstep
    left
    unfold onExecutionComplete
    split <;> exact ⟨rfl, rfl⟩
  | tick dt =>
    simp only [step, Option.some.injEq] at hstep; subst hstep
    exact .inl ⟨rfl, rfl⟩
  | timerFire tid =>
    simp only [step] at hstep
    split at hstep
    · simp at hstep
    · rename_i t ht
      simp only [Option.some.injEq] at hstep; subst hstep
      have hfire : (fireTimer w t).executionStatus =
            (executeTask { w with timers := clearTimeout w.timers t.timerId }
              t.taskId).2.executionStatus ∧
          (fireTimer w t).executionTimers =
            (executeTask { w with timers := clearTimeout w.timers t.timerId }
              t.taskId).2.executionTimers := by
        unfold fireTimer
        simp only
        split <;> (rename_i heq; rw [heq]; exact ⟨rfl, rfl⟩)
      rw [hfire.1, hfire.2]
      rcases executeTask_maps { w with timers := clearTimeout w.timers t.timerId } t.taskId
        with h | ⟨r, hr, hs, hte⟩
      · exact .inl h
      · exact .inr ⟨t.taskId, _, hs, .inr ⟨r, hr, .fire tid t ht rfl, .inr (.inl hte)⟩⟩
  | attemptBegin pid =>
    simp only [step] at hstep
    split at hstep
    · simp at hstep
    · rename_i p hp
      split at hstep
      · rename_i hph
        simp only [Option.some.injEq] at hstep; subst hstep
        cases hr : mapGet w.executionStatus p.taskId with
        | none => left; simp [attemptExecution, hr]
        | some r =>
          right
          refine ⟨p.taskId, { r with attemptCount := 1, lastAttemptTime := some w.now }, ?_,
            .inr ⟨r, hr, .first pid p hp rfl hph, .inr (.inr ⟨.inl rfl, ?_⟩)⟩⟩
          · simp [attemptExecution, hr]
          · simp [attemptExecution, hr]
      · rename_i d hph
        simp only [Option.some.injEq] at hstep; subst hstep
        cases hr : mapGet w.executionStatus p.taskId with
        | none => left; simp [attemptExecution, hr]
        | some r =>
          right
          refine ⟨p.taskId,
            { r with attemptCount := p.currentAttempt + 1, lastAttemptTime := some w.now }, ?_,
            .inr ⟨r, hr, .next pid p d hp rfl hph, .inr (.inr ⟨.inl rfl, ?_⟩)⟩⟩
          · simp [attemptExecution, hr]
          · simp [attemptExecution, hr]
      · simp at hstep
  | attemptSettle pid success =>
    simp only [step] at hstep
    split at hstep
    · simp at hstep
    · rename_i p hp
      split at hstep
      · rename_i d hph
        simp only [Option.some.injEq] at hstep; subst hstep
        cases hr : mapGet w.executionStatus p.taskId with
        | none => left; simp [attemptSettled, hr]
        | some r =>
          right
          cases success with
          | true =>
            refine ⟨p.taskId, _, ?_, .inr ⟨r, hr, .succeed pid p d hp rfl hph,
              .inr (.inr ⟨.inr (.inl rfl), ?_⟩)⟩⟩
            · simp [attemptSettled, hr]
            · simp [attemptSettled, hr]
          | false =>
            cases hlt : p.maxRetries.natLt p.currentAttempt with
            | true =>
              refine ⟨p.taskId, _, ?_, .inr ⟨r, hr, .failRetry pid p d hp rfl hph hlt,
                .inr (.inr ⟨.inl rfl, ?_⟩)⟩⟩
              · simp [attemptSettled, hr, hlt]
              · simp [attemptSettled, hr, hlt]
            | false =>
              refine ⟨p.taskId, _, ?_, .inr ⟨r, hr, .failFinal pid p d hp rfl hph hlt,
                .inr (.inr ⟨.inr (.inr rfl), ?_⟩)⟩⟩
              · simp [attemptSettled, hr, hlt]
              · simp [attemptSettled, hr, hlt]
      · simp at hstep

theorem timerStatusOk_step {w w1 : World} {e : Event} (h : TimerStatusOk w)
    (hstep : step w e = some w1) : TimerStatusOk w1 := by
  intro k1 tid r1 ht hr
  rcases step_maps hstep with ⟨hs, hte⟩ | ⟨k, r2, hs, hcase⟩
  · rw [hs] at hr; rw [hte] at ht
    exact h k1 tid r1 ht hr
  · rw [hs, mapGet_mapSet] at hr
    by_cases hk : k = k1
    · subst hk
      simp only [if_true, Option.some.injEq] at hr
      subst hr
      rcases hcase with ⟨c, t, rfl, _⟩ | ⟨r, hr0, _, hc⟩
      · left; rfl
      · rcases hc with ⟨hsch, _⟩ | hclear | ⟨hst, hte⟩
        · left; exact hsch
        · rw [hclear k] at ht; simp at ht
        · rw [hte] at ht
          have h0 := h k tid r ht hr0
          rcases hst with h1 | h1 | h1
          · rw [h1]; exact h0
          · exact .inr (.inl h1)
          · exact .inr (.inr h1)
    · simp only [hk, if_false] at hr
      have ht0 : mapGet w.executionTimers k1 = some tid := by
        rcases hcase with ⟨c, t, _, hte⟩ | ⟨r, _, _, ⟨_, hte⟩ | hclear | ⟨_, hte⟩⟩
        · rw [hte, mapGet_mapSet_of_ne _ _ _ _ hk] at ht; exact ht
        · rw [hte, mapGet_mapSet_of_ne _ _ _ _ hk] at ht; exact ht
        · rw [hclear k1] at ht; simpa [hk] using ht
        · rw [hte] at ht; exact ht
      exact h k1 tid r1 ht0 hr

theorem Reachable.timerStatusOk {w : World} (h : Reachable w) : TimerStatusOk w := by
  induction h with
  | init t0 => intro k tid r ht; simp [World.init, mapGet] at ht
  | step e _ hstep ih => exact timerStatusOk_step ih hstep

theorem wellFormed_createStatusInfo (k : TaskId) (c : ExecutionConfig) (t : JSDate) :
    WellFormed (createStatusInfo k c t) := by
  simp [WellFormed, createStatusInfo]

theorem wellFormed_recordStep {w : World} {k : TaskId} {r r1 : StatusInfo} {e : Event}
    (hs : RecordStep w k r e r1) (h : WellFormed r) : WellFormed r1 := by
  obtain ⟨h1, h2, h3, h4⟩ := h
  cases hs with
  | same => exact ⟨h1, h2, h3, h4⟩
  | execute => exact ⟨by simp, by simp, by simp, h4⟩
  | fire tid t _ _ => exact ⟨by simp, by simp, by simp, h4⟩
  | pause _ _ => exact ⟨by simp, by simp, by simp, h4⟩
  | resume _ => exact ⟨by simp, by simp, by simp, h4⟩
  | cancel => exact ⟨by simp, by simp, by simp, h4⟩
  | first pid p _ _ _ => exact ⟨h1, h2, h3, by simp⟩
  | next pid p d _ _ _ => exact ⟨h1, h2, h3, by simp⟩
  | succeed pid p d _ _ _ => exact ⟨by simp, by simp, by simp, h4⟩
  | failRetry pid p d _ _ _ _ => exact ⟨h1, fun hf => ⟨by simp, (h2 hf).2⟩, h3, h4⟩
  | failFinal pid p d _ _ _ _ => exact ⟨by simp, by simp, by simp, h4⟩

theorem wellFormed_step {w w1 : World} {e : Event}
    (h : ∀ k r, mapGet w.executionStatus k = some r → WellFormed r)
    (hstep : step w e = some w1) :
    ∀ k r, mapGet w1.executionStatus k = some r → WellFormed r := by
  intro k1 r1 hr
  rcases step_maps hstep with ⟨hs, _⟩ | ⟨k, r2, hs, hcase⟩
  · rw [hs] at hr; exact h k1 r1 hr
  · rw [hs, mapGet_mapSet] at hr
    by_cases hk : k = k1
    · subst hk
      simp only [if_true, Option.some.injEq] at hr
      subst hr
      rcases hcase with ⟨c, t, rfl, _⟩ | ⟨r, hr0, hrs, _⟩
      · exact wellFormed_createStatusInfo _ _ _
      · exact wellFormed_recordStep hrs (h k r hr0)
    · simp only [hk, if_false] at hr
      exact h k1 r1 hr

theorem Reachable.wellFormed {w : World} (h : Reachable w) :
    ∀ k r, mapGet w.executionStatus k = some r → WellFormed r := by
  induction h with
  | init t0 => intro k r hr; simp [World.init, mapGet] at hr
  | step e _ hstep ih => exact wellFormed_step ih hstep

theorem natLt_lt_of_bound {M : JSNum} {N c : Nat} (hN : M.natLt N = false)
    (hc : M.natLt c = true) : c < N := by
  cases M with
  | fin q =>
    simp only [JSNum.natLt, decide_eq_false_iff_not, not_lt, decide_eq_true_eq] at hN hc
    exact_mod_cast lt_of_lt_of_le hc hN
  | nan => simp [JSNum.natLt] at hc
  | posInf => simp [JSNum.natLt] at hN
  | negInf => simp [JSNum.natLt] at hc

theorem natLt_bound_exists {M : JSNum} (h : M ≠ .posInf) : ∃ N : Nat, M.natLt N = false := by
  cases M with
  | fin q => exact ⟨Nat.ceil q, by simp [JSNum.natLt, Nat.le_ceil]⟩
  | nan => exact ⟨0, rfl⟩
  | posInf => exact absurd rfl h
  | negInf => exact ⟨0, rfl⟩

theorem orDefault_ne_posInf {v : Option JSNum} (d : ℚ) (h : v ≠ some .posInf) :
    orDefault v d ≠ .posInf := by
  cases v with
  | none => simp [orDefault]
  | some x =>
    by_cases hx : x.truthy = true
    · simp only [orDefault, hx, if_true]
      intro hx1; exact h (by rw [hx1])
    · simp [orDefault, hx]

theorem driveProc_done (exec : Nat → Bool) {pid : Nat} (fuel : Nat) {w : World}
    (h : findProc w.procs pid = none) : driveProc exec pid fuel w = w := by
  cases fuel <;> simp [driveProc, h]

theorem driveProc_inFlight (exec : Nat → Bool) {pid : Nat} (fuel : Nat) {w : World} {p : Proc}
    {d : JSNum} (hp : findProc w.procs pid = some p) (hph : p.phase = .inFlight d) :
    driveProc exec pid (fuel + 1) w =
      driveProc exec pid fuel (attemptSettled w p (exec p.currentAttempt)) := by
  simp [driveProc, hp, hph, step]

theorem driveProc_retryWait (exec : Nat → Bool) {pid : Nat} (fuel : Nat) {w : World} {p : Proc}
    {d : JSNum} (hp : findProc w.procs pid = some p) (hph : p.phase = .retryWait d) :
    driveProc exec pid (fuel + 1) w =
      driveProc exec pid fuel
        (attemptExecution w pid p.taskId p.config (p.currentAttempt + 1) p.maxRetries) := by
  simp [driveProc, hp, hph, step]

theorem driveProc_immediate (exec : Nat → Bool) {pid : Nat} (fuel : Nat) {w : World} {p : Proc}
    (hp : findProc w.procs pid = some p) (hph : p.phase = .immediate) :
    driveProc exec pid (fuel + 1) w =
      driveProc exec pid fuel (attemptExecution w pid p.taskId p.config 1 p.maxRetries) := by
  simp [driveProc, hp, hph, step]

theorem attemptExecution_inFlight {w : World} {pid : Nat} {p : Proc} {id : TaskId}
    {r : StatusInfo} (config : ExecutionConfig) (c : Nat) (M : JSNum)
    (hp : findProc w.procs pid = some p) (hr : mapGet w.executionStatus id = some r) :
    findProc (attemptExecution w pid id config c M).procs pid =
      some { pid := pid, taskId := id, config := config, currentAttempt := c, maxRetries := M,
             phase := .inFlight (simulateClickDelay config) } ∧
    mapGet (attemptExecution w pid id config c M).executionStatus id =
      some { r with attemptCount := c, lastAttemptTime := some w.now } ∧
    (attemptExecution w pid id config c M).delivered = w.delivered ∧
    (attemptExecution w pid id config c M).completionCallbacks = w.completionCallbacks := by
  simp only [attemptExecution, hr]
  exact ⟨findProc_setProc _ hp rfl, mapGet_mapSet_self _ _ _, trivial, trivial⟩

theorem runOver_success (exec : Nat → Bool) {w : World} {p : Proc} {d : JSNum}
    {r : StatusInfo} (hp : findProc w.procs p.pid = some p) (hph : p.phase = .inFlight d)
    (hr : mapGet w.executionStatus p.taskId = some r) (hcount : r.attemptCount = p.currentAttempt)
    (hex : exec p.currentAttempt = true) (fuel : Nat) (hf : 1 ≤ fuel) :
    RunOver exec p.pid p.taskId w (driveProc exec p.pid fuel w) p.currentAttempt
      { taskId := p.taskId, success := true,
        result := some (simulateClickResult p.config w.now), error := none,
        attemptCount := p.currentAttempt } := by
  obtain ⟨f, rfl⟩ : ∃ f, fuel = f + 1 := ⟨fuel - 1, by omega⟩
  have hdone : findProc (attemptSettled w p true).procs p.pid = none := by
    simp [attemptSettled, hr, findProc_removeProc]
  rw [driveProc_inFlight exec f hp hph, hex, driveProc_done exec f hdone]
  refine ⟨hdone, ?_, rfl, rfl, hex.symm, ?_⟩
  · simp [attemptSettled, hr, triggerCompletionCallbacks_delivered]
  · exact ⟨{ r with status := .completed, completedAt := some w.now,
                    result := some (simulateClickResult p.config w.now) },
      by simp [attemptSettled, hr, mapGet_mapSet_self], hcount, .inl ⟨rfl, rfl⟩⟩

theorem runOver_failure (exec : Nat → Bool) {w : World} {p : Proc} {d : JSNum}
    {r : StatusInfo} (hp : findProc w.procs p.pid = some p) (hph : p.phase = .inFlight d)
    (hr : mapGet w.executionStatus p.taskId = some r) (hcount : r.attemptCount = p.currentAttempt)
    (hex : exec p.currentAttempt = false) (hlt : p.maxRetries.natLt p.currentAttempt = false)
    (fuel : Nat) (hf : 1 ≤ fuel) :
    RunOver exec p.pid p.taskId w (driveProc exec p.pid fuel w) p.currentAttempt
      { taskId := p.taskId, success := false, result := none,
        error := some (simulateClickError p.config), attemptCount := p.currentAttempt } := by
  obtain ⟨f, rfl⟩ : ∃ f, fuel = f + 1 := ⟨fuel - 1, by omega⟩
  have hdone : findProc (attemptSettled w p false).procs p.pid = none := by
    simp [attemptSettled, hr, hlt, findProc_removeProc]
  rw [driveProc_inFlight exec f hp hph, hex, driveProc_done exec f hdone]
  refine ⟨hdone, ?_, rfl, rfl, hex.symm, ?_⟩
  · simp [attemptSettled, hr, hlt, triggerCompletionCallbacks_delivered]
  · exact ⟨{ r with error := some (simulateClickError p.config), status := .failed,
                    completedAt := some w.now },
      by simp [attemptSettled, hr, hlt, mapGet_mapSet_self], hcount, .inr ⟨rfl, rfl⟩⟩

theorem driveProc_inFlight_terminates (exec : Nat → Bool) (N : Nat) :
    ∀ (k : Nat) (w : World) (p : Proc) (d : JSNum) (r : StatusInfo),
      p.maxRetries.natLt N = false → N ≤ p.currentAttempt + k →
      findProc w.procs p.pid = some p → p.phase = .inFlight d →
      mapGet w.executionStatus p.taskId = some r → r.attemptCount = p.currentAttempt →
      ∃ n ev, p.currentAttempt ≤ n ∧
        ∀ fuel, 2 * k + 1 ≤ fuel →
          RunOver exec p.pid p.taskId w (driveProc exec p.pid fuel w) n ev := by
  intro k
  induction k with
  | zero =>
    intro w p d r hN hk hp hph hr hcount
    cases hex : exec p.currentAttempt with
    | true =>
      exact ⟨_, _, le_refl _, fun fuel hf =>
        runOver_success exec hp hph hr hcount hex fuel (by omega)⟩
    | false =>
      cases hlt : p.maxRetries.natLt p.currentAttempt with
      | true => have := natLt_lt_of_bound hN hlt; omega
      | false =>
        exact ⟨_, _, le_refl _, fun fuel hf =>
          runOver_failure exec hp hph hr hcount hex hlt fuel (by omega)⟩
  | succ k ih =>
    intro w p d r hN hk hp hph hr hcount
    cases hex : exec p.currentAttempt with
    | true =>
      exact ⟨_, _, le_refl _, fun fuel hf =>
        runOver_success exec hp hph hr hcount hex fuel (by omega)⟩
    | false =>
      cases hlt : p.maxRetries.natLt p.currentAttempt with
      | false =>
        exact ⟨_, _, le_refl _, fun fuel hf =>
          runOver_failure exec hp hph hr hcount hex hlt fuel (by omega)⟩
      | true =>
        have hw1 : attemptSettled w p false =
            { w with
              executionStatus := mapSet w.executionStatus p.taskId
                { r with error := some (simulateClickError p.config) }
              procs := setProc w.procs
                { p with phase := .retryWait (orDefault p.config.retryDelay 1000) } } := by
          simp [attemptSettled, hr, hlt]
        have hp1 : findProc (attemptSettled w p false).procs p.pid =
            some { p with phase := .retryWait (orDefault p.config.retryDelay 1000) } := by
          rw [hw1]; exact findProc_setProc _ hp rfl
        have hr1 : mapGet (attemptSettled w p false).executionStatus p.taskId =
            some { r with error := some (simulateClickError p.config) } := by
          rw [hw1]; exact mapGet_mapSet_self _ _ _
        have hd1 : (attemptSettled w p false).delivered = w.delivered := by rw [hw1]
        have hc1 : (attemptSettled w p false).completionCallbacks = w.completionCallbacks := by
          rw [hw1]
        obtain ⟨hp2, hr2, hd2, hc2⟩ := attemptExecution_inFlight p.config (p.currentAttempt + 1)
          p.maxRetries hp1 hr1
        obtain ⟨n, ev, hn, hrun⟩ := ih
          (attemptExecution (attemptSettled w p false) p.pid p.taskId p.config
            (p.currentAttempt + 1) p.maxRetries)
          { pid := p.pid, taskId := p.taskId, config := p.config,
            currentAttempt := p.currentAttempt + 1, maxRetries := p.maxRetries,
            phase := .inFlight (simulateClickDelay p.config) }
          _ _ hN (by show N ≤ p.currentAttempt + 1 + k; omega) hp2 rfl hr2 rfl
        have hn1 : p.currentAttempt + 1 ≤ n := hn
        refine ⟨n, ev, by omega, fun fuel hf => ?_⟩
        obtain ⟨f, rfl⟩ : ∃ f, fuel = f + 2 := ⟨fuel - 2, by omega⟩
        rw [driveProc_inFlight exec (f + 1) hp hph, hex, driveProc_retryWait exec f hp1 rfl]
        obtain ⟨h1, h2, h3⟩ := hrun f (by omega)
        refine ⟨h1, ?_, h3⟩
        rw [hd2, hc2, hd1, hc1] at h2
        exact h2

theorem clearTaskTimer_delivered (w : World) (k : TaskId) :
    (clearTaskTimer w k).delivered = w.delivered := by
  unfold clearTaskTimer; split <;> rfl

/-! ## The claims on validation, selectors, retries and invariants -/

/-- C31 (code bug): a task accepted with `retryDelay: 0` whose first attempt failed waits 1000
milliseconds before the next attempt, because `config.retryDelay || 1000` reads the accepted
value 0 as absent. -/
theorem C31_zero_retryDelay_waits_default :
    Reachable (worldAfter zeroDelayEvents) ∧
    (mapGet (worldAfter zeroDelayEvents).executionStatus "t1").map
      (fun r => r.config.retryDelay) = some (some (.fin 0)) ∧
    (findProc (worldAfter zeroDelayEvents).procs 0).map (fun p => p.phase) =
      some (.retryWait (.fin 1000)) :=
  ⟨reachable_worldAfter _ (by decide), by decide, by decide⟩

/-- C32 (code bug): `validateExecutionConfig` accepts a config whose `clickDelay` is `NaN`,
a value of type `number` that is not `>= 0`. -/
theorem C32_nan_accepted :
    validateExecutionConfig (some nanConfig) =
      .ok { targetUrl := "https://example.com", clickSelector := ".btn",
            clickDelay := some .nan, retryCount := none, retryDelay := none } := by
  rfl

/-- C33: `createDOMSelector` returns `.` + value for type `class`, `#` + value for type `id`,
`[name="value"]` for type `attribute` and the value itself for type `xpath` whenever the
value (and for `attribute` the name) is a non-empty string; it throws when the config or its
type is missing or empty, when the type is none of the four, and when a required value or name
is missing or empty. -/
theorem C33_createDOMSelector (c : SelectorConfig) (v n t : String) :
    (c.type = some "class" → c.value = some v → v ≠ "" →
      createDOMSelector (some c) = .ok ("." ++ v)) ∧
    (c.type = some "id" → c.value = some v → v ≠ "" →
      createDOMSelector (some c) = .ok ("#" ++ v)) ∧
    (c.type = some "attribute" → c.value = some v → v ≠ "" → c.name = some n → n ≠ "" →
      createDOMSelector (some c) = .ok ("[" ++ n ++ "=\"" ++ v ++ "\"]")) ∧
    (c.type = some "xpath" → c.value = some v → v ≠ "" →
      createDOMSelector (some c) = .ok v) ∧
    createDOMSelector none = .error .missingType ∧
    (falsy c.type = true → createDOMSelector (some c) = .error .missingType) ∧
    (c.type = some t → t ≠ "" → t ≠ "class" → t ≠ "id" → t ≠ "attribute" → t ≠ "xpath" →
      createDOMSelector (some c) = .error (.unknownType t)) ∧
    (c.type = some "class" → falsy c.value = true →
      createDOMSelector (some c) = .error .classMissingValue) ∧
    (c.type = some "id" → falsy c.value = true →
      createDOMSelector (some c) = .error .idMissingValue) ∧
    (c.type = some "attribute" → falsy c.name = true ∨ falsy c.value = true →
      createDOMSelector (some c) = .error .attributeMissingNameOrValue) ∧
    (c.type = some "xpath" → falsy c.value = true →
      createDOMSelector (some c) = .error .xpathMissingValue) := by
  refine ⟨?_, ?_, ?_, ?_, rfl, ?_, ?_, ?_, ?_, ?_, ?_⟩
  · intro ht hv hne
    simp [createDOMSelector, falsy, ht, hv, hne]
  · intro ht hv hne
    simp [createDOMSelector, falsy, ht, hv, hne]
  · intro ht hv hne hn hnn
    simp [createDOMSelector, falsy, ht, hv, hne, hn, hnn]
  · intro ht hv hne
    simp [createDOMSelector, falsy, ht, hv, hne]
  · intro hf
    simp [createDOMSelector, hf]
  · intro ht hne h1 h2 h3 h4
    simp only [createDOMSelector, falsy, ht, decide_eq_true_eq, hne, if_false]
  · intro ht hf
    simp [createDOMSelector, ht, hf, show falsy (some "class") = false from rfl]
  · intro ht hf
    simp [createDOMSelector, ht, hf, show falsy (some "id") = false from rfl]
  · intro ht hf
    rcases hf with hf | hf <;>
      simp [createDOMSelector, ht, hf, show falsy (some "attribute") = false from rfl]
  · intro ht hf
    simp [createDOMSelector, ht, hf, show falsy (some "xpath") = false from rfl]

/-- Witness for C33: a class selector with value `buy-button`. -/
theorem C33_createDOMSelector_witness :
    createDOMSelector (some { type := some "class", value := some "buy-button", name := none })
      = .ok ".buy-button" :=
  (C33_createDOMSelector { type := some "class", value := some "buy-button", name := none }
    "buy-button" "" "").1 rfl rfl (by decide)

/-- C34 (code bug): `validateExecutionConfig` accepts a config whose `retryCount` is 1.5,
which is not an integer. -/
theorem C34_fraction_accepted :
    validateExecutionConfig (some fractionalConfig) =
      .ok { targetUrl := "https://example.com", clickSelector := ".btn",
            clickDelay := none, retryCount := some (.fin (3 / 2)), retryDelay := none } := by
  have h : ¬ ((3 / 2 : ℚ) < 0) := by norm_num
  simp [validateExecutionConfig, fractionalConfig, JSVal.truthy, JSVal.typeof, JSVal.ltZero,
    JSNum.ltZero, JSVal.asStr, JSVal.asNum, h]

/-- C35: in a reachable world, for a stored task whose `retryCount` is not `Infinity` and for
every behaviour `exec` of the attempt executor, the run of the retry controller started by one
`executeTask` call is over after finitely many callbacks: for some number `n ≥ 1` of attempts
and one event `ev`, with any amount of fuel from `fuel0` on the run is gone, every listener has
received `ev` and no other event, `ev` carries the outcome of attempt `n`, and the record
counts `n` attempts and is `completed` if `ev` reports success and `failed` otherwise. -/
theorem C35_run_terminates (w : World) (id : TaskId) (tc : TaskInfo) (exec : Nat → Bool)
    (hw : Reachable w) (ht : mapGet w.scheduledTasks id = some tc)
    (hfin : tc.config.retryCount ≠ some .posInf) :
    (executeTask w id).1 = .ok (.taskStatus id .executing) ∧
    ∃ n ev fuel0, 1 ≤ n ∧ ev.taskId = id ∧ ev.attemptCount = n ∧ ev.success = exec n ∧
      ∀ fuel, fuel0 ≤ fuel →
        findProc (driveProc exec w.nextPid fuel (executeTask w id).2).procs w.nextPid = none ∧
        (driveProc exec w.nextPid fuel (executeTask w id).2).delivered =
          w.delivered ++ w.completionCallbacks.map (fun cb => (cb.ident, ev)) ∧
        ∃ r2, mapGet (driveProc exec w.nextPid fuel (executeTask w id).2).executionStatus id =
            some r2 ∧
          r2.attemptCount = n ∧
          ((ev.success = true ∧ r2.status = .completed) ∨
           (ev.success = false ∧ r2.status = .failed)) := by
  have hk := hw.inv.sameKeys id
  simp only [mapHas, ht, Option.isSome_some] at hk
  cases hr : mapGet w.executionStatus id with
  | none => simp [hr] at hk
  | some r =>
    rw [executeTask_result ht hr]
    refine ⟨rfl, ?_⟩
    have hp0 : findProc (w.procs ++
        [{ pid := w.nextPid, taskId := id, config := tc.config, currentAttempt := 0,
           maxRetries := orDefault tc.config.retryCount 3, phase := .immediate }]) w.nextPid =
        some { pid := w.nextPid, taskId := id, config := tc.config, currentAttempt := 0,
               maxRetries := orDefault tc.config.retryCount 3, phase := .immediate } :=
      findProc_append_fresh (fun p hp => Nat.ne_of_lt (hw.pidsFresh p hp))
    have hr0 : mapGet (mapSet w.executionStatus id { r with status := .executing }) id =
        some { r with status := .executing } := mapGet_mapSet_self _ _ _
    obtain ⟨hp1, hr1, hd1, hc1⟩ := attemptExecution_inFlight
      (w := { clearTaskTimer w id with
        executionStatus := mapSet w.executionStatus id { r with status := .executing }
        procs := w.procs ++
          [{ pid := w.nextPid, taskId := id, config := tc.config, currentAttempt := 0,
             maxRetries := orDefault tc.config.retryCount 3, phase := .immediate }]
        nextPid := w.nextPid + 1 })
      tc.config 1 (orDefault tc.config.retryCount 3) hp0 hr0
    obtain ⟨N, hN⟩ := natLt_bound_exists (orDefault_ne_posInf 3 hfin)
    obtain ⟨n, ev, hn, hrun⟩ := driveProc_inFlight_terminates exec N N _
      { pid := w.nextPid, taskId := id, config := tc.config, currentAttempt := 1,
        maxRetries := orDefault tc.config.retryCount 3,
        phase := .inFlight (simulateClickDelay tc.config) }
      _ _ hN (by omega) hp1 rfl hr1 rfl
    have hev := hrun (2 * N + 1) (le_refl _)
    refine ⟨n, ev, 2 * N + 2, hn, hev.2.2.1, hev.2.2.2.1, hev.2.2.2.2.1, fun fuel hf => ?_⟩
    obtain ⟨f, rfl⟩ : ∃ f, fuel = f + 1 := ⟨fuel - 1, by omega⟩
    rw [driveProc_immediate exec f hp0 rfl]
    obtain ⟨h1, h2, _, _, _, h3⟩ := hrun f (by omega)
    refine ⟨h1, ?_, h3⟩
    rw [hd1, hc1] at h2
    simpa [clearTaskTimer_delivered] using h2

/-- C35 (witness): the scheduled sample task (`retryCount: 2`) with an attempt executor that
always fails. -/
theorem C35_run_terminates_witness :
    Reachable (worldAfter scheduledEvents) ∧
    mapGet (worldAfter scheduledEvents).scheduledTasks "t1" =
      some { taskId := "t1", config := sampleAccepted, executionTime := .valid 5000 } ∧
    sampleAccepted.retryCount ≠ some .posInf ∧
    (executeTask (worldAfter scheduledEvents) "t1").1 = .ok (.taskStatus "t1" .executing) ∧
    ∃ n ev fuel0, 1 ≤ n ∧ ev.taskId = "t1" ∧ ev.attemptCount = n ∧
      ev.success = alwaysFails n ∧
      ∀ fuel, fuel0 ≤ fuel →
        findProc (driveProc alwaysFails (worldAfter scheduledEvents).nextPid fuel
          (executeTask (worldAfter scheduledEvents) "t1").2).procs
            (worldAfter scheduledEvents).nextPid = none ∧
        (driveProc alwaysFails (worldAfter scheduledEvents).nextPid fuel
          (executeTask (worldAfter scheduledEvents) "t1").2).delivered =
          (worldAfter scheduledEvents).delivered ++
            (worldAfter scheduledEvents).completionCallbacks.map (fun cb => (cb.ident, ev)) ∧
        ∃ r2, mapGet (driveProc alwaysFails (worldAfter scheduledEvents).nextPid fuel
            (executeTask (worldAfter scheduledEvents) "t1").2).executionStatus "t1" = some r2 ∧
          r2.attemptCount = n ∧
          ((ev.success = true ∧ r2.status = .completed) ∨
           (ev.success = false ∧ r2.status = .failed)) :=
  ⟨reachable_worldAfter _ (by decide), by decide, by decide,
    C35_run_terminates (worldAfter scheduledEvents) "t1"
      { taskId := "t1", config := sampleAccepted, executionTime := .valid 5000 } alwaysFails
      (reachable_worldAfter _ (by decide)) (by decide) (by decide)⟩

/-- C36: once `schedule` has succeeded for a task in a reachable world, after any sequence of
events (calls of the public methods, timer firings, attempt starts and outcomes, clock ticks)
the record of the task still exists, `getExecutionStatus` returns it, and every further
`schedule` call with the same id is rejected as a duplicate and changes nothing. -/
theorem C36_record_never_removed (w0 w2 : World) (tc0 tc : TaskRequest) (es : List Event)
    (hw : Reachable w0) (hs : succeeded (schedule w0 (some tc0)).1 = true)
    (hrun : runEvents (schedule w0 (some tc0)).2 es = some w2)
    (hid : tc.taskId = tc0.taskId) :
    (∃ r, mapGet w2.executionStatus tc0.taskId = some r ∧
      getExecutionStatus w2 tc0.taskId = (.ok (.statusInfo r), w2)) ∧
    schedule w2 (some tc) = (.error (.alreadyScheduled tc0.taskId), w2) := by
  have hw1 : Reachable (schedule w0 (some tc0)).2 := Reachable.step (.schedule (some tc0)) hw rfl
  rcases schedule_cases w0 (some tc0) with ⟨e, he⟩ | ⟨tc1, config, t, hreq, hne, hnew, hcfg, ht, hlt⟩
  · rw [he] at hs; simp [succeeded] at hs
  · simp only [Option.some.injEq] at hreq; subst hreq
    have hr1 : mapGet (schedule w0 (some tc0)).2.executionStatus tc0.taskId =
        some (createStatusInfo tc0.taskId config t) := by
      rw [schedule_ok hne hnew hcfg ht hlt]
      exact mapGet_mapSet_self _ _ _
    obtain ⟨r2, hr2⟩ := runEvents_record es hw1 hrun hr1
    have hw2 : Reachable w2 := reachable_runEvents es hw1 hrun
    have hhas : mapHas w2.scheduledTasks tc0.taskId = true := by
      rw [← hw2.inv.sameKeys]; simp [mapHas, hr2]
    refine ⟨⟨r2, hr2, ?_⟩, ?_⟩
    · simp [getExecutionStatus, hr2]
    · simp [schedule, hid, hne, hhas]

/-- C36 (witness): the sample task, scheduled in a fresh engine, after a successful run and a
cancellation. -/
theorem C36_record_never_removed_witness :
    Reachable (World.init 0) ∧
    succeeded (schedule (World.init 0) (some sampleTask)).1 = true ∧
    (∃ r, mapGet (worldAfter (completedEvents ++ [.cancelExecution "t1"])).executionStatus
        sampleTask.taskId = some r ∧
      getExecutionStatus (worldAfter (completedEvents ++ [.cancelExecution "t1"]))
        sampleTask.taskId =
          (.ok (.statusInfo r), worldAfter (completedEvents ++ [.cancelExecution "t1"]))) ∧
    schedule (worldAfter (completedEvents ++ [.cancelExecution "t1"])) (some bareRequest) =
      (.error (.alreadyScheduled sampleTask.taskId),
        worldAfter (completedEvents ++ [.cancelExecution "t1"])) :=
  ⟨Reachable.init 0, by decide,
    C36_record_never_removed (World.init 0) _ sampleTask bareRequest
      (completedEvents.tail ++ [.cancelExecution "t1"]) (Reachable.init 0) (by decide)
      (by decide) rfl⟩

/-- C37 (code bug): with an attempt executor that always fails, the task with `retryCount: 0`
makes three attempts and the task with `retryCount: 1` makes one, so the number of attempts is
not monotone in `retryCount`. -/
theorem C37_attempts_not_monotone :
    findProc (driveProc alwaysFails 0 8 (started (.num (.fin 0)))).procs 0 = none ∧
    attemptCountOf (driveProc alwaysFails 0 8 (started (.num (.fin 0)))) "t1" = some 3 ∧
    findProc (driveProc alwaysFails 0 8 (started (.num (.fin 1)))).procs 0 = none ∧
    attemptCountOf (driveProc alwaysFails 0 8 (started (.num (.fin 1)))) "t1" = some 1 := by
  decide

/-- C38 (counterexample): the sample task is paused and resumed while its first attempt is in
flight and the attempt succeeds; in this reachable world the task is `completed` while its
entry in `executionTimers` holds the handle of a timer that is still armed, and when that
timer fires the completed task is executed again. -/
theorem C38_counterexample :
    Reachable (worldAfter resumedInFlightEvents) ∧
    mapGet (worldAfter resumedInFlightEvents).executionTimers "t1" = some 1 ∧
    (findTimer (worldAfter resumedInFlightEvents).timers 1).map (fun t => t.taskId) =
      some "t1" ∧
    statusOf (worldAfter resumedInFlightEvents) "t1" = some .completed ∧
    (step (worldAfter resumedInFlightEvents) (.timerFire 1)).map (fun w => statusOf w "t1") =
      some (some .executing) :=
  ⟨reachable_worldAfter _ (by decide), by decide, by decide, by decide, by decide⟩

/-- C38 (amended): in every reachable world a task with an entry in `executionTimers` has a
record whose status is `scheduled`, `completed` or `failed`, and so has the task of every armed
timer: no timer is armed for a task that is executing, paused or cancelled. -/
theorem C38_timer_entry_status (w : World) (hw : Reachable w) :
    (∀ k tid, mapGet w.executionTimers k = some tid →
      ∃ r, mapGet w.executionStatus k = some r ∧
        (r.status = .scheduled ∨ r.status = .completed ∨ r.status = .failed)) ∧
    (∀ t ∈ w.timers, ∃ r, mapGet w.executionStatus t.taskId = some r ∧
        (r.status = .scheduled ∨ r.status = .completed ∨ r.status = .failed)) := by
  have h1 : ∀ k tid, mapGet w.executionTimers k = some tid →
      ∃ r, mapGet w.executionStatus k = some r ∧
        (r.status = .scheduled ∨ r.status = .completed ∨ r.status = .failed) := by
    intro k tid ht
    have hk := hw.inv.timerKnown k tid ht
    rw [← hw.inv.sameKeys k] at hk
    cases hr : mapGet w.executionStatus k with
    | none => simp [mapHas, hr] at hk
    | some r => exact ⟨r, rfl, hw.timerStatusOk k tid r ht hr⟩
  exact ⟨h1, fun t ht => h1 t.taskId t.timerId (hw.inv.recorded t ht)⟩

/-- C38 (witness): the world of the counterexample, where the task with the armed timer is
`completed`. -/
theorem C38_timer_entry_witness :
    Reachable (worldAfter resumedInFlightEvents) ∧
    mapGet (worldAfter resumedInFlightEvents).executionTimers "t1" = some 1 ∧
    ∃ r, mapGet (worldAfter resumedInFlightEvents).executionStatus "t1" = some r ∧
      (r.status = .scheduled ∨ r.status = .completed ∨ r.status = .failed) :=
  ⟨reachable_worldAfter _ (by decide), by decide,
    (C38_timer_entry_status (worldAfter resumedInFlightEvents)
      (reachable_worldAfter _ (by decide))).1 "t1" 1 (by decide)⟩

/-- C39: in every reachable world each record is well formed: status `completed` implies that
`result` and `completedAt` are set, status `failed` implies that `error` and `completedAt` are
set, status `cancelled` implies that `cancelledAt` is set, and `attemptCount` is 0 exactly
when `lastAttemptTime` is unset. -/
theorem C39_records_well_formed (w : World) (k : TaskId) (r : StatusInfo) (hw : Reachable w)
    (hr : mapGet w.executionStatus k = some r) :
    (r.status = .completed → r.result ≠ none ∧ r.completedAt ≠ none) ∧
    (r.status = .failed → r.error ≠ none ∧ r.completedAt ≠ none) ∧
    (r.status = .cancelled → r.cancelledAt ≠ none) ∧
    (r.attemptCount = 0 ↔ r.lastAttemptTime = none) :=
  hw.wellFormed k r hr

/-- C39 (witness): the record of the sample task after its successful first attempt. -/
theorem C39_records_well_formed_witness :
    Reachable (worldAfter completedEvents) ∧
    mapGet (worldAfter completedEvents).executionStatus "t1" = some completedRecord ∧
    (completedRecord.status = .completed →
      completedRecord.result ≠ none ∧ completedRecord.completedAt ≠ none) ∧
    (completedRecord.status = .failed →
      completedRecord.error ≠ none ∧ completedRecord.completedAt ≠ none) ∧
    (completedRecord.status = .cancelled → completedRecord.cancelledAt ≠ none) ∧
    (completedRecord.attemptCount = 0 ↔ completedRecord.lastAttemptTime = none) :=
  ⟨reachable_worldAfter _ (by decide), by decide,
    C39_records_well_formed (worldAfter completedEvents) "t1" completedRecord
      (reachable_worldAfter _ (by decide)) (by decide)⟩

/-- C40: in every reachable world `executionStatus` and `scheduledTasks` have the same keys, so
`executeTask` never takes its branch for a missing record (the only error it throws is the one
for an unknown task), the mapping function of `listScheduledTasks` finds the record of every
stored task, and `listScheduledTasks` returns a list. -/
theorem C40_same_keys (w : World) (hw : Reachable w) :
    (∀ k, mapHas w.executionStatus k = mapHas w.scheduledTasks k) ∧
    (∀ k e, (executeTask w k).1 = .error e → e = .taskNotFound k) ∧
    (∀ e ∈ w.scheduledTasks, ∃ r, mapGet w.executionStatus e.2.taskId = some r) ∧
    (w.scheduledTasks.map (fun e => e.2)).mapM (summarize w) = .ok (summaries w) ∧
    (∀ filter, ∃ l, listScheduledTasks w filter = (.ok (.taskList l), w)) := by
  refine ⟨hw.inv.sameKeys, ?_, ?_, hw.mapM_summaries, ?_⟩
  · intro k e he
    cases ht : mapGet w.scheduledTasks k with
    | none =>
      simp only [executeTask, ht] at he
      injection he with he
      exact he.symm
    | some tc =>
      have hk := hw.inv.sameKeys k
      simp only [mapHas, ht, Option.isSome_some] at hk
      cases hr : mapGet w.executionStatus k with
      | none => simp [hr] at hk
      | some r => rw [executeTask_result ht hr] at he; simp at he
  · intro e he
    obtain ⟨h1, r, hr⟩ := hw.record_of_task he
    exact ⟨r, by rw [h1]; exact hr⟩
  · intro filter
    exact ⟨_, hw.listScheduledTasks_eq filter⟩

/-- C40 (witness): the world with three scheduled tasks, one of them paused. -/
theorem C40_same_keys_witness :
    Reachable (worldAfter listEvents) ∧
    (∀ k, mapHas (worldAfter listEvents).executionStatus k =
      mapHas (worldAfter listEvents).scheduledTasks k) :=
  ⟨reachable_worldAfter _ (by decide),
    (C40_same_keys (worldAfter listEvents) (reachable_worldAfter _ (by decide))).1⟩

end AutomationEngine
